import Mathlib

/-!
# Mnemosyne MTM, persistent write-back mode (PWB-ETL): load and store barriers

A shallow embedding of `usermode/library/mtm/src/mode/pwb/barrier.c` and of
`lock_idx_swap` and the clock rollover functions (`mtm_rollover_enter`,
`mtm_rollover_exit`, `mtm_overflow`) from `usermode/src/mtm/mtm_i.h`.

Modelling conventions.

* `mtm_word_t` is a 64-bit word, embedded as a `Nat`; `~x` is `wnot x` and
  unsigned subtraction is `wsub`.
* A pointer to a `w_entry_t` is a `Nat` counted in units of `sizeof(w_entry_t)`
  (C pointer arithmetic); `0` is `NULL`.  The write-set array of the transaction
  occupies the pointers `base, base + 1, ...`; dereferencing `NULL` or a pointer
  outside the allocated array is a fault.
* The transaction descriptor `mtm_tx_t`, its `mode_data_t` and the shared words
  (lock table, clock, memory) are flattened into one record `State`.
* A barrier either returns, restarts the transaction (the non-returning
  `mtm_pwb_restart_transaction`), faults, fails an assertion, or exhausts the
  fuel that bounds its `goto restart` loops and its chain walks.
* The build options are read as: `READ_LOCKED_DATA`, `INTERNAL_STATS` and
  `EPOCH_GC` undefined, `CM != CM_PRIORITY`; `ROLLOVER_CLOCK` and
  `LOCK_IDX_SWAP` are fields of `Config`. The rollover functions exist only in
  a build with `ROLLOVER_CLOCK`.
-/

namespace Mnemosyne

/-! ## Words -/

/-- The value `~(mtm_word_t)0`. -/
def WORD_MAX : Nat := 2 ^ 64 - 1

/-- Bitwise complement `~x` of a machine word. -/
def wnot (x : Nat) : Nat := WORD_MAX - x % 2 ^ 64

/-- Unsigned subtraction `a - b` on `uintptr_t`. -/
def wsub (a b : Nat) : Nat := (a % 2 ^ 64 + (2 ^ 64 - b % 2 ^ 64)) % 2 ^ 64

/-! ## Status and restart reasons (`mtm_i.h`) -/

def TX_IDLE : Nat := 0
def TX_ACTIVE : Nat := 1
def TX_COMMITTED : Nat := 2
def TX_ABORTED : Nat := 3
def TX_IRREVOCABLE : Nat := 4
def TX_SERIAL : Nat := 8

inductive mtm_restart_reason where
  | RESTART_REALLOCATE
  | RESTART_LOCKED_READ
  | RESTART_LOCKED_WRITE
  | RESTART_VALIDATE_READ
  | RESTART_VALIDATE_WRITE
  | RESTART_VALIDATE_COMMIT
  | RESTART_NOT_READONLY
  | RESTART_USER_RETRY
  deriving DecidableEq, Repr

open mtm_restart_reason

/-- Verdicts of the contention manager (`cm_conflict`). -/
inductive cm_verdict where
  | CM_RESTART
  | CM_RESTART_NO_LOAD
  | CM_RESTART_LOCKED
  deriving DecidableEq, Repr

open cm_verdict

/-! ## Data model -/

/-- A pointer to a lock word: into the global table `locks[]` or into the
private pseudo-lock table of the transaction. -/
inductive LockPtr where
  | glob (i : Nat)
  | priv (i : Nat)
  deriving DecidableEq, Repr

/-- The volatile write-set entry `w_entry_t`. -/
structure w_entry_t where
  addr : Nat
  value : Nat
  mask : Nat
  version : Nat
  lock : LockPtr
  next : Nat
  w_entry_nv : Option Nat
  deriving DecidableEq, Repr

/-- The persistent twin `w_entry_nv_t` of a write-set entry. -/
structure w_entry_nv_t where
  address : Nat
  value : Nat
  next_cache_neighbor : Nat
  deriving DecidableEq, Repr

/-- The volatile write set `w_set_t`: `base` is the pointer `w_set.entries`,
`entries` the content of the allocated array. -/
structure w_set_t where
  base : Nat
  entries : List w_entry_t
  nb_entries : Nat
  size : Nat
  reallocate : Nat
  deriving DecidableEq, Repr

/-- The persistent write set `w_set_nv_t`. -/
structure w_set_nv_t where
  entries : List w_entry_nv_t
  nb_entries : Nat
  deriving DecidableEq, Repr

/-- The read-set entry `r_entry_t`. -/
structure r_entry_t where
  version : Nat
  lock : LockPtr
  deriving DecidableEq, Repr

/-- The read set `r_set_t`. -/
structure r_set_t where
  entries : List r_entry_t
  nb_entries : Nat
  size : Nat
  deriving DecidableEq, Repr

/-- The transaction descriptor (`status`, `can_extend`, `stack_base`,
`stack_size`, `local_undo`), its mode data (`start`, `end`, `r_set`, `w_set`,
`w_set_nv`, the private lock table) and the shared words (`locks`, `gclock`,
user memory `mem`). -/
structure State where
  status : Nat
  can_extend : Bool
  stack_base : Nat
  stack_size : Nat
  local_undo : List (Nat × Nat)
  start : Nat
  end_ : Nat
  r_set : r_set_t
  w_set : w_set_t
  w_set_nv : w_set_nv_t
  private_locks : Nat → Nat
  locks : Nat → Nat
  gclock : Nat
  mem : Nat → Nat

/-- Compile-time parameters whose definitions live in headers outside this
source tree. -/
structure Config where
  LOCK_SHIFT : Nat
  LOCK_ARRAY_SIZE : Nat
  PRIVATE_LOCK_ARRAY_SIZE : Nat
  LOCK_IDX_SWAP : Bool
  CACHELINE_SIZE : Nat
  ROLLOVER_CLOCK : Bool
  VERSION_MAX : Nat

/-- The contention manager interface used by the barriers (`cm.h`):
`cm_conflict(tx, lock, &l)` yields a verdict and the possibly updated `l`;
`cm_upgrade_lock(tx)` is the read-to-write upgrade hint. -/
structure CM where
  cm_conflict : State → LockPtr → Nat → cm_verdict × Nat
  cm_upgrade_lock : State → Bool

/-- How a barrier invocation ends. `restart reason s` is the call
`mtm_pwb_restart_transaction(tx, reason)`; `restart_no_tx arg s` is the call
`mtm_pwb_restart_transaction(arg)` as the validate-read abort of the load
barrier writes it, with a single argument: the restart reason stands where the
descriptor is expected and no reason is passed. -/
inductive Outcome (α : Type) where
  | ret (val : α) (s : State)
  | restart (reason : mtm_restart_reason) (s : State)
  | restart_no_tx (arg : mtm_restart_reason) (s : State)
  | fault (s : State)
  | assert_fail (s : State)
  | out_of_fuel

/-- Result of a read-only walk over a chain of write-set entries. -/
inductive Walk (α : Type) where
  | done (a : α)
  | fault
  | out_of_fuel
  deriving DecidableEq, Repr

/-! ## Lock words and hashing -/

/-- Modelled from the spec: the macro `LOCK_GET_OWNED` is absent; a lock word
is in owned form when its low bit is 1. -/
def LOCK_GET_OWNED (l : Nat) : Bool := l % 2 = 1

/-- Modelled from the spec: the macro `LOCK_GET_ADDR` is absent; the upper bits
of an owned-form word are the pointer to the owner's write-set entry. -/
def LOCK_GET_ADDR (l : Nat) : Nat := l / 2

/-- Modelled from the spec: the macro `LOCK_GET_TIMESTAMP` is absent; the upper
bits of a free-form word are the version timestamp. -/
def LOCK_GET_TIMESTAMP (l : Nat) : Nat := l / 2

/-- Modelled from the spec: the macro `LOCK_SET_ADDR` is absent; it builds the
owned-form word for a write-set entry pointer. -/
def LOCK_SET_ADDR (w : Nat) : Nat := 2 * w + 1

/-- Modelled from the spec: the macro `LOCK_SET_TIMESTAMP` is absent; it builds
the free-form word carrying a timestamp. -/
def LOCK_SET_TIMESTAMP (t : Nat) : Nat := 2 * t

/-- The function `lock_idx_swap` of `mtm_i.h` on `unsigned int`. -/
def lock_idx_swap (idx : Nat) : Nat :=
  ((idx % 2 ^ 32) &&& (2 ^ 32 - 1 - 0xFFFF)) |||
    ((((idx % 2 ^ 32) &&& 0x00FF) <<< 8) % 2 ^ 32) |||
    (((idx % 2 ^ 32) &&& 0xFF00) >>> 8)

/-- Modelled from the spec: the macro `LOCK_IDX` is absent;
`hash(addr) = (addr >> SHIFT_BITS) mod N`, with the optional byte swap. -/
def LOCK_IDX (cfg : Config) (addr : Nat) : Nat :=
  let idx := (addr >>> cfg.LOCK_SHIFT) % cfg.LOCK_ARRAY_SIZE
  if cfg.LOCK_IDX_SWAP then lock_idx_swap idx else idx

/-- Modelled from the spec: the macro `GET_LOCK` is absent; the bucket of an
address in the global lock table. -/
def GET_LOCK (cfg : Config) (addr : Nat) : LockPtr := LockPtr.glob (LOCK_IDX cfg addr)

/-- Modelled from the spec: the macro `PRIVATE_GET_LOCK` is absent; the bucket
of an address in the private table, "same shape, per-transaction". -/
def PRIVATE_GET_LOCK (cfg : Config) (addr : Nat) : LockPtr :=
  LockPtr.priv ((addr >>> cfg.LOCK_SHIFT) % cfg.PRIVATE_LOCK_ARRAY_SIZE)

/-- Modelled from the spec: the macro `BLOCK_ADDR` is absent; the address of
the cache block holding `addr`. -/
def BLOCK_ADDR (cfg : Config) (addr : Nat) : Nat := addr - addr % cfg.CACHELINE_SIZE

/-- An atomic load of a lock word (`ATOMIC_LOAD_ACQ(lock)`). -/
def load_lock (s : State) : LockPtr → Nat
  | LockPtr.glob i => s.locks i
  | LockPtr.priv i => s.private_locks i

/-- A store to a lock word (`*lock = v`, or the successful half of a CAS). -/
def store_lock (s : State) (p : LockPtr) (v : Nat) : State :=
  match p with
  | LockPtr.glob i => { s with locks := Function.update s.locks i v }
  | LockPtr.priv i => { s with private_locks := Function.update s.private_locks i v }

/-! ## Access to write-set entries through pointers -/

/-- Dereference of a `w_entry_t *`: `none` for `NULL` and for a pointer outside
the allocated array. -/
def w_deref (ws : w_set_t) (p : Nat) : Option w_entry_t :=
  if p ≠ 0 ∧ ws.base ≤ p then ws.entries[p - ws.base]? else none

/-- The write set with the entry at pointer `p` replaced. -/
def w_assign (ws : w_set_t) (p : Nat) (e : w_entry_t) : w_set_t :=
  { ws with entries := ws.entries.set (p - ws.base) e }

/-- A field assignment `p->field = ...`; the error carries the state at the
fault. -/
def w_modify (p : Nat) (f : w_entry_t → w_entry_t) (s : State) : Except State State :=
  match w_deref s.w_set p with
  | some e => Except.ok { s with w_set := w_assign s.w_set p (f e) }
  | none => Except.error s

/-- A read through `p->w_entry_nv`. -/
def nv_deref (s : State) (p : Nat) : Option w_entry_nv_t :=
  match w_deref s.w_set p with
  | none => none
  | some e =>
    match e.w_entry_nv with
    | none => none
    | some q => s.w_set_nv.entries[q]?

/-- A field assignment `p->w_entry_nv->field = ...`. -/
def nv_modify (p : Nat) (f : w_entry_nv_t → w_entry_nv_t) (s : State) : Except State State :=
  match w_deref s.w_set p with
  | none => Except.error s
  | some e =>
    match e.w_entry_nv with
    | none => Except.error s
    | some q =>
      match s.w_set_nv.entries[q]? with
      | none => Except.error s
      | some n =>
        Except.ok { s with w_set_nv := { s.w_set_nv with entries := s.w_set_nv.entries.set q (f n) } }

/-! ## Helpers that live outside this source tree -/

/-- Modelled from the spec: `mask_new_value` (mode/common/mask.h) is absent.
"For the first write of a given address, value_stored = (mem_value & ~mask) |
(value & mask)"; "for subsequent writes to the same entry (mask non-zero), only
mask's bits overwrite". The entry's mask accumulates the written bits. -/
def mask_new_value (entry address value mask : Nat) (s : State) : Except State State :=
  match w_deref s.w_set entry with
  | none => Except.error s
  | some e =>
    let old := if e.mask = 0 then s.mem address else e.value
    let e' : w_entry_t :=
      { e with value := (old &&& wnot mask) ||| (value &&& mask), mask := e.mask ||| mask }
    Except.ok { s with w_set := w_assign s.w_set entry e' }

/-- Modelled from the spec: `mtm_has_read` (rwset.c) is absent; it answers
whether "the lock is already in its read set", returning the entry found. -/
def mtm_has_read (s : State) (lock : LockPtr) : Option r_entry_t :=
  (s.r_set.entries.take s.r_set.nb_entries).find? (fun r => decide (r.lock = lock))

/-- Modelled from the spec: `mtm_validate` (rwset.c) is absent. "For each r in
read_set, observe r.lock; pass iff either (a) free-form with timestamp <= end,
or (b) owned-form pointing into this tx's write set." -/
def mtm_validate (s : State) : Bool :=
  (s.r_set.entries.take s.r_set.nb_entries).all (fun r =>
    let l := load_lock s r.lock
    if LOCK_GET_OWNED l then
      decide (s.w_set.base ≤ LOCK_GET_ADDR l ∧
        LOCK_GET_ADDR l < s.w_set.base + s.w_set.nb_entries)
    else decide (LOCK_GET_TIMESTAMP l ≤ s.end_))

/-- Modelled from the spec: `mtm_allocate_rs_entries` (rwset.c) is absent; it
grows the read-set array when it is full (here: doubles it). -/
def mtm_allocate_rs_entries (s : State) : State :=
  { s with r_set :=
    { s.r_set with
      entries := s.r_set.entries ++
        List.replicate (2 * s.r_set.size + 1 - s.r_set.entries.length) ⟨0, LockPtr.glob 0⟩,
      size := 2 * s.r_set.size + 1 } }

/-- Modelled from the spec: `mtm_local_LB` (local.c) is absent; it registers a
local undo record for a stack word before it is overwritten. -/
def mtm_local_LB (s : State) (addr : Nat) : State :=
  { s with local_undo := s.local_undo ++ [(addr, s.mem addr)] }

/-- The stack filter shared by both barriers:
`addr <= stack_base && addr > stack_base - stack_size`. -/
def stack_filter (s : State) (addr : Nat) : Bool :=
  decide (addr ≤ s.stack_base ∧ addr > wsub s.stack_base s.stack_size)

/-! ## barrier.c -/

/-- The function `pwb_extend`: `none` when `assert(tx->status == TX_ACTIVE)`
fails, otherwise the returned flag and the new state. -/
def pwb_extend (cfg : Config) (s : State) : Option (Bool × State) :=
  if s.status ≠ TX_ACTIVE then none
  else
    let now := s.gclock
    if cfg.ROLLOVER_CLOCK ∧ now ≥ cfg.VERSION_MAX then some (false, s)
    else if mtm_validate s then some (true, { s with end_ := now })
    else some (false, s)

/-- The function `initialize_write_set_entry`; the pointer it returns is its
first argument `entry`. -/
def initialize_write_set_entry (entry address value mask version : Nat) (lock : LockPtr)
    (s : State) : Except State State := do
  let s ← w_modify entry (fun e => { e with addr := address }) s
  let s ← w_modify entry (fun e => { e with lock := lock }) s
  let s ← mask_new_value entry address value mask s
  let s ← w_modify entry (fun e => { e with version := version }) s
  let s ← w_modify entry (fun e => { e with next := 0 }) s
  nv_modify entry (fun n => { n with next_cache_neighbor := 0 }) s

/-- The function `insert_write_set_entry_after(new_entry, tail, transaction,
cache_neighbor)`, parameters in the order of its C declaration. -/
def insert_write_set_entry_after (new_entry tail cache_neighbor : Nat)
    (s : State) : Except State State :=
  (if tail ≠ 0 then
      match w_deref s.w_set tail with
      | none => Except.error s
      | some t =>
        w_modify new_entry (fun e => { e with next := t.next }) s >>= fun s =>
        w_modify tail (fun e => { e with next := new_entry }) s
    else w_modify new_entry (fun e => { e with next := 0 }) s) >>= fun s =>
  (if cache_neighbor ≠ 0 then
      match nv_deref s cache_neighbor with
      | none => Except.error s
      | some c =>
        nv_modify new_entry
          (fun n => { n with next_cache_neighbor := c.next_cache_neighbor }) s >>= fun s =>
        nv_modify cache_neighbor (fun n => { n with next_cache_neighbor := new_entry }) s
    else nv_modify new_entry (fun n => { n with next_cache_neighbor := 0 }) s) >>= fun s =>
  match w_deref s.w_set new_entry with
  | none => Except.error s
  | some e =>
    nv_modify new_entry (fun n => { n with value := e.value }) s >>= fun s =>
    nv_modify new_entry (fun n => { n with address := e.addr }) s >>= fun s =>
    Except.ok { s with
      w_set := { s.w_set with nb_entries := s.w_set.nb_entries + 1 },
      w_set_nv := { s.w_set_nv with nb_entries := s.w_set_nv.nb_entries + 1 } }

/-- What `matching_write_set_entry` hands back: the returned pointer and the
final contents of the two output parameters (`none` when the caller passed a
`NULL` output pointer). -/
structure match_result where
  entry : Nat
  list_tail : Option Nat
  last_cache_neighbor : Option Nat
  deriving DecidableEq, Repr

/-- The function `matching_write_set_entry`; `this_entry` starts at
`list_head`, the fuel bounds the number of loop iterations. -/
def matching_write_set_entry (cfg : Config) (ws : w_set_t) (address : Nat) :
    Nat → Nat → Option Nat → Option Nat → Walk match_result
  | 0, _, _, _ => Walk.out_of_fuel
  | fuel + 1, this_entry, list_tail, last_cache_neighbor =>
    match w_deref ws this_entry with
    | none => Walk.fault
    | some e =>
      let last_cache_neighbor :=
        if last_cache_neighbor ≠ none ∧ BLOCK_ADDR cfg address = BLOCK_ADDR cfg e.addr
        then some this_entry else last_cache_neighbor
      if address = e.addr then
        Walk.done ⟨this_entry, list_tail, last_cache_neighbor⟩
      else if e.next = 0 then
        Walk.done ⟨0, if list_tail ≠ none then some this_entry else list_tail,
          last_cache_neighbor⟩
      else matching_write_set_entry cfg ws address fuel e.next list_tail last_cache_neighbor

/-- The body of `pwb_write_internal` from the label `restart_no_load` on,
for the current contents `l` and `version` of the locals of those names. A
`goto restart` re-enters it with the freshly loaded lock word
(`l = ATOMIC_LOAD_ACQ(lock)`), a `goto restart_no_load` with `l` as it
stands. -/
def pwb_write_loop (cfg : Config) (cm : CM) (addr value mask : Nat) (lock : LockPtr)
    (ENABLE_ISOLATION : Bool) : Nat → Nat → Nat → State → Outcome Nat
  | 0, _, _, _ => Outcome.out_of_fuel
  | fuel + 1, l, version, s =>
    if LOCK_GET_OWNED l then
      let write_set_head := LOCK_GET_ADDR l
      if s.w_set.base ≤ write_set_head ∧
          write_set_head < s.w_set.base + s.w_set.nb_entries then
        match matching_write_set_entry cfg s.w_set addr (fuel + 1) write_set_head
            (some 0) (some 0) with
        | Walk.fault => Outcome.fault s
        | Walk.out_of_fuel => Outcome.out_of_fuel
        | Walk.done r =>
          let matching_entry := r.entry
          let write_set_tail := r.list_tail.getD 0
          let last_entry_in_same_cache_block := r.last_cache_neighbor.getD 0
          if matching_entry ≠ 0 then
            match w_deref s.w_set matching_entry with
            | none => Outcome.fault s
            | some m =>
              if m.mask ≠ 0 then
                match mask_new_value matching_entry addr value mask s with
                | Except.error s1 => Outcome.fault s1
                | Except.ok s1 => Outcome.ret matching_entry s1
              else Outcome.ret matching_entry s
          else if s.w_set.nb_entries = s.w_set.size then
            Outcome.restart RESTART_REALLOCATE
              { s with w_set := { s.w_set with size := s.w_set.size * 2, reallocate := 1 } }
          else
            let w := s.w_set.base + s.w_set.nb_entries
            match w_modify w (fun e => { e with w_entry_nv := some s.w_set_nv.nb_entries }) s with
            | Except.error s1 => Outcome.fault s1
            | Except.ok s1 =>
              match w_deref s1.w_set write_set_tail with
              | none => Outcome.fault s1
              | some t =>
                let version := t.version
                match initialize_write_set_entry w addr value mask version lock s1 with
                | Except.error s2 => Outcome.fault s2
                | Except.ok s2 =>
                  let initialized_entry := w
                  match insert_write_set_entry_after write_set_tail initialized_entry
                      last_entry_in_same_cache_block s2 with
                  | Except.error s3 => Outcome.fault s3
                  | Except.ok s3 => Outcome.ret initialized_entry s3
      else if ¬ ENABLE_ISOLATION then Outcome.assert_fail s
      else
        match cm.cm_conflict s lock l with
        | (CM_RESTART, _) =>
          pwb_write_loop cfg cm addr value mask lock ENABLE_ISOLATION fuel (load_lock s lock)
            version s
        | (CM_RESTART_NO_LOAD, l1) =>
          pwb_write_loop cfg cm addr value mask lock ENABLE_ISOLATION fuel l1 version s
        | (CM_RESTART_LOCKED, _) => Outcome.restart RESTART_LOCKED_WRITE s
    else
      let version := if ENABLE_ISOLATION then LOCK_GET_TIMESTAMP l else version
      if ENABLE_ISOLATION ∧ version > s.end_ ∧
          (¬ s.can_extend ∨ mtm_has_read s lock ≠ none) then
        Outcome.restart RESTART_VALIDATE_WRITE s
      else if s.w_set.nb_entries = s.w_set.size then
        Outcome.restart RESTART_REALLOCATE
          { s with w_set := { s.w_set with size := s.w_set.size * 2, reallocate := 1 } }
      else
        let w := s.w_set.base + s.w_set.nb_entries
        if ENABLE_ISOLATION ∧ load_lock s lock ≠ l then
          pwb_write_loop cfg cm addr value mask lock ENABLE_ISOLATION fuel (load_lock s lock)
            version s
        else
          let s1 := store_lock s lock (LOCK_SET_ADDR w)
          let write_set_tail := 0
          match initialize_write_set_entry w addr value mask version lock s1 with
          | Except.error s2 => Outcome.fault s2
          | Except.ok s2 =>
            let initialized_entry := w
            match insert_write_set_entry_after write_set_tail initialized_entry 0 s2 with
            | Except.error s3 => Outcome.fault s3
            | Except.ok s3 => Outcome.ret w s3

/-- The function `pwb_write_internal`. The returned value is the pointer to
the write-set entry, `0` for `NULL`. The local `version` is uninitialised in
C; the model starts it at 0 (it is read before being assigned only when
`ENABLE_ISOLATION` is 0). -/
def pwb_write_internal (cfg : Config) (cm : CM) (fuel : Nat) (s : State)
    (addr value mask : Nat) (ENABLE_ISOLATION : Bool) : Outcome Nat :=
  if s.status ≠ TX_ACTIVE then Outcome.assert_fail s
  else if stack_filter s addr then
    let prev_value := s.mem addr
    if mask = 0 then Outcome.ret 0 s
    else
      let value := if mask ≠ WORD_MAX then (prev_value &&& wnot mask) ||| (value &&& mask)
        else value
      let s1 := mtm_local_LB s addr
      Outcome.ret 0 { s1 with mem := Function.update s1.mem addr value }
  else
    let lock := if ENABLE_ISOLATION then GET_LOCK cfg addr else PRIVATE_GET_LOCK cfg addr
    pwb_write_loop cfg cm addr value mask lock ENABLE_ISOLATION fuel (load_lock s lock) 0 s

/-- Modelled from the spec: `pwb_write` (mode/pwb/barrier.h) is absent; the
load barrier uses it to "synthesise a zero-masked write through the store
barrier", with isolation enabled. -/
def pwb_write (cfg : Config) (cm : CM) (fuel : Nat) (s : State)
    (addr value mask : Nat) : Outcome Nat :=
  pwb_write_internal cfg cm fuel s addr value mask true

/-- The inner `while (1)` of `pwb_load_internal` over the chain of a
self-owned bucket: the value read for `addr`. -/
def load_chain_walk (ws : w_set_t) (mem : Nat → Nat) (addr : Nat) : Nat → Nat → Walk Nat
  | 0, _ => Walk.out_of_fuel
  | fuel + 1, w =>
    match w_deref ws w with
    | none => Walk.fault
    | some e =>
      if addr = e.addr then Walk.done (if e.mask = 0 then mem addr else e.value)
      else if e.next = 0 then Walk.done (mem addr)
      else load_chain_walk ws mem addr fuel e.next

/-- The tail of `pwb_load_internal` after the lock and version checks: append
to the read set (isolation only) and return the value. -/
def pwb_load_finish (ENABLE_ISOLATION : Bool) (lock : LockPtr) (version value : Nat)
    (s : State) : Outcome Nat :=
  if ENABLE_ISOLATION then
    let s1 := if s.r_set.nb_entries = s.r_set.size then mtm_allocate_rs_entries s else s
    if s1.r_set.nb_entries < s1.r_set.entries.length then
      Outcome.ret value { s1 with r_set :=
        { s1.r_set with
          entries := s1.r_set.entries.set s1.r_set.nb_entries ⟨version, lock⟩,
          nb_entries := s1.r_set.nb_entries + 1 } }
    else Outcome.fault s1
  else Outcome.ret value s

/-- The body of `pwb_load_internal` from the label `restart_no_load` on, for
the current content `l` of the local of that name; `goto restart` re-enters it
with the freshly loaded lock word. -/
def pwb_load_loop (cfg : Config) (cm : CM) (addr : Nat) (lock : LockPtr)
    (ENABLE_ISOLATION : Bool) : Nat → Nat → State → Outcome Nat
  | 0, _, _ => Outcome.out_of_fuel
  | fuel + 1, l, s =>
    if LOCK_GET_OWNED l then
      let w := LOCK_GET_ADDR l
      if s.w_set.base ≤ w ∧ w < s.w_set.base + s.w_set.nb_entries then
        match load_chain_walk s.w_set s.mem addr (fuel + 1) w with
        | Walk.fault => Outcome.fault s
        | Walk.out_of_fuel => Outcome.out_of_fuel
        | Walk.done value => Outcome.ret value s
      else if ¬ ENABLE_ISOLATION then Outcome.assert_fail s
      else
        match cm.cm_conflict s lock l with
        | (CM_RESTART, _) =>
          pwb_load_loop cfg cm addr lock ENABLE_ISOLATION fuel (load_lock s lock) s
        | (CM_RESTART_NO_LOAD, l1) =>
          pwb_load_loop cfg cm addr lock ENABLE_ISOLATION fuel l1 s
        | (CM_RESTART_LOCKED, _) => Outcome.restart RESTART_LOCKED_READ s
    else
      let value := s.mem addr
      if ENABLE_ISOLATION then
        let l2 := load_lock s lock
        if l ≠ l2 then pwb_load_loop cfg cm addr lock ENABLE_ISOLATION fuel l2 s
        else
          let version := LOCK_GET_TIMESTAMP l
          if version > s.end_ then
            if ¬ s.can_extend then Outcome.restart_no_tx RESTART_VALIDATE_READ s
            else
              match pwb_extend cfg s with
              | none => Outcome.assert_fail s
              | some (false, s1) => Outcome.restart_no_tx RESTART_VALIDATE_READ s1
              | some (true, s1) =>
                if load_lock s1 lock ≠ l2 then
                  pwb_load_loop cfg cm addr lock ENABLE_ISOLATION fuel l2 s1
                else pwb_load_finish ENABLE_ISOLATION lock version value s1
          else pwb_load_finish ENABLE_ISOLATION lock version value s
      else pwb_load_finish ENABLE_ISOLATION lock 0 value s

/-- The function `pwb_load_internal`. -/
def pwb_load_internal (cfg : Config) (cm : CM) (fuel : Nat) (s : State)
    (addr : Nat) (ENABLE_ISOLATION : Bool) : Outcome Nat :=
  if s.status ≠ TX_ACTIVE then Outcome.assert_fail s
  else if stack_filter s addr then Outcome.ret (s.mem addr) s
  else if ENABLE_ISOLATION ∧ cm.cm_upgrade_lock s then
    match pwb_write cfg cm fuel s addr 0 0 with
    | Outcome.ret w s1 =>
      if s1.status ≠ TX_ACTIVE then Outcome.ret 0 s1
      else if w = 0 then Outcome.assert_fail s1
      else
        match w_deref s1.w_set w with
        | none => Outcome.fault s1
        | some e => Outcome.ret (if e.mask = 0 then s1.mem addr else e.value) s1
    | Outcome.restart r s1 => Outcome.restart r s1
    | Outcome.restart_no_tx r s1 => Outcome.restart_no_tx r s1
    | Outcome.fault s1 => Outcome.fault s1
    | Outcome.assert_fail s1 => Outcome.assert_fail s1
    | Outcome.out_of_fuel => Outcome.out_of_fuel
  else
    let lock := if ENABLE_ISOLATION then GET_LOCK cfg addr else PRIVATE_GET_LOCK cfg addr
    pwb_load_loop cfg cm addr lock ENABLE_ISOLATION fuel (load_lock s lock) s

/-- A call whose result is not used (`void` entry points). -/
def Outcome.discard {α : Type} : Outcome α → Outcome Unit
  | Outcome.ret _ s => Outcome.ret () s
  | Outcome.restart r s => Outcome.restart r s
  | Outcome.restart_no_tx r s => Outcome.restart_no_tx r s
  | Outcome.fault s => Outcome.fault s
  | Outcome.assert_fail s => Outcome.assert_fail s
  | Outcome.out_of_fuel => Outcome.out_of_fuel

/-- The function `mtm_pwb_store`: a full-word store through
`pwb_write_internal(tx, addr, value, ~0, 1)`; it returns `void`. -/
def mtm_pwb_store (cfg : Config) (cm : CM) (fuel : Nat) (s : State)
    (addr value : Nat) : Outcome Unit :=
  (pwb_write_internal cfg cm fuel s addr value WORD_MAX true).discard

/-- The function `mtm_pwb_store2`: a masked store through
`pwb_write_internal(tx, addr, value, mask, 1)`; it returns `void`. -/
def mtm_pwb_store2 (cfg : Config) (cm : CM) (fuel : Nat) (s : State)
    (addr value mask : Nat) : Outcome Unit :=
  (pwb_write_internal cfg cm fuel s addr value mask true).discard

/-- The function `mtm_pwb_load`: it calls the load barrier and falls off its
end without a `return` statement, so the word handed to the caller is
indeterminate (`none`). -/
def mtm_pwb_load (cfg : Config) (cm : CM) (fuel : Nat) (s : State)
    (addr : Nat) : Outcome (Option Nat) :=
  match pwb_load_internal cfg cm fuel s addr true with
  | Outcome.ret _ s1 => Outcome.ret none s1
  | Outcome.restart r s1 => Outcome.restart r s1
  | Outcome.restart_no_tx r s1 => Outcome.restart_no_tx r s1
  | Outcome.fault s1 => Outcome.fault s1
  | Outcome.assert_fail s1 => Outcome.assert_fail s1
  | Outcome.out_of_fuel => Outcome.out_of_fuel

/-! ## Clock rollover (`mtm_i.h`, under `ROLLOVER_CLOCK`) -/

/-- The globals of the rollover protocol: the counter of active transactions
`tx_count` and the flag `tx_overflow` (both `int`, embedded without wrap-around:
signed overflow is undefined in C), the global clock `CLOCK` and the lock table
`locks`. The mutex `tx_count_mutex` and the condition `tx_reset` are not data:
the mutex makes each function body one atomic step up to a
`pthread_cond_wait`. -/
structure rollover_t where
  tx_count : Int
  tx_overflow : Int
  gclock : Nat
  locks : Nat → Nat

/-- How a critical section of the rollover protocol ends: the function returned
(`done`), the thread released the mutex and blocked in `pthread_cond_wait`
(`wait`), or `assert(tx_count >= 0)` failed. Each carries the globals as the
step left them. -/
inductive rollover_step where
  | done (g : rollover_t)
  | wait (g : rollover_t)
  | assert_fail (g : rollover_t)

/-- The function `mtm_rollover_enter`. A thread woken from the wait re-tests
the loop condition, which is a new call on the globals of that moment. -/
def mtm_rollover_enter (g : rollover_t) : rollover_step :=
  if g.tx_overflow ≠ 0 then rollover_step.wait g
  else rollover_step.done { g with tx_count := g.tx_count + 1 }

/-- The function `mtm_rollover_exit`; `memset(locks, 0, LOCK_ARRAY_SIZE *
sizeof(mtm_word_t))` zeroes the lock words `0 .. LOCK_ARRAY_SIZE - 1`. -/
def mtm_rollover_exit (cfg : Config) (g : rollover_t) : rollover_step :=
  let g1 : rollover_t := { g with tx_count := g.tx_count - 1 }
  if ¬ (g1.tx_count ≥ 0) then rollover_step.assert_fail g1
  else if g1.tx_overflow ≠ 0 ∧ g1.tx_count = 0 then
    rollover_step.done
      { g1 with
        locks := fun i => if i < cfg.LOCK_ARRAY_SIZE then 0 else g1.locks i,
        gclock := 0,
        tx_overflow := 0 }
  else rollover_step.done g1

/-- The function `mtm_overflow` up to its return or its `pthread_cond_wait`. -/
def mtm_overflow (cfg : Config) (g : rollover_t) : rollover_step :=
  let g1 : rollover_t := { g with tx_overflow := 1, tx_count := g.tx_count - 1 }
  if ¬ (g1.tx_count ≥ 0) then rollover_step.assert_fail g1
  else if g1.tx_count = 0 then
    let g2 : rollover_t :=
      { g1 with
        locks := fun i => if i < cfg.LOCK_ARRAY_SIZE then 0 else g1.locks i,
        gclock := 0,
        tx_overflow := 0 }
    rollover_step.done { g2 with tx_count := g2.tx_count + 1 }
  else rollover_step.wait g1

/-- The rest of `mtm_overflow` once its `pthread_cond_wait` has returned:
`tx_count++`. -/
def mtm_overflow_wakeup (g : rollover_t) : rollover_step :=
  rollover_step.done { g with tx_count := g.tx_count + 1 }

/-- The steps a thread can take in the rollover protocol. -/
inductive rollover_op where
  | enter
  | exit
  | overflow
  | wakeup
  deriving DecidableEq, Repr

/-- The globals a step ended in. -/
def rollover_step.state : rollover_step → rollover_t
  | rollover_step.done g => g
  | rollover_step.wait g => g
  | rollover_step.assert_fail g => g

/-- One step of the protocol. -/
def rollover_apply (cfg : Config) (op : rollover_op) (g : rollover_t) : rollover_step :=
  match op with
  | rollover_op.enter => mtm_rollover_enter g
  | rollover_op.exit => mtm_rollover_exit cfg g
  | rollover_op.overflow => mtm_overflow cfg g
  | rollover_op.wakeup => mtm_overflow_wakeup g

/-- The globals after a sequence of steps taken one after the other (the
mutex serialises them), whichever thread takes each of them. -/
def rollover_run (cfg : Config) : List rollover_op → rollover_t → rollover_t
  | [], g => g
  | op :: ops, g => rollover_run cfg ops (rollover_apply cfg op g).state

/-! ## Observers and sequencing of barrier calls -/

/-- The value a barrier returned, if it returned. -/
def Outcome.val? {α : Type} : Outcome α → Option α
  | Outcome.ret v _ => some v
  | _ => none

/-- The state a barrier invocation ended in (at the return, the restart, the
fault or the failed assertion). -/
def Outcome.state? {α : Type} : Outcome α → Option State
  | Outcome.ret _ s => some s
  | Outcome.restart _ s => some s
  | Outcome.restart_no_tx _ s => some s
  | Outcome.fault s => some s
  | Outcome.assert_fail s => some s
  | Outcome.out_of_fuel => none

/-- The restart reason handed to `mtm_pwb_restart_transaction` as its second
argument, if the barrier restarted the transaction with one. -/
def Outcome.reason? {α : Type} : Outcome α → Option mtm_restart_reason
  | Outcome.restart r _ => some r
  | _ => none

/-- Whether the barrier dereferenced `NULL` or a pointer outside its arrays. -/
def Outcome.faulted {α : Type} : Outcome α → Bool
  | Outcome.fault _ => true
  | _ => false

/-- Program order inside one transaction: the second barrier runs in the state
the first one returned in; any other ending of the first one ends the
sequence. -/
def Outcome.andThen {α β : Type} (o : Outcome α) (k : α → State → Outcome β) : Outcome β :=
  match o with
  | Outcome.ret v s => k v s
  | Outcome.restart r s => Outcome.restart r s
  | Outcome.restart_no_tx r s => Outcome.restart_no_tx r s
  | Outcome.fault s => Outcome.fault s
  | Outcome.assert_fail s => Outcome.assert_fail s
  | Outcome.out_of_fuel => Outcome.out_of_fuel

/-- The entries visited from pointer `p` by following `next` down to `NULL`,
each with the pointer it lives at; `none` when the walk leaves the array or
does not end within the fuel. -/
def chain_list (ws : w_set_t) : Nat → Nat → Option (List (Nat × w_entry_t))
  | 0, _ => none
  | fuel + 1, p =>
    match w_deref ws p with
    | none => none
    | some e =>
      if e.next = 0 then some [(p, e)]
      else (chain_list ws fuel e.next).map (fun rest => (p, e) :: rest)

/-- The state of an `Except State State` step, wherever it ended. -/
def step_state : Except State State → State
  | Except.ok s => s
  | Except.error s => s

/-- Everything outside the volatile and the persistent write set is equal in
the two states. -/
def same_outside_write_set (s t : State) : Prop :=
  t.status = s.status ∧ t.can_extend = s.can_extend ∧ t.stack_base = s.stack_base ∧
  t.stack_size = s.stack_size ∧ t.local_undo = s.local_undo ∧ t.start = s.start ∧
  t.end_ = s.end_ ∧ t.r_set = s.r_set ∧ t.private_locks = s.private_locks ∧
  t.locks = s.locks ∧ t.gclock = s.gclock ∧ t.mem = s.mem

/-- The bookkeeping of the two write sets (array position, capacity, counters,
allocated lengths) is equal in the two states. -/
def same_counts (s t : State) : Prop :=
  t.w_set.base = s.w_set.base ∧ t.w_set.nb_entries = s.w_set.nb_entries ∧
  t.w_set.size = s.w_set.size ∧ t.w_set.reallocate = s.w_set.reallocate ∧
  t.w_set.entries.length = s.w_set.entries.length ∧
  t.w_set_nv.nb_entries = s.w_set_nv.nb_entries ∧
  t.w_set_nv.entries.length = s.w_set_nv.entries.length

/-- Everything the store barrier must not touch for a non-stack address is
equal in the two states: the descriptor fields, the snapshot, the read set,
the clock and user memory (the lock tables and the two write sets may
differ). -/
def same_memory_and_read_set (s t : State) : Prop :=
  t.status = s.status ∧ t.can_extend = s.can_extend ∧ t.stack_base = s.stack_base ∧
  t.stack_size = s.stack_size ∧ t.local_undo = s.local_undo ∧ t.start = s.start ∧
  t.end_ = s.end_ ∧ t.r_set = s.r_set ∧ t.gclock = s.gclock ∧ t.mem = s.mem

/-- Everything outside the read set is equal in the two states. -/
def same_outside_read_set (s t : State) : Prop :=
  t.status = s.status ∧ t.can_extend = s.can_extend ∧ t.stack_base = s.stack_base ∧
  t.stack_size = s.stack_size ∧ t.local_undo = s.local_undo ∧ t.start = s.start ∧
  t.end_ = s.end_ ∧ t.w_set = s.w_set ∧ t.w_set_nv = s.w_set_nv ∧
  t.private_locks = s.private_locks ∧ t.locks = s.locks ∧ t.gclock = s.gclock ∧
  t.mem = s.mem

/-- The read set is well formed: the live entries fit the declared capacity
and the capacity fits the allocated array. -/
def r_set_ok (rs : r_set_t) : Prop :=
  rs.nb_entries ≤ rs.size ∧ rs.size ≤ rs.entries.length

/-- The entries visited from pointer `p` by following `next_cache_neighbor`
of the persistent twins down to `NULL`; `none` when the walk leaves the arrays
or does not end within the fuel. -/
def cache_chain (s : State) : Nat → Nat → Option (List Nat)
  | 0, _ => none
  | fuel + 1, p =>
    match nv_deref s p with
    | none => none
    | some n =>
      if n.next_cache_neighbor = 0 then some [p]
      else (cache_chain s fuel n.next_cache_neighbor).map (fun rest => p :: rest)

/-- No persistent record has been made to point to another entry: every record
of `t` is the record `s` holds at that index or has a `NULL`
`next_cache_neighbor`. -/
def no_new_cache_link (s t : State) : Prop :=
  ∀ q : Nat, t.w_set_nv.entries[q]? = s.w_set_nv.entries[q]? ∨
    Option.map (fun n : w_entry_nv_t => n.next_cache_neighbor) t.w_set_nv.entries[q]? = some 0

/-- The last entry of a chain whose address lies in the cache block of `a`, as
a pointer; `NULL` when the chain has none. -/
def last_in_block (cfg : Config) (a : Nat) (es : List (Nat × w_entry_t)) : Nat :=
  match (es.filter (fun pe => decide (BLOCK_ADDR cfg a = BLOCK_ADDR cfg pe.2.addr))).getLast? with
  | some pe => pe.1
  | none => 0

/-- Every live read-set entry has a version inside the snapshot:
`R.version <= end`. -/
def read_set_in_snapshot (s : State) : Prop :=
  ∀ r ∈ s.r_set.entries.take s.r_set.nb_entries, r.version ≤ s.end_

/-- Every lock word in free form carries a timestamp the global clock has
reached. -/
def timestamps_below_clock (s : State) : Prop :=
  ∀ lk : LockPtr, LOCK_GET_OWNED (load_lock s lk) = false →
    LOCK_GET_TIMESTAMP (load_lock s lk) ≤ s.gclock

/-- All entries reachable from a bucket head of this transaction share one
version: for every lock word in owned form that points into the live part of
the write set, the entries on the chain from that pointer all have the same
version. -/
def common_version (s : State) : Prop :=
  ∀ (lk : LockPtr) (fuel : Nat) (es : List (Nat × w_entry_t)),
    LOCK_GET_OWNED (load_lock s lk) = true →
    s.w_set.base ≤ LOCK_GET_ADDR (load_lock s lk) →
    LOCK_GET_ADDR (load_lock s lk) < s.w_set.base + s.w_set.nb_entries →
    chain_list s.w_set fuel (LOCK_GET_ADDR (load_lock s lk)) = some es →
    ∀ x ∈ es, ∀ y ∈ es, x.2.version = y.2.version

/-- The live part of the write set is closed under `next`: the `next` link of
a live entry is `NULL` or points to a live entry. -/
def write_set_closed (s : State) : Prop :=
  ∀ (p : Nat) (e : w_entry_t), s.w_set.base ≤ p → p < s.w_set.base + s.w_set.nb_entries →
    w_deref s.w_set p = some e →
    e.next = 0 ∨ (s.w_set.base ≤ e.next ∧ e.next < s.w_set.base + s.w_set.nb_entries)

/-- The `next` link and the version of an entry. -/
def link_and_version (e : w_entry_t) : Nat × Nat := (e.next, e.version)

/-- The write set of `t` sits where that of `s` does, and every entry other
than the one at pointer `w` has kept its `next` link and its version. -/
def links_kept_except (w : Nat) (s t : State) : Prop :=
  t.w_set.base = s.w_set.base ∧
  ∀ p : Nat, p ≠ w →
    (w_deref t.w_set p).map link_and_version = (w_deref s.w_set p).map link_and_version

/-- What a store may have done to the chains, from the state `s` it started in
to the state `t` it ended in, `w` being the first unused slot of `s`: the
entries other than `w` keep link and version, and either no entry was added and
the lock words are unchanged or point to `w`, or the entry `w` was added, the
lock words are unchanged, and `w` links to a live entry `T` that ends a chain
and has the version of `w`. -/
def store_effect (s t : State) : Prop :=
  links_kept_except (s.w_set.base + s.w_set.nb_entries) s t ∧
  ((t.w_set.nb_entries = s.w_set.nb_entries ∧
      ∀ lk, load_lock t lk = load_lock s lk ∨
        load_lock t lk = LOCK_SET_ADDR (s.w_set.base + s.w_set.nb_entries)) ∨
    (t.w_set.nb_entries = s.w_set.nb_entries + 1 ∧
      (∀ lk, load_lock t lk = load_lock s lk) ∧
      ∃ (T : Nat) (ew eT : w_entry_t), s.w_set.base ≤ T ∧
        T < s.w_set.base + s.w_set.nb_entries ∧
        w_deref t.w_set (s.w_set.base + s.w_set.nb_entries) = some ew ∧ ew.next = T ∧
        w_deref t.w_set T = some eT ∧ eT.next = 0 ∧ ew.version = eT.version))

/-! ## Fixtures for concrete evaluation -/

/-- A configuration: 32-byte lock stripes, 1024 buckets, 64-byte cache lines. -/
def cfg0 : Config :=
  { LOCK_SHIFT := 5, LOCK_ARRAY_SIZE := 1024, PRIVATE_LOCK_ARRAY_SIZE := 64,
    LOCK_IDX_SWAP := false, CACHELINE_SIZE := 64, ROLLOVER_CLOCK := false,
    VERSION_MAX := 2 ^ 62 }

/-- A contention manager that never upgrades and always answers
`CM_RESTART_LOCKED`. -/
def cm0 : CM :=
  { cm_conflict := fun _ _ l => (CM_RESTART_LOCKED, l), cm_upgrade_lock := fun _ => false }

/-- An unused write-set slot whose persistent twin is record `i`. -/
def blank_entry (i : Nat) : w_entry_t :=
  { addr := 0, value := 0, mask := 0, version := 0, lock := LockPtr.glob 0, next := 0,
    w_entry_nv := some i }

/-- A fresh active transaction: snapshot `[5, 5]`, empty read and write sets of
capacity 2 and 4 (write-set array at pointer 1000), every lock word free with
timestamp 3, memory all zero. -/
def s_fresh : State :=
  { status := TX_ACTIVE, can_extend := true, stack_base := 2 ^ 40, stack_size := 2 ^ 20,
    local_undo := [], start := 5, end_ := 5,
    r_set := { entries := [⟨0, LockPtr.glob 0⟩, ⟨0, LockPtr.glob 0⟩], nb_entries := 0, size := 2 },
    w_set := { base := 1000,
               entries := [blank_entry 0, blank_entry 1, blank_entry 2, blank_entry 3],
               nb_entries := 0, size := 4, reallocate := 0 },
    w_set_nv := { entries := [⟨0, 0, 0⟩, ⟨0, 0, 0⟩, ⟨0, 0, 0⟩, ⟨0, 0, 0⟩], nb_entries := 0 },
    private_locks := fun _ => 0, locks := fun _ => LOCK_SET_TIMESTAMP 3, gclock := 5,
    mem := fun _ => 0 }

/-- The transaction after it has written the full word 7 to address 4104:
bucket 128 is owned through the entry at pointer 1000. Address 4096 hashes to
the same bucket and lies in the same cache line. -/
def s_owned : State :=
  { s_fresh with
    w_set := { base := 1000,
               entries := [{ addr := 4104, value := 7, mask := WORD_MAX, version := 3,
                             lock := LockPtr.glob 128, next := 0, w_entry_nv := some 0 },
                           blank_entry 1, blank_entry 2, blank_entry 3],
               nb_entries := 1, size := 4, reallocate := 0 },
    w_set_nv := { entries := [⟨4104, 7, 0⟩, ⟨0, 0, 0⟩, ⟨0, 0, 0⟩, ⟨0, 0, 0⟩], nb_entries := 1 },
    locks := fun i => if i = 128 then LOCK_SET_ADDR 1000 else LOCK_SET_TIMESTAMP 3 }

/-- The transaction after a load of address 4096 was upgraded to a write:
bucket 128 is owned through an entry for 4096 with empty mask; memory holds
0x1234 at 4096. -/
def s_upgraded : State :=
  { s_fresh with
    w_set := { base := 1000,
               entries := [{ addr := 4096, value := 0x1234, mask := 0, version := 3,
                             lock := LockPtr.glob 128, next := 0, w_entry_nv := some 0 },
                           blank_entry 1, blank_entry 2, blank_entry 3],
               nb_entries := 1, size := 4, reallocate := 0 },
    w_set_nv := { entries := [⟨4096, 0x1234, 0⟩, ⟨0, 0, 0⟩, ⟨0, 0, 0⟩, ⟨0, 0, 0⟩],
                  nb_entries := 1 },
    locks := fun i => if i = 128 then LOCK_SET_ADDR 1000 else LOCK_SET_TIMESTAMP 3,
    mem := fun a => if a = 4096 then 0x1234 else 0 }

/-- The configuration `cfg0` built with `ROLLOVER_CLOCK`, the overflow
sentinel being 100. -/
def cfg_rollover : Config :=
  { cfg0 with ROLLOVER_CLOCK := true, VERSION_MAX := 100 }

/-- A transaction that owns two buckets: bucket 128 through the entry for
address 4104 (pointer 1000, the first entry created) and bucket 129 through the
entry for address 36896 (pointer 1001), which lies in another cache line.
Address 4128 hashes to bucket 129 and lies in the cache line of 4104. -/
def s_two_buckets : State :=
  { s_fresh with
    w_set := { base := 1000,
               entries := [{ addr := 4104, value := 7, mask := WORD_MAX, version := 3,
                             lock := LockPtr.glob 128, next := 0, w_entry_nv := some 0 },
                           { addr := 36896, value := 9, mask := WORD_MAX, version := 3,
                             lock := LockPtr.glob 129, next := 0, w_entry_nv := some 1 },
                           blank_entry 2, blank_entry 3],
               nb_entries := 2, size := 4, reallocate := 0 },
    w_set_nv := { entries := [⟨4104, 7, 0⟩, ⟨36896, 9, 0⟩, ⟨0, 0, 0⟩, ⟨0, 0, 0⟩],
                  nb_entries := 2 },
    locks := fun i => if i = 128 then LOCK_SET_ADDR 1000
      else if i = 129 then LOCK_SET_ADDR 1001 else LOCK_SET_TIMESTAMP 3 }

/-- A transaction whose snapshot ends at 3 while every lock word is free with
timestamp 4 and the clock is at 5. -/
def s_stale : State :=
  { s_fresh with end_ := 3, locks := fun _ => LOCK_SET_TIMESTAMP 4 }

/-- A write set whose first three entries form the chain
`1000 -> 1001 -> 1002 -> NULL`, for the addresses 4096, 4104 and 4096 again. -/
def ws_chain : w_set_t :=
  { base := 1000,
    entries := [{ addr := 4096, value := 1, mask := WORD_MAX, version := 3,
                  lock := LockPtr.glob 128, next := 1001, w_entry_nv := some 0 },
                { addr := 4104, value := 2, mask := WORD_MAX, version := 3,
                  lock := LockPtr.glob 128, next := 1002, w_entry_nv := some 1 },
                { addr := 4096, value := 3, mask := WORD_MAX, version := 3,
                  lock := LockPtr.glob 128, next := 0, w_entry_nv := some 2 },
                blank_entry 3],
    nb_entries := 3, size := 4, reallocate := 0 }

/-- A transaction whose write set is `ws_chain`: bucket 128 is owned through
the chain `1000 -> 1001 -> 1002`, slot 1003 is unused. -/
def s_chain : State :=
  { s_fresh with
    w_set := ws_chain,
    w_set_nv := { entries := [⟨4096, 1, 0⟩, ⟨4104, 2, 0⟩, ⟨4096, 3, 0⟩, ⟨0, 0, 0⟩],
                  nb_entries := 3 },
    locks := fun i => if i = 128 then LOCK_SET_ADDR 1000 else LOCK_SET_TIMESTAMP 3 }

/-- Rollover globals with no active transaction, the clock at 7 and every lock
word equal to 9. -/
def g_idle : rollover_t :=
  { tx_count := 0, tx_overflow := 0, gclock := 7, locks := fun _ => 9 }

/-! ## Basic facts about the pointer model -/

theorem w_deref_null (ws : w_set_t) : w_deref ws 0 = none := by
  simp [w_deref]

theorem insert_null_new_entry (tail cn : Nat) (s : State) :
    insert_write_set_entry_after 0 tail cn s = Except.error s := by
  unfold insert_write_set_entry_after
  by_cases h : tail = 0
  · simp [h, w_modify, w_deref_null, bind, Except.bind]
  · cases hd : w_deref s.w_set tail <;>
      simp [h, hd, w_modify, w_deref_null, bind, Except.bind]

theorem same_outside_write_set_refl (s : State) : same_outside_write_set s s := by
  simp [same_outside_write_set]

theorem same_outside_write_set_trans {s t u : State}
    (h1 : same_outside_write_set s t) (h2 : same_outside_write_set t u) :
    same_outside_write_set s u := by
  obtain ⟨a1, a2, a3, a4, a5, a6, a7, a8, a9, a10, a11, a12⟩ := h1
  obtain ⟨b1, b2, b3, b4, b5, b6, b7, b8, b9, b10, b11, b12⟩ := h2
  exact ⟨b1.trans a1, b2.trans a2, b3.trans a3, b4.trans a4, b5.trans a5, b6.trans a6,
    b7.trans a7, b8.trans a8, b9.trans a9, b10.trans a10, b11.trans a11, b12.trans a12⟩

theorem step_bind_frame {x : Except State State} {g : State → Except State State} {s : State}
    (hx : same_outside_write_set s (step_state x))
    (hg : ∀ s1, same_outside_write_set s s1 → same_outside_write_set s (step_state (g s1))) :
    same_outside_write_set s (step_state (x >>= g)) := by
  cases x with
  | error e => simpa [bind, Except.bind, step_state] using hx
  | ok a => simpa [bind, Except.bind] using hg a (by simpa [step_state] using hx)

theorem w_modify_frame (p : Nat) (f : w_entry_t → w_entry_t) (s0 s : State)
    (h : same_outside_write_set s0 s) :
    same_outside_write_set s0 (step_state (w_modify p f s)) := by
  unfold w_modify
  cases w_deref s.w_set p <;> simpa [step_state, same_outside_write_set] using h

theorem nv_modify_frame (p : Nat) (f : w_entry_nv_t → w_entry_nv_t) (s0 s : State)
    (h : same_outside_write_set s0 s) :
    same_outside_write_set s0 (step_state (nv_modify p f s)) := by
  unfold nv_modify
  split
  · simpa [step_state] using h
  · split
    · simpa [step_state] using h
    · split <;> simpa [step_state, same_outside_write_set] using h

theorem mask_new_value_frame (entry address value mask : Nat) (s0 s : State)
    (h : same_outside_write_set s0 s) :
    same_outside_write_set s0 (step_state (mask_new_value entry address value mask s)) := by
  unfold mask_new_value
  cases w_deref s.w_set entry <;> simpa [step_state, same_outside_write_set] using h

theorem initialize_write_set_entry_frame (entry address value mask version : Nat)
    (lock : LockPtr) (s0 s : State) (h : same_outside_write_set s0 s) :
    same_outside_write_set s0
      (step_state (initialize_write_set_entry entry address value mask version lock s)) := by
  unfold initialize_write_set_entry
  refine step_bind_frame (w_modify_frame _ _ _ _ h) (fun s1 h1 => ?_)
  refine step_bind_frame (w_modify_frame _ _ _ _ h1) (fun s2 h2 => ?_)
  refine step_bind_frame (mask_new_value_frame _ _ _ _ _ _ h2) (fun s3 h3 => ?_)
  refine step_bind_frame (w_modify_frame _ _ _ _ h3) (fun s4 h4 => ?_)
  refine step_bind_frame (w_modify_frame _ _ _ _ h4) (fun s5 h5 => ?_)
  exact nv_modify_frame _ _ _ _ h5

theorem store_lock_load (s : State) (p : LockPtr) (v : Nat) :
    load_lock (store_lock s p v) p = v := by
  cases p <;> simp [load_lock, store_lock]

theorem load_lock_frame {s t : State} (h : same_outside_write_set s t) (p : LockPtr) :
    load_lock t p = load_lock s p := by
  obtain ⟨-, -, -, -, -, -, -, -, h9, h10, -, -⟩ := h
  cases p <;> simp [load_lock, h9, h10]

theorem same_counts_refl (s : State) : same_counts s s := by
  simp [same_counts]

theorem step_bind_counts {x : Except State State} {g : State → Except State State} {s : State}
    (hx : same_counts s (step_state x))
    (hg : ∀ s1, same_counts s s1 → same_counts s (step_state (g s1))) :
    same_counts s (step_state (x >>= g)) := by
  cases x with
  | error e => simpa [bind, Except.bind, step_state] using hx
  | ok a => simpa [bind, Except.bind] using hg a (by simpa [step_state] using hx)

theorem w_modify_counts (p : Nat) (f : w_entry_t → w_entry_t) (s0 s : State)
    (h : same_counts s0 s) : same_counts s0 (step_state (w_modify p f s)) := by
  unfold w_modify
  cases w_deref s.w_set p <;> simpa [step_state, same_counts, w_assign] using h

theorem nv_modify_counts (p : Nat) (f : w_entry_nv_t → w_entry_nv_t) (s0 s : State)
    (h : same_counts s0 s) : same_counts s0 (step_state (nv_modify p f s)) := by
  unfold nv_modify
  split
  · simpa [step_state] using h
  · split
    · simpa [step_state] using h
    · split <;> simpa [step_state, same_counts] using h

theorem mask_new_value_counts (entry address value mask : Nat) (s0 s : State)
    (h : same_counts s0 s) :
    same_counts s0 (step_state (mask_new_value entry address value mask s)) := by
  unfold mask_new_value
  cases w_deref s.w_set entry <;> simpa [step_state, same_counts, w_assign] using h

theorem initialize_write_set_entry_counts (entry address value mask version : Nat)
    (lock : LockPtr) (s0 s : State) (h : same_counts s0 s) :
    same_counts s0
      (step_state (initialize_write_set_entry entry address value mask version lock s)) := by
  unfold initialize_write_set_entry
  refine step_bind_counts (w_modify_counts _ _ _ _ h) (fun s1 h1 => ?_)
  refine step_bind_counts (w_modify_counts _ _ _ _ h1) (fun s2 h2 => ?_)
  refine step_bind_counts (mask_new_value_counts _ _ _ _ _ _ h2) (fun s3 h3 => ?_)
  refine step_bind_counts (w_modify_counts _ _ _ _ h3) (fun s4 h4 => ?_)
  refine step_bind_counts (w_modify_counts _ _ _ _ h4) (fun s5 h5 => ?_)
  exact nv_modify_counts _ _ _ _ h5

theorem store_lock_frame (s : State) (p : LockPtr) (v : Nat) (q : LockPtr) :
    load_lock (store_lock s p v) q = if q = p then v else load_lock s q := by
  cases p <;> cases q <;> simp [load_lock, store_lock, Function.update_apply]

/-- The acquisition block of `pwb_write_internal` (free-form bucket, room in
the write set, lock word as observed) always ends in a fault: the call
`insert_write_set_entry_after(write_set_tail, initialized_entry, tx, NULL)`
passes `NULL` for `new_entry`. The lock word has been taken by then. -/
theorem pwb_write_loop_free_faults (cfg : Config) (cm : CM) (addr value mask : Nat)
    (lock : LockPtr) (fuel version : Nat) (s : State)
    (hfree : LOCK_GET_OWNED (load_lock s lock) = false)
    (hver : LOCK_GET_TIMESTAMP (load_lock s lock) ≤ s.end_ ∨ (s.can_extend = true ∧
      mtm_has_read s lock = none))
    (hroom : s.w_set.nb_entries ≠ s.w_set.size) :
    ∃ s1, pwb_write_loop cfg cm addr value mask lock true (fuel + 1) (load_lock s lock)
        version s
        = Outcome.fault s1 ∧
      load_lock s1 lock = LOCK_SET_ADDR (s.w_set.base + s.w_set.nb_entries) ∧
      s1.w_set.nb_entries = s.w_set.nb_entries := by
  have hcond : ¬ (s.end_ < LOCK_GET_TIMESTAMP (load_lock s lock) ∧
      (s.can_extend = false ∨ ¬ mtm_has_read s lock = none)) := by
    rcases hver with h | ⟨h1, h2⟩
    · intro hc
      omega
    · simp [h1, h2]
  have hfr := initialize_write_set_entry_frame (s.w_set.base + s.w_set.nb_entries) addr value
    mask (LOCK_GET_TIMESTAMP (load_lock s lock)) lock _
    (store_lock s lock (LOCK_SET_ADDR (s.w_set.base + s.w_set.nb_entries)))
    (same_outside_write_set_refl _)
  have hct := initialize_write_set_entry_counts (s.w_set.base + s.w_set.nb_entries) addr value
    mask (LOCK_GET_TIMESTAMP (load_lock s lock)) lock _
    (store_lock s lock (LOCK_SET_ADDR (s.w_set.base + s.w_set.nb_entries)))
    (same_counts_refl _)
  have hnb : (store_lock s lock (LOCK_SET_ADDR (s.w_set.base + s.w_set.nb_entries))).w_set
      = s.w_set := by
    cases lock <;> rfl
  unfold pwb_write_loop
  simp only [hfree, hroom, insert_null_new_entry]
  simp
  rw [if_neg hcond]
  cases hinit : initialize_write_set_entry (s.w_set.base + s.w_set.nb_entries) addr value
      mask (LOCK_GET_TIMESTAMP (load_lock s lock)) lock
      (store_lock s lock (LOCK_SET_ADDR (s.w_set.base + s.w_set.nb_entries))) with
  | error s2 =>
    rw [hinit] at hfr hct
    simp only [step_state] at hfr hct
    refine ⟨s2, rfl, ?_, ?_⟩
    · rw [load_lock_frame hfr, store_lock_load]
    · rw [hct.2.1, hnb]
  | ok s2 =>
    rw [hinit] at hfr hct
    simp only [step_state] at hfr hct
    refine ⟨s2, rfl, ?_, ?_⟩
    · rw [load_lock_frame hfr, store_lock_load]
    · rw [hct.2.1, hnb]

theorem insert_write_set_entry_after_frame (new_entry tail cn : Nat) (s0 s : State)
    (h : same_outside_write_set s0 s) :
    same_outside_write_set s0
      (step_state (insert_write_set_entry_after new_entry tail cn s)) := by
  unfold insert_write_set_entry_after
  refine step_bind_frame ?_ (fun s1 h1 => step_bind_frame ?_ (fun s2 h2 => ?_))
  · split
    · split
      · simpa [step_state] using h
      · exact step_bind_frame (w_modify_frame _ _ _ _ h)
          (fun s1 h1 => w_modify_frame _ _ _ _ h1)
    · exact w_modify_frame _ _ _ _ h
  · split
    · split
      · simpa [step_state] using h1
      · exact step_bind_frame (nv_modify_frame _ _ _ _ h1)
          (fun s3 h3 => nv_modify_frame _ _ _ _ h3)
    · exact nv_modify_frame _ _ _ _ h1
  · split
    · simpa [step_state] using h2
    · refine step_bind_frame (nv_modify_frame _ _ _ _ h2) (fun s3 h3 =>
        step_bind_frame (nv_modify_frame _ _ _ _ h3) (fun s4 h4 => ?_))
      simpa [step_state, same_outside_write_set] using h4

theorem same_memory_of_same_outside {s t : State} (h : same_outside_write_set s t) :
    same_memory_and_read_set s t := by
  obtain ⟨a1, a2, a3, a4, a5, a6, a7, a8, -, -, a11, a12⟩ := h
  exact ⟨a1, a2, a3, a4, a5, a6, a7, a8, a11, a12⟩

theorem same_memory_refl (s : State) : same_memory_and_read_set s s := by
  simp [same_memory_and_read_set]

theorem same_memory_trans {s t u : State}
    (h1 : same_memory_and_read_set s t) (h2 : same_memory_and_read_set t u) :
    same_memory_and_read_set s u := by
  obtain ⟨a1, a2, a3, a4, a5, a6, a7, a8, a9, a10⟩ := h1
  obtain ⟨b1, b2, b3, b4, b5, b6, b7, b8, b9, b10⟩ := h2
  exact ⟨b1.trans a1, b2.trans a2, b3.trans a3, b4.trans a4, b5.trans a5, b6.trans a6,
    b7.trans a7, b8.trans a8, b9.trans a9, b10.trans a10⟩

theorem store_lock_same_memory (s : State) (p : LockPtr) (v : Nat) :
    same_memory_and_read_set s (store_lock s p v) := by
  cases p <;> simp [same_memory_and_read_set, store_lock]

/-! ## Chain walks -/

theorem w_deref_some_ne_null {ws : w_set_t} {p : Nat} {e : w_entry_t}
    (h : w_deref ws p = some e) : p ≠ 0 := by
  intro hp
  rw [hp, w_deref_null] at h
  exact Option.noConfusion h

theorem chain_list_inv {ws : w_set_t} {n head : Nat} {es : List (Nat × w_entry_t)}
    (h : chain_list ws (n + 1) head = some es) :
    ∃ e0, w_deref ws head = some e0 ∧
      ((e0.next = 0 ∧ es = [(head, e0)]) ∨
       (e0.next ≠ 0 ∧ ∃ rest, chain_list ws n e0.next = some rest ∧ es = (head, e0) :: rest)) := by
  unfold chain_list at h
  cases hd : w_deref ws head with
  | none => simp [hd] at h
  | some e0 =>
    simp only [hd] at h
    refine ⟨e0, rfl, ?_⟩
    by_cases hn : e0.next = 0
    · simp only [hn, if_true, Option.some.injEq] at h
      exact Or.inl ⟨hn, h.symm⟩
    · simp only [hn, if_false] at h
      cases hrest : chain_list ws n e0.next with
      | none => simp [hrest] at h
      | some rest =>
        simp only [hrest, Option.map_some', Option.some.injEq] at h
        exact Or.inr ⟨hn, rest, rfl, h.symm⟩

theorem chain_list_mem (ws : w_set_t) :
    ∀ (n head : Nat) (es : List (Nat × w_entry_t)), chain_list ws n head = some es →
      ∀ pe ∈ es, w_deref ws pe.1 = some pe.2 := by
  intro n
  induction n with
  | zero => intro head es h; simp [chain_list] at h
  | succ n ih =>
    intro head es h pe hpe
    obtain ⟨e0, hd, ⟨-, hes⟩ | ⟨-, rest, hrest, hes⟩⟩ := chain_list_inv h
    · subst hes
      simp only [List.mem_singleton] at hpe
      subst hpe
      exact hd
    · subst hes
      rcases List.mem_cons.mp hpe with h1 | h1
      · subst h1
        exact hd
      · exact ih _ _ hrest pe h1

/-- Search hit: on a null-terminated chain, `matching_write_set_entry` returns
the first entry, in chain order, whose address is the one searched. -/
theorem matching_write_set_entry_hit (cfg : Config) (ws : w_set_t) (a : Nat) :
    ∀ (n head : Nat) (es : List (Nat × w_entry_t)), chain_list ws n head = some es →
      ∀ (p : Nat) (e : w_entry_t),
        es.find? (fun pe => decide (a = pe.2.addr)) = some (p, e) →
        ∀ fuel, es.length ≤ fuel → ∀ lt lcn, ∃ lt1 lcn1,
          matching_write_set_entry cfg ws a fuel head lt lcn = Walk.done ⟨p, lt1, lcn1⟩ := by
  intro n
  induction n with
  | zero => intro head es h; simp [chain_list] at h
  | succ n ih =>
    intro head es h p e hfind fuel hfuel lt lcn
    obtain ⟨e0, hd, ⟨hn, hes⟩ | ⟨hn, rest, hrest, hes⟩⟩ := chain_list_inv h
    · subst hes
      obtain ⟨f, rfl⟩ : ∃ f, fuel = f + 1 := ⟨fuel - 1, by simp at hfuel; omega⟩
      by_cases ha : a = e0.addr
      · simp [List.find?, ha] at hfind
        obtain ⟨hp, -⟩ := hfind
        subst hp
        unfold matching_write_set_entry
        simp [hd, ha]
      · simp [List.find?, ha] at hfind
    · subst hes
      obtain ⟨f, rfl⟩ : ∃ f, fuel = f + 1 := ⟨fuel - 1, by simp at hfuel; omega⟩
      by_cases ha : a = e0.addr
      · simp [List.find?, ha] at hfind
        obtain ⟨hp, -⟩ := hfind
        subst hp
        unfold matching_write_set_entry
        simp [hd, ha]
      · simp only [List.find?, ha, decide_False] at hfind
        have hf : rest.length ≤ f := by simp at hfuel; omega
        unfold matching_write_set_entry
        simp only [hd, ha, hn, if_false]
        exact ih _ _ hrest p e hfind f hf _ _

/-- Search miss: on a null-terminated chain without the address searched,
`matching_write_set_entry` returns `NULL` and stores the last chain entry in
`*list_tail`. -/
theorem matching_write_set_entry_miss (cfg : Config) (ws : w_set_t) (a : Nat) :
    ∀ (n head : Nat) (es : List (Nat × w_entry_t)), chain_list ws n head = some es →
      es.find? (fun pe => decide (a = pe.2.addr)) = none →
      ∀ fuel, es.length ≤ fuel → ∀ lt0 lcn, ∃ q eq lcn1,
        es.getLast? = some (q, eq) ∧
        matching_write_set_entry cfg ws a fuel head (some lt0) lcn
          = Walk.done ⟨0, some q, lcn1⟩ := by
  intro n
  induction n with
  | zero => intro head es h; simp [chain_list] at h
  | succ n ih =>
    intro head es h hfind fuel hfuel lt0 lcn
    obtain ⟨e0, hd, ⟨hn, hes⟩ | ⟨hn, rest, hrest, hes⟩⟩ := chain_list_inv h
    · subst hes
      have ha : ¬ a = e0.addr := by
        intro ha
        simp [List.find?, ha] at hfind
      obtain ⟨f, rfl⟩ : ∃ f, fuel = f + 1 := ⟨fuel - 1, by simp at hfuel; omega⟩
      refine ⟨head, e0,
        (if lcn ≠ none ∧ BLOCK_ADDR cfg a = BLOCK_ADDR cfg e0.addr then some head else lcn),
        by simp, ?_⟩
      unfold matching_write_set_entry
      simp [hd, ha, hn]
    · subst hes
      obtain ⟨f, rfl⟩ : ∃ f, fuel = f + 1 := ⟨fuel - 1, by simp at hfuel; omega⟩
      have ha : ¬ a = e0.addr := by
        intro ha
        simp [List.find?, ha] at hfind
      simp only [List.find?, ha, decide_False] at hfind
      have hf : rest.length ≤ f := by simp at hfuel; omega
      obtain ⟨q, eq, lcn1, hlast, hm⟩ := ih _ _ hrest hfind f hf lt0
        (if lcn ≠ none ∧ BLOCK_ADDR cfg a = BLOCK_ADDR cfg e0.addr then some head else lcn)
      refine ⟨q, eq, lcn1, ?_, ?_⟩
      · cases rest with
        | nil => simp at hlast
        | cons x xs => simpa [List.getLast?_cons_cons] using hlast
      · unfold matching_write_set_entry
        simp only [hd, ha, hn, if_false]
        exact hm

/-- Load under a self-owned lock, hit: the inner loop of the load barrier
yields the buffered value of the first chain entry for the address, or the
memory word when that entry has an empty mask. -/
theorem load_chain_walk_hit (ws : w_set_t) (mem : Nat → Nat) (a : Nat) :
    ∀ (n head : Nat) (es : List (Nat × w_entry_t)), chain_list ws n head = some es →
      ∀ (p : Nat) (e : w_entry_t),
        es.find? (fun pe => decide (a = pe.2.addr)) = some (p, e) →
        ∀ fuel, es.length ≤ fuel →
          load_chain_walk ws mem a fuel head
            = Walk.done (if e.mask = 0 then mem a else e.value) := by
  intro n
  induction n with
  | zero => intro head es h; simp [chain_list] at h
  | succ n ih =>
    intro head es h p e hfind fuel hfuel
    obtain ⟨e0, hd, ⟨hn, hes⟩ | ⟨hn, rest, hrest, hes⟩⟩ := chain_list_inv h
    · subst hes
      obtain ⟨f, rfl⟩ : ∃ f, fuel = f + 1 := ⟨fuel - 1, by simp at hfuel; omega⟩
      by_cases ha : a = e0.addr
      · simp [List.find?, ha] at hfind
        obtain ⟨-, he⟩ := hfind
        subst he
        unfold load_chain_walk
        simp [hd, ha]
      · simp [List.find?, ha] at hfind
    · subst hes
      obtain ⟨f, rfl⟩ : ∃ f, fuel = f + 1 := ⟨fuel - 1, by simp at hfuel; omega⟩
      by_cases ha : a = e0.addr
      · simp [List.find?, ha] at hfind
        obtain ⟨-, he⟩ := hfind
        subst he
        unfold load_chain_walk
        simp [hd, ha]
      · simp only [List.find?, ha, decide_False] at hfind
        have hf : rest.length ≤ f := by simp at hfuel; omega
        unfold load_chain_walk
        simp only [hd, ha, hn, if_false]
        exact ih _ _ hrest p e hfind f hf

/-- Load under a self-owned lock, miss: without a chain entry for the address
the inner loop of the load barrier yields the memory word. -/
theorem load_chain_walk_miss (ws : w_set_t) (mem : Nat → Nat) (a : Nat) :
    ∀ (n head : Nat) (es : List (Nat × w_entry_t)), chain_list ws n head = some es →
      es.find? (fun pe => decide (a = pe.2.addr)) = none →
      ∀ fuel, es.length ≤ fuel → load_chain_walk ws mem a fuel head = Walk.done (mem a) := by
  intro n
  induction n with
  | zero => intro head es h; simp [chain_list] at h
  | succ n ih =>
    intro head es h hfind fuel hfuel
    obtain ⟨e0, hd, ⟨hn, hes⟩ | ⟨hn, rest, hrest, hes⟩⟩ := chain_list_inv h
    · subst hes
      have ha : ¬ a = e0.addr := by
        intro ha
        simp [List.find?, ha] at hfind
      obtain ⟨f, rfl⟩ : ∃ f, fuel = f + 1 := ⟨fuel - 1, by simp at hfuel; omega⟩
      unfold load_chain_walk
      simp [hd, ha, hn]
    · subst hes
      obtain ⟨f, rfl⟩ : ∃ f, fuel = f + 1 := ⟨fuel - 1, by simp at hfuel; omega⟩
      have ha : ¬ a = e0.addr := by
        intro ha
        simp [List.find?, ha] at hfind
      simp only [List.find?, ha, decide_False] at hfind
      have hf : rest.length ≤ f := by simp at hfuel; omega
      unfold load_chain_walk
      simp only [hd, ha, hn, if_false]
      exact ih _ _ hrest hfind f hf

theorem w_deref_w_assign {ws : w_set_t} {p : Nat} {e : w_entry_t}
    (h : w_deref ws p = some e) (e1 : w_entry_t) (q : Nat) :
    w_deref (w_assign ws p e1) q = if q = p then some e1 else w_deref ws q := by
  unfold w_deref at h
  by_cases hp : p ≠ 0 ∧ ws.base ≤ p
  · rw [if_pos hp] at h
    have hlen : p - ws.base < ws.entries.length := by
      rcases Nat.lt_or_ge (p - ws.base) ws.entries.length with hlt | hge
      · exact hlt
      · rw [List.getElem?_eq_none hge] at h
        exact Option.noConfusion h
    by_cases hq : q = p
    · subst hq
      simp [w_deref, w_assign, hp, hlen]
    · by_cases hq2 : q ≠ 0 ∧ ws.base ≤ q
      · have hne : p - ws.base ≠ q - ws.base := by omega
        simp [w_deref, w_assign, hq, hq2, List.getElem?_set_ne hne]
      · simp [w_deref, w_assign, hq, hq2]
  · rw [if_neg hp] at h
    exact Option.noConfusion h

/-- The owned-by-self branch of the store barrier on a hit: the first chain
entry for the address is returned; it is updated through `mask_new_value`
only when its mask is not empty. -/
theorem pwb_write_loop_hit (cfg : Config) (cm : CM) (a v m : Nat) (lock : LockPtr)
    (iso : Bool) (fuel n version : Nat) (s : State) (es : List (Nat × w_entry_t))
    (p : Nat) (e : w_entry_t)
    (howned : LOCK_GET_OWNED (load_lock s lock) = true)
    (hself : s.w_set.base ≤ LOCK_GET_ADDR (load_lock s lock) ∧
      LOCK_GET_ADDR (load_lock s lock) < s.w_set.base + s.w_set.nb_entries)
    (hchain : chain_list s.w_set n (LOCK_GET_ADDR (load_lock s lock)) = some es)
    (hfirst : es.find? (fun pe => decide (a = pe.2.addr)) = some (p, e))
    (hfuel : es.length ≤ fuel) :
    pwb_write_loop cfg cm a v m lock iso fuel (load_lock s lock) version s =
      Outcome.ret p (if e.mask = 0 then s else
        { s with w_set := w_assign s.w_set p ({ e with
            value := (e.value &&& wnot m) ||| (v &&& m), mask := e.mask ||| m }) }) := by
  have hmem : (p, e) ∈ es := List.mem_of_find?_eq_some hfirst
  have hp : w_deref s.w_set p = some e := chain_list_mem _ _ _ _ hchain _ hmem
  have hp0 : p ≠ 0 := w_deref_some_ne_null hp
  obtain ⟨f, rfl⟩ : ∃ f, fuel = f + 1 :=
    ⟨fuel - 1, by have := List.length_pos_of_mem hmem; omega⟩
  obtain ⟨lt1, lcn1, hwalk⟩ := matching_write_set_entry_hit cfg s.w_set a n _ es hchain p e
    hfirst (f + 1) hfuel (some 0) (some 0)
  unfold pwb_write_loop
  simp only [howned, hself, hwalk, hp]
  by_cases hm : e.mask = 0
  · simp [hp0, hm]
  · simp [hp0, hm, mask_new_value, hp]

theorem frame_of_ok {x : Except State State} {s t : State}
    (h : same_outside_write_set s (step_state x)) (hx : x = Except.ok t) :
    same_outside_write_set s t := by
  rw [hx] at h; exact h

theorem frame_of_error {x : Except State State} {s t : State}
    (h : same_outside_write_set s (step_state x)) (hx : x = Except.error t) :
    same_outside_write_set s t := by
  rw [hx] at h; exact h

theorem state_eq_refl {α : Type} {o : Outcome α} {s s1 : State}
    (h : o.state? = some s1) (ho : o.state? = some s) : same_memory_and_read_set s s1 := by
  rw [ho] at h
  cases h
  exact same_memory_refl _

/-- For a non-stack address the store barrier, however it ends, has touched
only the lock tables and the two write sets. -/
theorem pwb_write_loop_same_memory (cfg : Config) (cm : CM) (a v m : Nat) (lock : LockPtr)
    (iso : Bool) :
    ∀ (fuel : Nat) (l_in : Nat) (version : Nat) (s s1 : State),
      (pwb_write_loop cfg cm a v m lock iso fuel l_in version s).state? = some s1 →
      same_memory_and_read_set s s1 := by
  intro fuel
  induction fuel with
  | zero => intro l_in version s s1 h; simp [pwb_write_loop, Outcome.state?] at h
  | succ f ih =>
    intro l_in version s s1 h
    unfold pwb_write_loop at h
    simp only [] at h
    split at h
    · split at h
      · split at h
        · exact state_eq_refl h rfl
        · simp [Outcome.state?] at h
        · split at h
          · split at h
            · exact state_eq_refl h rfl
            · split at h
              · split at h
                · rename_i s2 hm
                  have := frame_of_error (mask_new_value_frame _ _ _ _ s s
                    (same_outside_write_set_refl s)) hm
                  simp only [Outcome.state?, Option.some.injEq] at h
                  subst h
                  exact same_memory_of_same_outside this
                · rename_i s2 hm
                  have := frame_of_ok (mask_new_value_frame _ _ _ _ s s
                    (same_outside_write_set_refl s)) hm
                  simp only [Outcome.state?, Option.some.injEq] at h
                  subst h
                  exact same_memory_of_same_outside this
              · exact state_eq_refl h rfl
          · split at h
            · simp only [Outcome.state?, Option.some.injEq] at h
              subst h
              simp [same_memory_and_read_set]
            · split at h
              · rename_i s2 hm
                have := frame_of_error (w_modify_frame _ _ s s
                  (same_outside_write_set_refl s)) hm
                simp only [Outcome.state?, Option.some.injEq] at h
                subst h
                exact same_memory_of_same_outside this
              · rename_i s2 hm
                have h2 := frame_of_ok (w_modify_frame _ _ s s
                  (same_outside_write_set_refl s)) hm
                split at h
                · simp only [Outcome.state?, Option.some.injEq] at h
                  subst h
                  exact same_memory_of_same_outside h2
                · split at h
                  · rename_i s3 hi
                    have h3 := frame_of_error
                      (initialize_write_set_entry_frame _ _ _ _ _ _ s s2 h2) hi
                    simp only [Outcome.state?, Option.some.injEq] at h
                    subst h
                    exact same_memory_of_same_outside h3
                  · rename_i s3 hi
                    have h3 := frame_of_ok
                      (initialize_write_set_entry_frame _ _ _ _ _ _ s s2 h2) hi
                    split at h
                    · rename_i s4 hj
                      have h4 := frame_of_error
                        (insert_write_set_entry_after_frame _ _ _ s s3 h3) hj
                      simp only [Outcome.state?, Option.some.injEq] at h
                      subst h
                      exact same_memory_of_same_outside h4
                    · rename_i s4 hj
                      have h4 := frame_of_ok
                        (insert_write_set_entry_after_frame _ _ _ s s3 h3) hj
                      simp only [Outcome.state?, Option.some.injEq] at h
                      subst h
                      exact same_memory_of_same_outside h4
      · split at h
        · exact state_eq_refl h rfl
        · split at h
          · exact ih _ _ _ _ h
          · exact ih _ _ _ _ h
          · exact state_eq_refl h rfl
    · generalize (if iso = true then LOCK_GET_TIMESTAMP l_in else version) = ver at h
      split at h
      · exact state_eq_refl h rfl
      · split at h
        · simp only [Outcome.state?, Option.some.injEq] at h
          subst h
          simp [same_memory_and_read_set]
        · split at h
          · exact ih _ _ _ _ h
          · split at h
            · rename_i s3 hi
              have h3 := frame_of_error
                (initialize_write_set_entry_frame _ _ _ _ _ _ _ _
                  (same_outside_write_set_refl _)) hi
              simp only [Outcome.state?, Option.some.injEq] at h
              subst h
              exact same_memory_trans (store_lock_same_memory _ _ _)
                (same_memory_of_same_outside h3)
            · rename_i s3 hi
              have h3 := frame_of_ok
                (initialize_write_set_entry_frame _ _ _ _ _ _ _ _
                  (same_outside_write_set_refl _)) hi
              split at h
              · rename_i s4 hj
                have h4 := frame_of_error
                  (insert_write_set_entry_after_frame _ _ _ _ s3 h3) hj
                simp only [Outcome.state?, Option.some.injEq] at h
                subst h
                exact same_memory_trans (store_lock_same_memory _ _ _)
                  (same_memory_of_same_outside h4)
              · rename_i s4 hj
                have h4 := frame_of_ok
                  (insert_write_set_entry_after_frame _ _ _ _ s3 h3) hj
                simp only [Outcome.state?, Option.some.injEq] at h
                subst h
                exact same_memory_trans (store_lock_same_memory _ _ _)
                  (same_memory_of_same_outside h4)

/-! ## The claims -/

/-- C1 (defect in the code). Self-read of a single store cannot be observed:
for a non-stack address whose bucket is free-form with version <= end and a
write set that is not full, `store2(a, v, m)` and `store(a, v)` do not return.
They fault in `insert_write_set_entry_after`, which receives `NULL` as
`new_entry`, so the sequence `store2(a, v, m); load(a)` yields no value at
all. -/
theorem store2_then_load_on_free_bucket_faults (cfg : Config) (cm : CM) (fuel : Nat)
    (s : State) (a v m : Nat)
    (hact : s.status = TX_ACTIVE) (hstack : stack_filter s a = false)
    (hfree : LOCK_GET_OWNED (load_lock s (GET_LOCK cfg a)) = false)
    (hver : LOCK_GET_TIMESTAMP (load_lock s (GET_LOCK cfg a)) ≤ s.end_)
    (hroom : s.w_set.nb_entries < s.w_set.size) :
    (mtm_pwb_store2 cfg cm (fuel + 1) s a v m).faulted = true ∧
    (mtm_pwb_store cfg cm (fuel + 1) s a v).faulted = true ∧
    ((mtm_pwb_store2 cfg cm (fuel + 1) s a v m).andThen
      (fun _ s1 => pwb_load_internal cfg cm (fuel + 1) s1 a true)).val? = none ∧
    ((mtm_pwb_store cfg cm (fuel + 1) s a v).andThen
      (fun _ s1 => pwb_load_internal cfg cm (fuel + 1) s1 a true)).val? = none := by
  have key : ∀ m1, ∃ s1, pwb_write_internal cfg cm (fuel + 1) s a v m1 true
      = Outcome.fault s1 := by
    intro m1
    obtain ⟨s1, h1, -, -⟩ := pwb_write_loop_free_faults cfg cm a v m1 (GET_LOCK cfg a) fuel 0 s
      hfree (Or.inl hver) (Nat.ne_of_lt hroom)
    refine ⟨s1, ?_⟩
    unfold pwb_write_internal
    simp [hact, hstack, h1]
  obtain ⟨s1, h1⟩ := key m
  obtain ⟨s2, h2⟩ := key WORD_MAX
  unfold mtm_pwb_store2 mtm_pwb_store
  rw [h1, h2]
  exact ⟨rfl, rfl, rfl, rfl⟩

/-- Scenario 1 of the specification (`mem[x] = 0`, `store2(x, 0xFF, 0x0F);
load(x)`) on a fresh transaction: the store faults and no value is read. -/
theorem store2_then_load_on_free_bucket_faults_witness :
    s_fresh.status = TX_ACTIVE ∧ stack_filter s_fresh 4096 = false ∧
    LOCK_GET_OWNED (load_lock s_fresh (GET_LOCK cfg0 4096)) = false ∧
    LOCK_GET_TIMESTAMP (load_lock s_fresh (GET_LOCK cfg0 4096)) ≤ s_fresh.end_ ∧
    s_fresh.w_set.nb_entries < s_fresh.w_set.size ∧
    (mtm_pwb_store2 cfg0 cm0 (0 + 1) s_fresh 4096 0xFF 0x0F).faulted = true ∧
    (mtm_pwb_store cfg0 cm0 (0 + 1) s_fresh 4096 0xFF).faulted = true ∧
    ((mtm_pwb_store2 cfg0 cm0 (0 + 1) s_fresh 4096 0xFF 0x0F).andThen
      (fun _ s1 => pwb_load_internal cfg0 cm0 (0 + 1) s1 4096 true)).val? = none ∧
    ((mtm_pwb_store cfg0 cm0 (0 + 1) s_fresh 4096 0xFF).andThen
      (fun _ s1 => pwb_load_internal cfg0 cm0 (0 + 1) s1 4096 true)).val? = none :=
  ⟨by decide, by decide, by decide, by decide, by decide,
    store2_then_load_on_free_bucket_faults cfg0 cm0 0 s_fresh 4096 0xFF 0x0F
      (by decide) (by decide) (by decide) (by decide) (by decide)⟩

/-- C2 (defect in the code). The merge law for two stores to one address
fails. With bucket 128 owned through an entry for address 4104 and
`mem[4096] = 0`, the sequence `store2(4096, 0xFF00, 0xFF00);
store2(4096, 0x00FF, 0x00FF); load(4096)` allocates two entries (pointers 1001
and 1002), neither linked behind the bucket head, and the load returns the
memory word 0 where the law gives 0xFFFF. On a free bucket the first store
faults. -/
theorem merge_law_two_stores_fails :
    (pwb_write_internal cfg0 cm0 4 s_owned 4096 0xFF00 0xFF00 true).val? = some 1001 ∧
    ((pwb_write_internal cfg0 cm0 4 s_owned 4096 0xFF00 0xFF00 true).andThen (fun _ s1 =>
      pwb_write_internal cfg0 cm0 4 s1 4096 0x00FF 0x00FF true)).val? = some 1002 ∧
    ((mtm_pwb_store2 cfg0 cm0 4 s_owned 4096 0xFF00 0xFF00).andThen (fun _ s1 =>
      (mtm_pwb_store2 cfg0 cm0 4 s1 4096 0x00FF 0x00FF).andThen (fun _ s2 =>
        pwb_load_internal cfg0 cm0 4 s2 4096 true))).val? = some 0 ∧
    ((s_owned.mem 4096 &&& wnot (0xFF00 ||| 0x00FF)) ||| (0xFF00 &&& 0xFF00 &&& wnot 0x00FF)
      ||| (0x00FF &&& 0x00FF)) = 0xFFFF ∧
    ((mtm_pwb_store2 cfg0 cm0 4 s_fresh 4096 0xFF00 0xFF00).andThen (fun _ s1 =>
      (mtm_pwb_store2 cfg0 cm0 4 s1 4096 0x00FF 0x00FF).andThen (fun _ s2 =>
        pwb_load_internal cfg0 cm0 4 s2 4096 true))).faulted = true := by
  refine ⟨?_, ?_, ?_, ?_, ?_⟩ <;> decide

/-- C3 (defect in the code). A payload write onto an acquired-only entry is
dropped. With an entry for 4096 of mask 0 at the bucket head and
`mem[4096] = 0x1234`, `store2(4096, 0xFF, 0x0F)` returns that entry and leaves
the whole state as it was (mask still 0), and the following load returns the
memory word 0x1234 where the claim gives `(0x1234 & ~0x0F) | 0x0F = 0x123F`. -/
theorem store2_on_acquired_only_entry_is_dropped :
    pwb_write_internal cfg0 cm0 4 s_upgraded 4096 0xFF 0x0F true
      = Outcome.ret 1000 s_upgraded ∧
    (w_deref s_upgraded.w_set 1000).map (fun e => (e.addr, e.mask)) = some (4096, 0) ∧
    ((pwb_write_internal cfg0 cm0 4 s_upgraded 4096 0xFF 0x0F true).andThen (fun _ s1 =>
      pwb_load_internal cfg0 cm0 4 s1 4096 true)).val? = some 0x1234 ∧
    ((s_upgraded.mem 4096 &&& wnot 0x0F) ||| (0xFF &&& 0x0F)) = 0x123F := by
  refine ⟨rfl, ?_, ?_, ?_⟩ <;> decide

/-- C4 (the claim as stated is false). A zero-mask store to a non-stack address
is not a no-op: on the owned bucket 128, `store2(4104, 9, 0)` returns the
matching entry at pointer 1000 instead of `NULL`, and `store2(4096, 9, 0)`
returns a newly allocated entry, `nb_entries` growing from 1 to 2. -/
theorem store2_zero_mask_non_stack_not_noop :
    stack_filter s_owned 4104 = false ∧ stack_filter s_owned 4096 = false ∧
    (pwb_write_internal cfg0 cm0 4 s_owned 4104 9 0 true).val? = some 1000 ∧
    (pwb_write_internal cfg0 cm0 4 s_owned 4096 9 0 true).val? = some 1001 ∧
    s_owned.w_set.nb_entries = 1 ∧
    (pwb_write_internal cfg0 cm0 4 s_owned 4096 9 0 true).state?.map
      (fun s1 => s1.w_set.nb_entries) = some 2 := by
  refine ⟨?_, ?_, ?_, ?_, ?_, ?_⟩ <;> decide

/-- C4 (amended). For every address and every value, `store2(a, v, 0)` leaves
memory unchanged, however it ends. For an address accepted by the stack filter
of the store barrier it is a no-op: it returns `NULL` and leaves the whole
state (memory, lock tables, write set) unchanged. -/
theorem store2_zero_mask_stack_noop (cfg : Config) (cm : CM) (fuel : Nat) (s : State)
    (a v : Nat) (iso : Bool) (hact : s.status = TX_ACTIVE) :
    (stack_filter s a = true →
      pwb_write_internal cfg cm fuel s a v 0 iso = Outcome.ret 0 s) ∧
    (∀ s1, (pwb_write_internal cfg cm fuel s a v 0 iso).state? = some s1 →
      s1.mem = s.mem) := by
  have hstk : stack_filter s a = true →
      pwb_write_internal cfg cm fuel s a v 0 iso = Outcome.ret 0 s := by
    intro hstack
    unfold pwb_write_internal
    simp [hact, hstack]
  refine ⟨hstk, ?_⟩
  intro s1 h
  by_cases hstack : stack_filter s a = true
  · rw [hstk hstack] at h
    simp only [Outcome.state?, Option.some.injEq] at h
    rw [← h]
  · have hs : stack_filter s a = false := by
      cases hx : stack_filter s a with
      | true => exact absurd hx hstack
      | false => rfl
    unfold pwb_write_internal at h
    simp only [hact, hs] at h
    simp only [ne_eq, not_true_eq_false, if_false, Bool.false_eq_true] at h
    exact (pwb_write_loop_same_memory cfg cm a v 0 _ iso fuel _ 0 s s1 h).2.2.2.2.2.2.2.2.2

/-- A zero-mask store to the stack word at `2 ^ 40 - 8` of the fresh
transaction, and one to the non-stack address 4096 on the owned bucket. -/
theorem store2_zero_mask_stack_noop_witness :
    s_fresh.status = TX_ACTIVE ∧ stack_filter s_fresh (2 ^ 40 - 8) = true ∧
    pwb_write_internal cfg0 cm0 1 s_fresh (2 ^ 40 - 8) 0xFF 0 true = Outcome.ret 0 s_fresh ∧
    (∀ s1, (pwb_write_internal cfg0 cm0 1 s_owned 4096 0xFF 0 true).state? = some s1 →
      s1.mem = s_owned.mem) :=
  ⟨by decide, by decide,
    (store2_zero_mask_stack_noop cfg0 cm0 1 s_fresh (2 ^ 40 - 8) 0xFF true (by decide)).1
      (by decide),
    (store2_zero_mask_stack_noop cfg0 cm0 1 s_owned 4096 0xFF true (by decide)).2⟩

/-- C5 (defect in the code). Acquire-and-insert on a free bucket does not
complete: on the fresh transaction `store2(4096, 0xFF, 0x0F)` takes the lock
word of bucket 128 (owned form, pointer 1000), initialises the entry at index
0, and then faults on the `NULL` `new_entry`; `nb_entries` is still 0 in
both write sets and nothing is returned. -/
theorem store2_acquire_free_bucket_faults :
    ∃ s1, pwb_write_internal cfg0 cm0 1 s_fresh 4096 0xFF 0x0F true = Outcome.fault s1 ∧
      load_lock s1 (GET_LOCK cfg0 4096) = LOCK_SET_ADDR 1000 ∧
      s1.w_set.nb_entries = 0 ∧ s1.w_set_nv.nb_entries = 0 ∧
      w_deref s1.w_set 1000 = some ⟨4096, 0x0F, 0x0F, 3, LockPtr.glob 128, 0, some 0⟩ ∧
      insert_write_set_entry_after 0 1000 0 s1 = Except.error s1 :=
  ⟨_, rfl, by decide, by decide, by decide, by decide, insert_null_new_entry 1000 0 _⟩

/-- C6 (defect in the code). A new entry for an already owned bucket is not
appended to the hash chain. On the owned bucket 128 (chain: the entry at
pointer 1000), `store2(4096, 0xFF, 0x0F)` returns the new entry at pointer
1001, but afterwards the chain from the bucket head is still the old entry
alone, whose `next` is `NULL`; it is the new entry whose `next` points back to
the old tail. -/
theorem store2_new_entry_not_appended :
    (chain_list s_owned.w_set 4 1000).map (List.map Prod.fst) = some [1000] ∧
    (pwb_write_internal cfg0 cm0 4 s_owned 4096 0xFF 0x0F true).val? = some 1001 ∧
    ((pwb_write_internal cfg0 cm0 4 s_owned 4096 0xFF 0x0F true).state?.bind (fun s1 =>
      chain_list s1.w_set 4 1000)).map (List.map Prod.fst) = some [1000] ∧
    ((pwb_write_internal cfg0 cm0 4 s_owned 4096 0xFF 0x0F true).state?.bind (fun s1 =>
      w_deref s1.w_set 1000)).map (fun e => e.next) = some 0 ∧
    ((pwb_write_internal cfg0 cm0 4 s_owned 4096 0xFF 0x0F true).state?.bind (fun s1 =>
      w_deref s1.w_set 1001)).map (fun e => e.next) = some 1000 := by
  refine ⟨?_, ?_, ?_, ?_, ?_⟩ <;> decide

/-- C7. find_or_extend on a match: when the bucket of a non-stack address `a`
is owned by this transaction and its chain holds an entry for `a`, `store2`
returns the first such entry in chain order and allocates nothing: the
volatile and the persistent `nb_entries`, the persistent records, every `next`
link and every lock word are unchanged. -/
theorem store2_match_returns_first_entry (cfg : Config) (cm : CM) (fuel n : Nat) (s : State)
    (a v m : Nat) (es : List (Nat × w_entry_t)) (p : Nat) (e : w_entry_t)
    (hact : s.status = TX_ACTIVE) (hstack : stack_filter s a = false)
    (howned : LOCK_GET_OWNED (load_lock s (GET_LOCK cfg a)) = true)
    (hself : s.w_set.base ≤ LOCK_GET_ADDR (load_lock s (GET_LOCK cfg a)) ∧
      LOCK_GET_ADDR (load_lock s (GET_LOCK cfg a)) < s.w_set.base + s.w_set.nb_entries)
    (hchain : chain_list s.w_set n (LOCK_GET_ADDR (load_lock s (GET_LOCK cfg a))) = some es)
    (hfirst : es.find? (fun pe => decide (a = pe.2.addr)) = some (p, e))
    (hfuel : es.length ≤ fuel) :
    ∃ s1, pwb_write_internal cfg cm fuel s a v m true = Outcome.ret p s1 ∧
      w_deref s.w_set p = some e ∧ e.addr = a ∧
      s1.w_set.nb_entries = s.w_set.nb_entries ∧ s1.w_set_nv = s.w_set_nv ∧
      (∀ q, (w_deref s1.w_set q).map (fun x => x.next)
        = (w_deref s.w_set q).map (fun x => x.next)) ∧
      (∀ lk, load_lock s1 lk = load_lock s lk) := by
  have hmem : (p, e) ∈ es := List.mem_of_find?_eq_some hfirst
  have hp : w_deref s.w_set p = some e := chain_list_mem _ _ _ _ hchain _ hmem
  have haddr : e.addr = a := by
    have := List.find?_some hfirst
    simp only [decide_eq_true_eq] at this
    exact this.symm
  have hloop := pwb_write_loop_hit cfg cm a v m (GET_LOCK cfg a) true fuel n 0 s es p e
    howned hself hchain hfirst hfuel
  have hst : pwb_write_internal cfg cm fuel s a v m true = pwb_write_loop cfg cm a v m (GET_LOCK cfg a)
      true fuel (load_lock s (GET_LOCK cfg a)) 0 s := by
    unfold pwb_write_internal
    simp [hact, hstack]
  rw [hst, hloop]
  refine ⟨_, rfl, hp, haddr, ?_, ?_, ?_, ?_⟩
  · by_cases hm : e.mask = 0
    · simp [hm]
    · simp [hm, w_assign]
  · by_cases hm : e.mask = 0 <;> simp [hm]
  · intro q
    by_cases hm : e.mask = 0
    · simp [hm]
    · simp only [hm, if_false]
      rw [w_deref_w_assign hp]
      by_cases hq : q = p
      · subst hq
        simp [hp]
      · simp [hq]
  · intro lk
    by_cases hm : e.mask = 0
    · simp [hm]
    · cases lk <;> simp [hm, load_lock]

/-- A store to address 4104 on the owned bucket 128, whose chain is the entry
for 4104 at pointer 1000. -/
theorem store2_match_returns_first_entry_witness :
    s_owned.status = TX_ACTIVE ∧ stack_filter s_owned 4104 = false ∧
    LOCK_GET_OWNED (load_lock s_owned (GET_LOCK cfg0 4104)) = true ∧
    (s_owned.w_set.base ≤ LOCK_GET_ADDR (load_lock s_owned (GET_LOCK cfg0 4104)) ∧
      LOCK_GET_ADDR (load_lock s_owned (GET_LOCK cfg0 4104))
        < s_owned.w_set.base + s_owned.w_set.nb_entries) ∧
    chain_list s_owned.w_set 1 (LOCK_GET_ADDR (load_lock s_owned (GET_LOCK cfg0 4104)))
      = some [(1000, ⟨4104, 7, WORD_MAX, 3, LockPtr.glob 128, 0, some 0⟩)] ∧
    ∃ s1, pwb_write_internal cfg0 cm0 1 s_owned 4104 0xFF 0x0F true = Outcome.ret 1000 s1 ∧
      w_deref s_owned.w_set 1000
        = some ⟨4104, 7, WORD_MAX, 3, LockPtr.glob 128, 0, some 0⟩ ∧
      (⟨4104, 7, WORD_MAX, 3, LockPtr.glob 128, 0, some 0⟩ : w_entry_t).addr = 4104 ∧
      s1.w_set.nb_entries = s_owned.w_set.nb_entries ∧ s1.w_set_nv = s_owned.w_set_nv ∧
      (∀ q, (w_deref s1.w_set q).map (fun x => x.next)
        = (w_deref s_owned.w_set q).map (fun x => x.next)) ∧
      (∀ lk, load_lock s1 lk = load_lock s_owned lk) :=
  ⟨by decide, by decide, by decide, by decide, by decide,
    store2_match_returns_first_entry cfg0 cm0 1 1 s_owned 4104 0xFF 0x0F
      [(1000, ⟨4104, 7, WORD_MAX, 3, LockPtr.glob 128, 0, some 0⟩)] 1000
      ⟨4104, 7, WORD_MAX, 3, LockPtr.glob 128, 0, some 0⟩
      (by decide) (by decide) (by decide) (by decide) (by decide) (by decide) (by decide)⟩

/-- C8. Full write set: when `nb_entries == size` and the store needs a new
entry (the bucket is free-form and the store is not stopped by the
write-after-read check, or the bucket is owned by this transaction and its
chain has no entry for the address), the store does not return: it restarts the
transaction with reason REALLOCATE in the state where `size` is doubled and
`reallocate` is 1. `nb_entries`, the entries and every lock word are
unchanged. -/
theorem store2_full_write_set_reallocates (cfg : Config) (cm : CM) (fuel n : Nat) (s : State)
    (a v m : Nat) (iso : Bool) (es : List (Nat × w_entry_t)) (lock : LockPtr)
    (hact : s.status = TX_ACTIVE) (hstack : stack_filter s a = false)
    (hlock : lock = if iso then GET_LOCK cfg a else PRIVATE_GET_LOCK cfg a)
    (hfull : s.w_set.nb_entries = s.w_set.size)
    (hneed :
      (LOCK_GET_OWNED (load_lock s lock) = false ∧ 1 ≤ fuel ∧
        (iso = true → LOCK_GET_TIMESTAMP (load_lock s lock) ≤ s.end_ ∨
          (s.can_extend = true ∧ mtm_has_read s lock = none))) ∨
      (LOCK_GET_OWNED (load_lock s lock) = true ∧
        (s.w_set.base ≤ LOCK_GET_ADDR (load_lock s lock) ∧
          LOCK_GET_ADDR (load_lock s lock) < s.w_set.base + s.w_set.nb_entries) ∧
        chain_list s.w_set n (LOCK_GET_ADDR (load_lock s lock)) = some es ∧
        es.find? (fun pe => decide (a = pe.2.addr)) = none ∧ es.length ≤ fuel)) :
    ∃ s1, pwb_write_internal cfg cm fuel s a v m iso
        = Outcome.restart RESTART_REALLOCATE s1 ∧
      s1.w_set.size = s.w_set.size * 2 ∧ s1.w_set.reallocate = 1 ∧
      s1.w_set.nb_entries = s.w_set.nb_entries ∧ s1.w_set.entries = s.w_set.entries ∧
      s1.w_set_nv = s.w_set_nv ∧ (∀ lk, load_lock s1 lk = load_lock s lk) := by
  have hst : pwb_write_internal cfg cm fuel s a v m iso
      = pwb_write_loop cfg cm a v m lock iso fuel (load_lock s lock) 0 s := by
    unfold pwb_write_internal
    simp [hact, hstack, hlock]
  refine ⟨{ s with w_set := { s.w_set with size := s.w_set.size * 2, reallocate := 1 } },
    ?_, rfl, rfl, rfl, rfl, rfl, ?_⟩
  · rw [hst]
    rcases hneed with ⟨hfree, hfuel, hver⟩ | ⟨howned, hself, hchain, hnone, hfuel⟩
    · obtain ⟨f, rfl⟩ : ∃ f, fuel = f + 1 := ⟨fuel - 1, by omega⟩
      have hcond : ¬ (iso = true ∧ s.end_ < LOCK_GET_TIMESTAMP (load_lock s lock) ∧
          (s.can_extend = false ∨ ¬ mtm_has_read s lock = none)) := by
        rintro ⟨hi, hgt, hc⟩
        rcases hver hi with h | ⟨h1, h2⟩
        · omega
        · simp [h1, h2] at hc
      unfold pwb_write_loop
      simp only [hfree]
      simp only [Bool.false_eq_true, if_false]
      rw [if_neg, if_pos hfull]
      cases iso with
      | false => simp
      | true => simpa using hcond
    · have hlen : 0 < es.length := by
        cases es with
        | nil =>
          cases n with
          | zero => simp [chain_list] at hchain
          | succ k =>
            obtain ⟨e0, -, ⟨-, h⟩ | ⟨-, rest, -, h⟩⟩ := chain_list_inv hchain <;>
              exact absurd h (by simp)
        | cons x xs => simp
      obtain ⟨f, rfl⟩ : ∃ f, fuel = f + 1 := ⟨fuel - 1, by omega⟩
      obtain ⟨q, eq, lcn1, -, hwalk⟩ := matching_write_set_entry_miss cfg s.w_set a n _ es
        hchain hnone (f + 1) hfuel 0 (some 0)
      unfold pwb_write_loop
      simp only [howned, hself, hwalk]
      simp [hfull]
  · intro lk
    cases lk <;> rfl

/-- The fifth store of a transaction whose write set of capacity 4 is full
(free bucket), and a store of a new address to an owned bucket when the write
set of capacity 1 is full. -/
theorem store2_full_write_set_reallocates_witness :
    (({ s_fresh with w_set := { s_fresh.w_set with nb_entries := 4 } } : State).status
      = TX_ACTIVE ∧
    ∃ s1, pwb_write_internal cfg0 cm0 1
        { s_fresh with w_set := { s_fresh.w_set with nb_entries := 4 } } 4096 0xFF 0x0F true
        = Outcome.restart RESTART_REALLOCATE s1 ∧
      s1.w_set.size = 4 * 2 ∧ s1.w_set.reallocate = 1 ∧
      s1.w_set.nb_entries = 4 ∧ s1.w_set.entries = s_fresh.w_set.entries ∧
      s1.w_set_nv = s_fresh.w_set_nv ∧
      (∀ lk, load_lock s1 lk
        = load_lock { s_fresh with w_set := { s_fresh.w_set with nb_entries := 4 } } lk)) ∧
    (({ s_owned with w_set := { s_owned.w_set with size := 1 } } : State).status
      = TX_ACTIVE ∧
    ∃ s1, pwb_write_internal cfg0 cm0 1
        { s_owned with w_set := { s_owned.w_set with size := 1 } } 4096 0xFF 0x0F true
        = Outcome.restart RESTART_REALLOCATE s1 ∧
      s1.w_set.size = 1 * 2 ∧ s1.w_set.reallocate = 1 ∧
      s1.w_set.nb_entries = 1 ∧ s1.w_set.entries = s_owned.w_set.entries ∧
      s1.w_set_nv = s_owned.w_set_nv ∧
      (∀ lk, load_lock s1 lk
        = load_lock { s_owned with w_set := { s_owned.w_set with size := 1 } } lk)) :=
  ⟨⟨by decide,
    store2_full_write_set_reallocates cfg0 cm0 1 0
      { s_fresh with w_set := { s_fresh.w_set with nb_entries := 4 } } 4096 0xFF 0x0F true []
      (GET_LOCK cfg0 4096) (by decide) (by decide) (by decide) (by decide)
      (Or.inl ⟨by decide, by decide, fun _ => Or.inl (by decide)⟩)⟩,
   ⟨by decide,
    store2_full_write_set_reallocates cfg0 cm0 1 1
      { s_owned with w_set := { s_owned.w_set with size := 1 } } 4096 0xFF 0x0F true
      [(1000, ⟨4104, 7, WORD_MAX, 3, LockPtr.glob 128, 0, some 0⟩)]
      (GET_LOCK cfg0 4096) (by decide) (by decide) (by decide) (by decide)
      (Or.inr ⟨by decide, by decide, by decide, by decide, by decide⟩)⟩⟩

/-- C9. Write after stale read: with isolation enabled and a free-form bucket
word whose version is above `end`, the store restarts with reason
VALIDATE_WRITE if and only if the transaction cannot extend or the lock is
already in its read set, and then the state (lock tables, write set) is
unchanged. Otherwise the store goes on to the acquisition: with a full write
set it restarts with REALLOCATE, else it takes the lock word for the entry at
index `nb_entries`. -/
theorem store2_write_after_stale_read (cfg : Config) (cm : CM) (fuel : Nat) (s : State)
    (a v m : Nat)
    (hact : s.status = TX_ACTIVE) (hstack : stack_filter s a = false)
    (hfree : LOCK_GET_OWNED (load_lock s (GET_LOCK cfg a)) = false)
    (hstale : s.end_ < LOCK_GET_TIMESTAMP (load_lock s (GET_LOCK cfg a))) :
    ((pwb_write_internal cfg cm (fuel + 1) s a v m true).reason? = some RESTART_VALIDATE_WRITE ↔
      (s.can_extend = false ∨ mtm_has_read s (GET_LOCK cfg a) ≠ none)) ∧
    ((s.can_extend = false ∨ mtm_has_read s (GET_LOCK cfg a) ≠ none) →
      pwb_write_internal cfg cm (fuel + 1) s a v m true = Outcome.restart RESTART_VALIDATE_WRITE s) ∧
    (¬ (s.can_extend = false ∨ mtm_has_read s (GET_LOCK cfg a) ≠ none) →
      s.w_set.nb_entries = s.w_set.size →
      (pwb_write_internal cfg cm (fuel + 1) s a v m true).reason? = some RESTART_REALLOCATE) ∧
    (¬ (s.can_extend = false ∨ mtm_has_read s (GET_LOCK cfg a) ≠ none) →
      s.w_set.nb_entries ≠ s.w_set.size →
      ∃ s1, (pwb_write_internal cfg cm (fuel + 1) s a v m true).state? = some s1 ∧
        (pwb_write_internal cfg cm (fuel + 1) s a v m true).reason? = none ∧
        load_lock s1 (GET_LOCK cfg a) = LOCK_SET_ADDR (s.w_set.base + s.w_set.nb_entries)) := by
  have hst : pwb_write_internal cfg cm (fuel + 1) s a v m true
      = pwb_write_loop cfg cm a v m (GET_LOCK cfg a) true (fuel + 1)
        (load_lock s (GET_LOCK cfg a)) 0 s := by
    unfold pwb_write_internal
    simp [hact, hstack]
  have habort : (s.can_extend = false ∨ mtm_has_read s (GET_LOCK cfg a) ≠ none) →
      pwb_write_internal cfg cm (fuel + 1) s a v m true = Outcome.restart RESTART_VALIDATE_WRITE s := by
    intro hc
    rw [hst]
    unfold pwb_write_loop
    simp only [hfree]
    simp only [Bool.false_eq_true, if_false, if_true]
    rw [if_pos]
    refine ⟨trivial, hstale, ?_⟩
    rcases hc with h | h
    · exact Or.inl (by simp [h])
    · exact Or.inr h
  have hfullcase : ¬ (s.can_extend = false ∨ mtm_has_read s (GET_LOCK cfg a) ≠ none) →
      s.w_set.nb_entries = s.w_set.size →
      (pwb_write_internal cfg cm (fuel + 1) s a v m true).reason? = some RESTART_REALLOCATE := by
    intro hc hfull
    have hce : s.can_extend = true := by
      cases hx : s.can_extend with
      | true => rfl
      | false => exact absurd (Or.inl hx) hc
    have hrd : mtm_has_read s (GET_LOCK cfg a) = none := by
      by_contra hx
      exact hc (Or.inr hx)
    rw [hst]
    unfold pwb_write_loop
    simp only [hfree]
    simp only [Bool.false_eq_true, if_false, if_true]
    rw [if_neg, if_pos hfull]
    · rfl
    · simp [hce, hrd]
  have hroomcase : ¬ (s.can_extend = false ∨ mtm_has_read s (GET_LOCK cfg a) ≠ none) →
      s.w_set.nb_entries ≠ s.w_set.size →
      ∃ s1, (pwb_write_internal cfg cm (fuel + 1) s a v m true).state? = some s1 ∧
        (pwb_write_internal cfg cm (fuel + 1) s a v m true).reason? = none ∧
        load_lock s1 (GET_LOCK cfg a) = LOCK_SET_ADDR (s.w_set.base + s.w_set.nb_entries) := by
    intro hc hroom
    have hce : s.can_extend = true := by
      cases hx : s.can_extend with
      | true => rfl
      | false => exact absurd (Or.inl hx) hc
    have hrd : mtm_has_read s (GET_LOCK cfg a) = none := by
      by_contra hx
      exact hc (Or.inr hx)
    obtain ⟨s1, h1, h2, -⟩ := pwb_write_loop_free_faults cfg cm a v m (GET_LOCK cfg a) fuel 0 s
      hfree (Or.inr ⟨hce, hrd⟩) hroom
    rw [hst, h1]
    exact ⟨s1, rfl, rfl, h2⟩
  refine ⟨⟨?_, fun hc => by rw [habort hc]; rfl⟩, habort, hfullcase, hroomcase⟩
  intro hr
  by_contra hc
  by_cases hfull : s.w_set.nb_entries = s.w_set.size
  · rw [hfullcase hc hfull] at hr
    exact absurd hr (by decide)
  · obtain ⟨s1, -, h2, -⟩ := hroomcase hc hfull
    rw [h2] at hr
    exact absurd hr (by decide)

/-- A store to a bucket whose free-form word carries timestamp 9 while the
snapshot ends at 5, by a transaction that cannot extend. -/
theorem store2_write_after_stale_read_witness :
    ({ s_fresh with can_extend := false, locks := fun _ => LOCK_SET_TIMESTAMP 9 } : State).status
      = TX_ACTIVE ∧
    pwb_write_internal cfg0 cm0 (0 + 1)
        { s_fresh with can_extend := false, locks := fun _ => LOCK_SET_TIMESTAMP 9 }
        4096 0xFF 0x0F true
      = Outcome.restart RESTART_VALIDATE_WRITE
        { s_fresh with can_extend := false, locks := fun _ => LOCK_SET_TIMESTAMP 9 } :=
  ⟨by decide,
    (store2_write_after_stale_read cfg0 cm0 0
      { s_fresh with can_extend := false, locks := fun _ => LOCK_SET_TIMESTAMP 9 }
      4096 0xFF 0x0F (by decide) (by decide) (by decide) (by decide)).2.1
      (Or.inl (by decide))⟩

/-- C10. Foreign-owned lock: when the lock word observed for a non-stack
address is owned-form with a pointer outside `[base, base + nb_entries)` and
the contention manager answers RESTART_LOCKED, the store barrier restarts with
reason LOCKED_WRITE and the load barrier (observing the lock itself, that is
without an upgrade hint) restarts with reason LOCKED_READ, both in the
unchanged state. -/
theorem foreign_owned_lock_restarts_locked (cfg : Config) (cm : CM) (fuel : Nat) (s : State)
    (a v m : Nat)
    (hact : s.status = TX_ACTIVE) (hstack : stack_filter s a = false)
    (howned : LOCK_GET_OWNED (load_lock s (GET_LOCK cfg a)) = true)
    (hforeign : ¬ (s.w_set.base ≤ LOCK_GET_ADDR (load_lock s (GET_LOCK cfg a)) ∧
      LOCK_GET_ADDR (load_lock s (GET_LOCK cfg a)) < s.w_set.base + s.w_set.nb_entries))
    (hcm : (cm.cm_conflict s (GET_LOCK cfg a) (load_lock s (GET_LOCK cfg a))).1
      = CM_RESTART_LOCKED) :
    pwb_write_internal cfg cm (fuel + 1) s a v m true = Outcome.restart RESTART_LOCKED_WRITE s ∧
    (cm.cm_upgrade_lock s = false →
      pwb_load_internal cfg cm (fuel + 1) s a true = Outcome.restart RESTART_LOCKED_READ s) := by
  constructor
  · unfold pwb_write_internal
    simp only [hact, hstack]
    simp only [ne_eq, not_true_eq_false, if_false, Bool.false_eq_true, if_true]
    unfold pwb_write_loop
    simp only [howned, if_true, hforeign, if_false]
    simp only [Bool.not_eq_true, Bool.true_eq_false, if_false, not_true_eq_false]
    cases hres : cm.cm_conflict s (GET_LOCK cfg a) (load_lock s (GET_LOCK cfg a)) with
    | mk verdict l1 =>
      rw [hres] at hcm
      simp only at hcm
      subst hcm
      rfl
  · intro hup
    unfold pwb_load_internal
    simp only [hact, hstack, hup]
    simp only [ne_eq, not_true_eq_false, if_false, Bool.false_eq_true, if_true, and_false]
    unfold pwb_load_loop
    simp only [howned, if_true, hforeign, if_false]
    simp only [Bool.not_eq_true, Bool.true_eq_false, if_false, not_true_eq_false]
    cases hres : cm.cm_conflict s (GET_LOCK cfg a) (load_lock s (GET_LOCK cfg a)) with
    | mk verdict l1 =>
      rw [hres] at hcm
      simp only at hcm
      subst hcm
      rfl

/-- Bucket 128 owned by another transaction (pointer 77, outside the write
set at 1000), contention manager answering RESTART_LOCKED. -/
theorem foreign_owned_lock_restarts_locked_witness :
    ({ s_fresh with locks := fun _ => LOCK_SET_ADDR 77 } : State).status = TX_ACTIVE ∧
    LOCK_GET_OWNED (load_lock { s_fresh with locks := fun _ => LOCK_SET_ADDR 77 }
      (GET_LOCK cfg0 4096)) = true ∧
    pwb_write_internal cfg0 cm0 (0 + 1) { s_fresh with locks := fun _ => LOCK_SET_ADDR 77 }
        4096 0xFF 0x0F true
      = Outcome.restart RESTART_LOCKED_WRITE
        { s_fresh with locks := fun _ => LOCK_SET_ADDR 77 } ∧
    (cm0.cm_upgrade_lock { s_fresh with locks := fun _ => LOCK_SET_ADDR 77 } = false →
      pwb_load_internal cfg0 cm0 (0 + 1) { s_fresh with locks := fun _ => LOCK_SET_ADDR 77 }
          4096 true
        = Outcome.restart RESTART_LOCKED_READ
          { s_fresh with locks := fun _ => LOCK_SET_ADDR 77 }) :=
  ⟨by decide, by decide,
    foreign_owned_lock_restarts_locked cfg0 cm0 0
      { s_fresh with locks := fun _ => LOCK_SET_ADDR 77 } 4096 0xFF 0x0F
      (by decide) (by decide) (by decide) (by decide) (by decide)⟩

/-- C11 (the claim as stated is false). The lower bound is not part of the
stack filter: at `a = stack_base - stack_size` the load goes through the TM.
On the fresh transaction it appends an entry to the read set, and when the
bucket of `a` is owned by another transaction it does not return at all. -/
theorem load_stack_lower_bound_not_filtered :
    s_fresh.stack_base - s_fresh.stack_size ≤ 2 ^ 40 - 2 ^ 20 ∧
    2 ^ 40 - 2 ^ 20 ≤ s_fresh.stack_base ∧
    stack_filter s_fresh (2 ^ 40 - 2 ^ 20) = false ∧
    s_fresh.r_set.nb_entries = 0 ∧
    (pwb_load_internal cfg0 cm0 1 s_fresh (2 ^ 40 - 2 ^ 20) true).state?.map
      (fun s1 => s1.r_set.nb_entries) = some 1 ∧
    pwb_load_internal cfg0 cm0 1 { s_fresh with locks := fun _ => LOCK_SET_ADDR 77 }
        (2 ^ 40 - 2 ^ 20) true
      = Outcome.restart RESTART_LOCKED_READ
        { s_fresh with locks := fun _ => LOCK_SET_ADDR 77 } := by
  refine ⟨by decide, by decide, by decide, by decide, by decide, rfl⟩

/-- C11 (amended). Stack filter of the load barrier: for every address `a`
with `stack_base - stack_size < a <= stack_base` (lower bound excluded),
`load(a)` bypasses the TM: it returns `mem[a]` and leaves the whole state (read
set, write set, lock tables) unchanged, whatever the state of the lock bucket
of `a` and whatever the contention manager says. -/
theorem load_stack_address_bypasses_tm (cfg : Config) (cm : CM) (fuel : Nat) (s : State)
    (a : Nat) (iso : Bool)
    (hact : s.status = TX_ACTIVE)
    (hsize : s.stack_size ≤ s.stack_base) (hbase : s.stack_base < 2 ^ 64)
    (hlo : s.stack_base - s.stack_size < a) (hhi : a ≤ s.stack_base) :
    stack_filter s a = true ∧
    pwb_load_internal cfg cm fuel s a iso = Outcome.ret (s.mem a) s := by
  have hw : wsub s.stack_base s.stack_size = s.stack_base - s.stack_size := by
    unfold wsub
    omega
  have hf : stack_filter s a = true := by
    unfold stack_filter
    rw [hw]
    exact decide_eq_true ⟨hhi, hlo⟩
  refine ⟨hf, ?_⟩
  unfold pwb_load_internal
  simp [hact, hf]

/-- A load of the stack word at `2 ^ 40 - 8` while every lock word is owned by
another transaction. -/
theorem load_stack_address_bypasses_tm_witness :
    ({ s_fresh with locks := fun _ => LOCK_SET_ADDR 77 } : State).status = TX_ACTIVE ∧
    stack_filter { s_fresh with locks := fun _ => LOCK_SET_ADDR 77 } (2 ^ 40 - 8) = true ∧
    pwb_load_internal cfg0 cm0 1 { s_fresh with locks := fun _ => LOCK_SET_ADDR 77 }
        (2 ^ 40 - 8) true
      = Outcome.ret (({ s_fresh with locks := fun _ => LOCK_SET_ADDR 77 } : State).mem
          (2 ^ 40 - 8)) { s_fresh with locks := fun _ => LOCK_SET_ADDR 77 } :=
  ⟨by decide,
    load_stack_address_bypasses_tm cfg0 cm0 1
      { s_fresh with locks := fun _ => LOCK_SET_ADDR 77 } (2 ^ 40 - 8) true
      (by decide) (by decide) (by decide) (by decide) (by decide)⟩

theorem word_and_max {x : Nat} (h : x < 2 ^ 64) : x &&& WORD_MAX = x := by
  unfold WORD_MAX
  rw [Nat.and_pow_two_sub_one_eq_mod, Nat.mod_eq_of_lt h]

theorem wnot_zero : wnot 0 = WORD_MAX := by
  decide

theorem wnot_max : wnot WORD_MAX = 0 := by
  decide

/-- The masked merge of a word with an empty mask is the old word, with a full
mask the new word. -/
theorem masked_merge_edges {prev v : Nat} (hp : prev < 2 ^ 64) (hv : v < 2 ^ 64) :
    (prev &&& wnot 0) ||| (v &&& 0) = prev ∧
    (prev &&& wnot WORD_MAX) ||| (v &&& WORD_MAX) = v := by
  rw [wnot_zero, wnot_max, word_and_max hp, word_and_max hv]
  simp

/-- C12. Stack store: for an address accepted by the stack filter of the store
barrier, `store2(a, v, m)` on machine words returns `NULL`, leaves
`mem[a] = (prev & ~m) | (v & m)` with `prev` the previous word at `a` (the word
`v` for a full mask, the previous word for an empty mask), leaves every other
memory word as it was, and changes neither the lock tables nor the write sets
nor the read set. -/
theorem store2_stack_address (cfg : Config) (cm : CM) (fuel : Nat) (s : State)
    (a v m : Nat) (iso : Bool)
    (hact : s.status = TX_ACTIVE) (hstack : stack_filter s a = true)
    (hprev : s.mem a < 2 ^ 64) (hv : v < 2 ^ 64) :
    ∃ s1, pwb_write_internal cfg cm fuel s a v m iso = Outcome.ret 0 s1 ∧
      s1.mem a = (s.mem a &&& wnot m) ||| (v &&& m) ∧
      (m = WORD_MAX → s1.mem a = v) ∧ (m = 0 → s1.mem a = s.mem a) ∧
      (∀ b, b ≠ a → s1.mem b = s.mem b) ∧
      s1.locks = s.locks ∧ s1.private_locks = s.private_locks ∧
      s1.w_set = s.w_set ∧ s1.w_set_nv = s.w_set_nv ∧ s1.r_set = s.r_set := by
  have hedge := masked_merge_edges hprev hv
  by_cases hm0 : m = 0
  · subst hm0
    refine ⟨s, ?_, ?_, ?_, ?_, ?_, rfl, rfl, rfl, rfl, rfl⟩
    · unfold pwb_write_internal
      simp [hact, hstack]
    · exact hedge.1.symm
    · intro h
      exact absurd h.symm (by decide)
    · intro _
      rfl
    · intro b _
      rfl
  · by_cases hmax : m = WORD_MAX
    · subst hmax
      refine ⟨{ mtm_local_LB s a with mem := Function.update (mtm_local_LB s a).mem a v },
        ?_, ?_, ?_, ?_, ?_, rfl, rfl, rfl, rfl, rfl⟩
      · unfold pwb_write_internal
        simp [hact, hstack, hm0]
      · simp [hedge.2]
      · intro _
        simp
      · intro h
        exact absurd h hm0
      · intro b hb
        simp [Function.update_apply, hb, mtm_local_LB]
    · refine ⟨{ mtm_local_LB s a with
          mem := Function.update (mtm_local_LB s a).mem a
            ((s.mem a &&& wnot m) ||| (v &&& m)) }, ?_, ?_, ?_, ?_, ?_, rfl, rfl, rfl, rfl, rfl⟩
      · unfold pwb_write_internal
        simp [hact, hstack, hm0, hmax]
      · simp
      · intro h
        exact absurd h hmax
      · intro h
        exact absurd h hm0
      · intro b hb
        simp [Function.update_apply, hb, mtm_local_LB]

/-- A masked store of 0xFF under mask 0x0F to the stack word at `2 ^ 40 - 8`,
which holds 0x1230. -/
theorem store2_stack_address_witness :
    ({ s_fresh with mem := fun _ => 0x1230 } : State).status = TX_ACTIVE ∧
    stack_filter { s_fresh with mem := fun _ => 0x1230 } (2 ^ 40 - 8) = true ∧
    (0x1230 &&& wnot 0x0F) ||| (0xFF &&& 0x0F) = 0x123F ∧
    ∃ s1, pwb_write_internal cfg0 cm0 1 { s_fresh with mem := fun _ => 0x1230 }
        (2 ^ 40 - 8) 0xFF 0x0F true = Outcome.ret 0 s1 ∧
      s1.mem (2 ^ 40 - 8) = (({ s_fresh with mem := fun _ => 0x1230 } : State).mem
        (2 ^ 40 - 8) &&& wnot 0x0F) ||| (0xFF &&& 0x0F) ∧
      (0x0F = WORD_MAX → s1.mem (2 ^ 40 - 8) = 0xFF) ∧
      (0x0F = 0 → s1.mem (2 ^ 40 - 8)
        = ({ s_fresh with mem := fun _ => 0x1230 } : State).mem (2 ^ 40 - 8)) ∧
      (∀ b, b ≠ 2 ^ 40 - 8 → s1.mem b
        = ({ s_fresh with mem := fun _ => 0x1230 } : State).mem b) ∧
      s1.locks = s_fresh.locks ∧ s1.private_locks = s_fresh.private_locks ∧
      s1.w_set = s_fresh.w_set ∧ s1.w_set_nv = s_fresh.w_set_nv ∧
      s1.r_set = s_fresh.r_set :=
  ⟨by decide, by decide, by decide,
    store2_stack_address cfg0 cm0 1 { s_fresh with mem := fun _ => 0x1230 } (2 ^ 40 - 8)
      0xFF 0x0F true (by decide) (by decide) (by decide) (by decide)⟩

/-- C17. The function `pwb_extend` is all-or-nothing: in an active transaction
it returns 1 exactly when the clock value it sampled is not the overflow
sentinel (below `VERSION_MAX` under `ROLLOVER_CLOCK`) and validation of the
read set passes, and then the only change is `end` set to that clock value;
otherwise it returns 0 and changes nothing. It never modifies `start`, the
read set or the write sets. -/
theorem pwb_extend_all_or_nothing (cfg : Config) (s : State)
    (hact : s.status = TX_ACTIVE) :
    ∃ r s1, pwb_extend cfg s = some (r, s1) ∧
      (r = true ↔ (¬ (cfg.ROLLOVER_CLOCK = true ∧ cfg.VERSION_MAX ≤ s.gclock) ∧
        mtm_validate s = true)) ∧
      (r = true → s1 = { s with end_ := s.gclock }) ∧
      (r = false → s1 = s) ∧
      s1.start = s.start ∧ s1.r_set = s.r_set ∧ s1.w_set = s.w_set ∧
      s1.w_set_nv = s.w_set_nv := by
  unfold pwb_extend
  by_cases hov : cfg.ROLLOVER_CLOCK = true ∧ cfg.VERSION_MAX ≤ s.gclock
  · refine ⟨false, s, ?_, ?_, ?_, ?_, rfl, rfl, rfl, rfl⟩
    · simp [hact, hov]
    · simp [hov]
    · intro h
      exact absurd h (by decide)
    · intro _
      rfl
  · by_cases hval : mtm_validate s = true
    · refine ⟨true, { s with end_ := s.gclock }, ?_, ?_, ?_, ?_, rfl, rfl, rfl, rfl⟩
      · simp only [hact, ne_eq, not_true_eq_false, if_false, ge_iff_le, hov, hval, if_true]
      · simp [hov, hval]
      · intro _
        rfl
      · intro h
        exact absurd h (by decide)
    · refine ⟨false, s, ?_, ?_, ?_, ?_, rfl, rfl, rfl, rfl⟩
      · simp only [hact, ne_eq, not_true_eq_false, if_false, ge_iff_le, hov, hval]
        simp
      · simp [hval]
      · intro h
        exact absurd h (by decide)
      · intro _
        rfl

/-- An extend at clock 5 with an empty read set, and the same extend when the
clock has reached the sentinel 100 under `ROLLOVER_CLOCK`. -/
theorem pwb_extend_all_or_nothing_witness :
    s_fresh.status = TX_ACTIVE ∧
    (∃ r s1, pwb_extend cfg0 s_fresh = some (r, s1) ∧
      (r = true ↔ (¬ (cfg0.ROLLOVER_CLOCK = true ∧ cfg0.VERSION_MAX ≤ s_fresh.gclock) ∧
        mtm_validate s_fresh = true)) ∧
      (r = true → s1 = { s_fresh with end_ := s_fresh.gclock }) ∧
      (r = false → s1 = s_fresh) ∧
      s1.start = s_fresh.start ∧ s1.r_set = s_fresh.r_set ∧ s1.w_set = s_fresh.w_set ∧
      s1.w_set_nv = s_fresh.w_set_nv) ∧
    (pwb_extend cfg0 s_fresh).map Prod.fst = some true ∧
    (pwb_extend cfg_rollover { s_fresh with gclock := 100 }).map Prod.fst = some false :=
  ⟨by decide, pwb_extend_all_or_nothing cfg0 s_fresh (by decide), by decide, by decide⟩

theorem chain_list_length_pos {ws : w_set_t} {n head : Nat} {es : List (Nat × w_entry_t)}
    (h : chain_list ws n head = some es) : 0 < es.length := by
  cases n with
  | zero => simp [chain_list] at h
  | succ k =>
    obtain ⟨e0, -, ⟨-, hes⟩ | ⟨-, rest, -, hes⟩⟩ := chain_list_inv h <;>
      simp [hes]

/-- The value the load barrier reads under a self-owned lock, from the chain
of the bucket: the buffered value of the first entry for the address when its
mask is not empty, the memory word otherwise. -/
theorem load_chain_walk_value (ws : w_set_t) (mem : Nat → Nat) (a n head fuel : Nat)
    (es : List (Nat × w_entry_t)) (hchain : chain_list ws n head = some es)
    (hfuel : es.length ≤ fuel) :
    load_chain_walk ws mem a fuel head = Walk.done
      (match es.find? (fun pe => decide (a = pe.2.addr)) with
        | some pe => if pe.2.mask = 0 then mem a else pe.2.value
        | none => mem a) := by
  cases hf : es.find? (fun pe => decide (a = pe.2.addr)) with
  | none => exact load_chain_walk_miss ws mem a n head es hchain hf fuel hfuel
  | some pe =>
    obtain ⟨p, e⟩ := pe
    exact load_chain_walk_hit ws mem a n head es hchain p e hf fuel hfuel

/-- C13. Load under a self-owned lock: when the bucket of a non-stack address
`a` is owned-form with a pointer inside this transaction's write set
(`base <= p < base + nb_entries`), the load barrier (reading the lock itself,
that is without an upgrade hint) returns the buffered value of the first chain
entry for `a` if that entry's mask is not 0, and otherwise (entry of mask 0, or
no entry for `a` in the chain) the current memory word at `a`; the whole state,
the read set included, is unchanged. -/
theorem load_under_self_owned_lock (cfg : Config) (cm : CM) (fuel n : Nat) (s : State)
    (a : Nat) (iso : Bool) (es : List (Nat × w_entry_t)) (lock : LockPtr)
    (hact : s.status = TX_ACTIVE) (hstack : stack_filter s a = false)
    (hnoup : ¬ (iso = true ∧ cm.cm_upgrade_lock s = true))
    (hlock : lock = if iso then GET_LOCK cfg a else PRIVATE_GET_LOCK cfg a)
    (howned : LOCK_GET_OWNED (load_lock s lock) = true)
    (hself : s.w_set.base ≤ LOCK_GET_ADDR (load_lock s lock) ∧
      LOCK_GET_ADDR (load_lock s lock) < s.w_set.base + s.w_set.nb_entries)
    (hchain : chain_list s.w_set n (LOCK_GET_ADDR (load_lock s lock)) = some es)
    (hfuel : es.length ≤ fuel) :
    pwb_load_internal cfg cm fuel s a iso = Outcome.ret
      (match es.find? (fun pe => decide (a = pe.2.addr)) with
        | some pe => if pe.2.mask = 0 then s.mem a else pe.2.value
        | none => s.mem a) s := by
  have hpos := chain_list_length_pos hchain
  obtain ⟨f, rfl⟩ : ∃ f, fuel = f + 1 := ⟨fuel - 1, by omega⟩
  have hwalk := load_chain_walk_value s.w_set s.mem a n _ (f + 1) es hchain hfuel
  unfold pwb_load_internal
  simp only [hact, hstack, hnoup]
  simp only [ne_eq, not_true_eq_false, if_false, Bool.false_eq_true]
  rw [← hlock]
  unfold pwb_load_loop
  simp only [howned, if_true, hself, and_self, hwalk]

/-- Loads of 4104 (buffered full-word value 7) and of 4096 (no entry, memory
word 0) under the self-owned bucket 128. -/
theorem load_under_self_owned_lock_witness :
    s_owned.status = TX_ACTIVE ∧ stack_filter s_owned 4104 = false ∧
    LOCK_GET_OWNED (load_lock s_owned (GET_LOCK cfg0 4104)) = true ∧
    chain_list s_owned.w_set 1 (LOCK_GET_ADDR (load_lock s_owned (GET_LOCK cfg0 4104)))
      = some [(1000, ⟨4104, 7, WORD_MAX, 3, LockPtr.glob 128, 0, some 0⟩)] ∧
    pwb_load_internal cfg0 cm0 1 s_owned 4104 true = Outcome.ret 7 s_owned ∧
    pwb_load_internal cfg0 cm0 1 s_owned 4096 true = Outcome.ret (s_owned.mem 4096) s_owned :=
  ⟨by decide, by decide, by decide, by decide,
    load_under_self_owned_lock cfg0 cm0 1 1 s_owned 4104 true
      [(1000, ⟨4104, 7, WORD_MAX, 3, LockPtr.glob 128, 0, some 0⟩)] (GET_LOCK cfg0 4104)
      (by decide) (by decide) (by decide) (by decide) (by decide) (by decide) (by decide)
      (by decide),
    load_under_self_owned_lock cfg0 cm0 1 1 s_owned 4096 true
      [(1000, ⟨4104, 7, WORD_MAX, 3, LockPtr.glob 128, 0, some 0⟩)] (GET_LOCK cfg0 4096)
      (by decide) (by decide) (by decide) (by decide) (by decide) (by decide) (by decide)
      (by decide)⟩

theorem take_set_same {α : Type} (l : List α) (n : Nat) (x : α) :
    (l.set n x).take n = l.take n := by
  apply List.ext_getElem?
  intro i
  rw [List.getElem?_take, List.getElem?_take]
  split
  · next h1 => rw [List.getElem?_set_ne (by omega)]
  · rfl

theorem take_succ_set {α : Type} (l : List α) (n : Nat) (x : α) (h : n < l.length) :
    (l.set n x).take (n + 1) = l.take n ++ [x] := by
  rw [List.take_succ, List.getElem?_set_self h, take_set_same]
  rfl

/-- The tail of the load barrier with isolation enabled, on a well-formed read
set: the value is returned and exactly one entry `(lock, version)` is appended
behind the live entries; nothing outside the read set changes. -/
theorem pwb_load_finish_appends (lock : LockPtr) (version value : Nat) (s : State)
    (hrs : r_set_ok s.r_set) :
    ∃ s1, pwb_load_finish true lock version value s = Outcome.ret value s1 ∧
      same_outside_read_set s s1 ∧
      s1.r_set.nb_entries = s.r_set.nb_entries + 1 ∧
      s1.r_set.entries.take s1.r_set.nb_entries
        = s.r_set.entries.take s.r_set.nb_entries ++ [⟨version, lock⟩] := by
  obtain ⟨hnb, hsz⟩ := hrs
  unfold pwb_load_finish
  by_cases hfull : s.r_set.nb_entries = s.r_set.size
  · have hlen : (mtm_allocate_rs_entries s).r_set.nb_entries
        < (mtm_allocate_rs_entries s).r_set.entries.length := by
      simp only [mtm_allocate_rs_entries, List.length_append, List.length_replicate]
      omega
    simp only [if_true, hfull, hlen]
    refine ⟨_, rfl, ?_, ?_, ?_⟩
    · simp [same_outside_read_set, mtm_allocate_rs_entries]
    · simp [mtm_allocate_rs_entries, hfull]
    · simp only []
      rw [take_succ_set _ _ _ hlen]
      simp only [mtm_allocate_rs_entries]
      rw [List.take_append_of_le_length (by omega), hfull]
  · have hlen : s.r_set.nb_entries < s.r_set.entries.length := by omega
    simp only [if_true, hfull, if_false, hlen]
    refine ⟨_, rfl, ?_, rfl, ?_⟩
    · simp [same_outside_read_set]
    · simp only []
      rw [take_succ_set _ _ _ hlen]

/-- The load loop on a free-form lock word whose version lies inside the
snapshot, with isolation enabled: the memory word is returned and one read-set
entry is appended. -/
theorem pwb_load_loop_free_inside (cfg : Config) (cm : CM) (a : Nat) (lock : LockPtr)
    (fuel : Nat) (s : State)
    (hfree : LOCK_GET_OWNED (load_lock s lock) = false)
    (hver : LOCK_GET_TIMESTAMP (load_lock s lock) ≤ s.end_)
    (hrs : r_set_ok s.r_set) :
    ∃ s1, pwb_load_loop cfg cm a lock true (fuel + 1) (load_lock s lock) s
        = Outcome.ret (s.mem a) s1 ∧
      same_outside_read_set s s1 ∧
      s1.r_set.nb_entries = s.r_set.nb_entries + 1 ∧
      s1.r_set.entries.take s1.r_set.nb_entries
        = s.r_set.entries.take s.r_set.nb_entries
          ++ [⟨LOCK_GET_TIMESTAMP (load_lock s lock), lock⟩] := by
  obtain ⟨s1, h1, h2, h3, h4⟩ := pwb_load_finish_appends lock
    (LOCK_GET_TIMESTAMP (load_lock s lock)) (s.mem a) s hrs
  refine ⟨s1, ?_, h2, h3, h4⟩
  unfold pwb_load_loop
  simp only [hfree, Bool.false_eq_true, if_false, if_true, ne_eq, not_true_eq_false]
  rw [if_neg (by omega)]
  exact h1

/-- C14. Load of a free location inside the snapshot: with isolation enabled,
no upgrade hint, a well-formed read set and the bucket of the non-stack address
`a` in free form with version <= end, `load(a)` returns `mem[a]` and appends
exactly one entry `(lock, version)` behind the live read-set entries (earlier
entries unchanged, `nb_entries` grows by 1); `end`, the write sets, the lock
tables and memory are unchanged. -/
theorem load_free_inside_snapshot (cfg : Config) (cm : CM) (fuel : Nat) (s : State) (a : Nat)
    (hact : s.status = TX_ACTIVE) (hstack : stack_filter s a = false)
    (hnoup : cm.cm_upgrade_lock s = false)
    (hfree : LOCK_GET_OWNED (load_lock s (GET_LOCK cfg a)) = false)
    (hver : LOCK_GET_TIMESTAMP (load_lock s (GET_LOCK cfg a)) ≤ s.end_)
    (hrs : r_set_ok s.r_set) :
    ∃ s1, pwb_load_internal cfg cm (fuel + 1) s a true = Outcome.ret (s.mem a) s1 ∧
      s1.r_set.nb_entries = s.r_set.nb_entries + 1 ∧
      s1.r_set.entries.take s1.r_set.nb_entries
        = s.r_set.entries.take s.r_set.nb_entries
          ++ [⟨LOCK_GET_TIMESTAMP (load_lock s (GET_LOCK cfg a)), GET_LOCK cfg a⟩] ∧
      s1.end_ = s.end_ ∧ s1.w_set = s.w_set ∧ s1.w_set_nv = s.w_set_nv ∧
      s1.locks = s.locks ∧ s1.private_locks = s.private_locks ∧ s1.mem = s.mem := by
  obtain ⟨s1, h1, h2, h3, h4⟩ := pwb_load_loop_free_inside cfg cm a (GET_LOCK cfg a) fuel s
    hfree hver hrs
  obtain ⟨-, -, -, -, -, -, e7, e8, e9, e10, e11, -, e13⟩ := h2
  refine ⟨s1, ?_, h3, h4, e7, e8, e9, e11, e10, e13⟩
  unfold pwb_load_internal
  simp only [hact, hstack, hnoup]
  simp only [ne_eq, not_true_eq_false, if_false, Bool.false_eq_true, and_false, if_true]
  exact h1

/-- A load of address 4096 by the fresh transaction (bucket 128 free with
timestamp 3, snapshot ending at 5, empty read set of capacity 2). -/
theorem load_free_inside_snapshot_witness :
    s_fresh.status = TX_ACTIVE ∧ stack_filter s_fresh 4096 = false ∧
    LOCK_GET_OWNED (load_lock s_fresh (GET_LOCK cfg0 4096)) = false ∧
    LOCK_GET_TIMESTAMP (load_lock s_fresh (GET_LOCK cfg0 4096)) ≤ s_fresh.end_ ∧
    r_set_ok s_fresh.r_set ∧
    ∃ s1, pwb_load_internal cfg0 cm0 (0 + 1) s_fresh 4096 true
        = Outcome.ret (s_fresh.mem 4096) s1 ∧
      s1.r_set.nb_entries = s_fresh.r_set.nb_entries + 1 ∧
      s1.r_set.entries.take s1.r_set.nb_entries
        = s_fresh.r_set.entries.take s_fresh.r_set.nb_entries
          ++ [⟨LOCK_GET_TIMESTAMP (load_lock s_fresh (GET_LOCK cfg0 4096)), GET_LOCK cfg0 4096⟩] ∧
      s1.end_ = s_fresh.end_ ∧ s1.w_set = s_fresh.w_set ∧ s1.w_set_nv = s_fresh.w_set_nv ∧
      s1.locks = s_fresh.locks ∧ s1.private_locks = s_fresh.private_locks ∧
      s1.mem = s_fresh.mem :=
  ⟨by decide, by decide, by decide, by decide, ⟨by decide, by decide⟩,
    load_free_inside_snapshot cfg0 cm0 0 s_fresh 4096 (by decide) (by decide) rfl
      (by decide) (by decide) ⟨by decide, by decide⟩⟩

theorem same_outside_read_set_refl (s : State) : same_outside_read_set s s := by
  simp [same_outside_read_set]

theorem pwb_load_finish_frame (iso : Bool) (lock : LockPtr) (version value : Nat)
    (s s1 : State) (h : (pwb_load_finish iso lock version value s).state? = some s1) :
    same_outside_read_set s s1 := by
  unfold pwb_load_finish at h
  have hpre : same_outside_read_set s
      (if s.r_set.nb_entries = s.r_set.size then mtm_allocate_rs_entries s else s) := by
    split <;> simp [same_outside_read_set, mtm_allocate_rs_entries]
  simp only [] at h
  generalize (if s.r_set.nb_entries = s.r_set.size then mtm_allocate_rs_entries s else s)
    = s2 at h hpre
  split at h
  · split at h
    · simp only [Outcome.state?, Option.some.injEq] at h
      subst h
      simpa [same_outside_read_set] using hpre
    · simp only [Outcome.state?, Option.some.injEq] at h
      subst h
      exact hpre
  · simp only [Outcome.state?, Option.some.injEq] at h
    subst h
    exact same_outside_read_set_refl _

/-- In a transaction that cannot extend, the load loop, however it ends, has
touched nothing but the read set. -/
theorem pwb_load_loop_no_extend (cfg : Config) (cm : CM) (a : Nat) (lock : LockPtr)
    (iso : Bool) :
    ∀ (fuel l : Nat) (s s1 : State), s.can_extend = false →
      (pwb_load_loop cfg cm a lock iso fuel l s).state? = some s1 →
      same_outside_read_set s s1 := by
  intro fuel
  induction fuel with
  | zero => intro l s s1 _ h; simp [pwb_load_loop, Outcome.state?] at h
  | succ f ih =>
    intro l s s1 hce h
    unfold pwb_load_loop at h
    simp only [] at h
    split at h
    · split at h
      · split at h
        · simp only [Outcome.state?, Option.some.injEq] at h
          subst h
          exact same_outside_read_set_refl _
        · simp [Outcome.state?] at h
        · simp only [Outcome.state?, Option.some.injEq] at h
          subst h
          exact same_outside_read_set_refl _
      · split at h
        · simp only [Outcome.state?, Option.some.injEq] at h
          subst h
          exact same_outside_read_set_refl _
        · split at h
          · exact ih _ _ _ hce h
          · exact ih _ _ _ hce h
          · simp only [Outcome.state?, Option.some.injEq] at h
            subst h
            exact same_outside_read_set_refl _
    · split at h
      · split at h
        · exact ih _ _ _ hce h
        · split at h
          · simp only [hce, Bool.false_eq_true, not_false_eq_true, if_true, Outcome.state?,
              Option.some.injEq] at h
            subst h
            exact same_outside_read_set_refl _
          · exact pwb_load_finish_frame _ _ _ _ _ _ h
      · exact pwb_load_finish_frame _ _ _ _ _ _ h


/-- The upgrade branch of the load barrier ends in the state in which the
zero-mask write ended. -/
theorem load_upgrade_state (o : Outcome Nat) (addr : Nat) :
    (match o with
      | Outcome.ret w s1 =>
        if s1.status ≠ TX_ACTIVE then Outcome.ret 0 s1
        else if w = 0 then Outcome.assert_fail s1
        else
          match w_deref s1.w_set w with
          | none => Outcome.fault s1
          | some e => Outcome.ret (if e.mask = 0 then s1.mem addr else e.value) s1
      | Outcome.restart r s1 => Outcome.restart r s1
      | Outcome.restart_no_tx r s1 => Outcome.restart_no_tx r s1
      | Outcome.fault s1 => Outcome.fault s1
      | Outcome.assert_fail s1 => Outcome.assert_fail s1
      | Outcome.out_of_fuel => (Outcome.out_of_fuel : Outcome Nat)).state? = o.state? := by
  cases o with
  | ret w s1 =>
    simp only []
    split
    · rfl
    · split
      · rfl
      · split <;> rfl
  | restart r s1 => rfl
  | restart_no_tx r s1 => rfl
  | fault s1 => rfl
  | assert_fail s1 => rfl
  | out_of_fuel => rfl

/-- C15 (the claim as stated is false). A transaction that cannot extend keeps
a read set like any other: with `can_extend = 0`, the load of address 4096
(bucket free with timestamp 3, snapshot ending at 5) returns the memory word
and appends the entry `(bucket 128, 3)` to the empty read set. -/
theorem load_cannot_extend_still_appends :
    ({ s_fresh with can_extend := false } : State).can_extend = false ∧
    s_fresh.r_set.nb_entries = 0 ∧
    (pwb_load_internal cfg0 cm0 1 { s_fresh with can_extend := false } 4096 true).val?
      = some 0 ∧
    (pwb_load_internal cfg0 cm0 1 { s_fresh with can_extend := false } 4096 true).state?.map
      (fun s1 => (s1.r_set.nb_entries, s1.r_set.entries.take 1))
      = some (1, [⟨3, LockPtr.glob 128⟩]) := by
  refine ⟨?_, ?_, ?_, ?_⟩ <;> decide

/-- C15 (amended). For a transaction that cannot extend (`can_extend = 0`) no
extend is attempted: no load, however it ends, changes `end`, and a load that
reads the lock itself with isolation enabled and meets a free-form word with
version > end does not return, the state being unchanged. The read set is not
skipped: when the version is <= end the load returns `mem[a]` and appends
`(lock, version)` as for any other transaction. -/
theorem load_cannot_extend (cfg : Config) (cm : CM) (fuel : Nat) (s : State) (a : Nat)
    (iso : Bool) (hact : s.status = TX_ACTIVE) (hce : s.can_extend = false) :
    (∀ s1, (pwb_load_internal cfg cm fuel s a iso).state? = some s1 → s1.end_ = s.end_) ∧
    (stack_filter s a = false → cm.cm_upgrade_lock s = false →
      LOCK_GET_OWNED (load_lock s (GET_LOCK cfg a)) = false →
      s.end_ < LOCK_GET_TIMESTAMP (load_lock s (GET_LOCK cfg a)) →
      (pwb_load_internal cfg cm (fuel + 1) s a true).val? = none ∧
      (pwb_load_internal cfg cm (fuel + 1) s a true).state? = some s) ∧
    (stack_filter s a = false → cm.cm_upgrade_lock s = false →
      LOCK_GET_OWNED (load_lock s (GET_LOCK cfg a)) = false →
      LOCK_GET_TIMESTAMP (load_lock s (GET_LOCK cfg a)) ≤ s.end_ → r_set_ok s.r_set →
      ∃ s1, pwb_load_internal cfg cm (fuel + 1) s a true = Outcome.ret (s.mem a) s1 ∧
        s1.r_set.nb_entries = s.r_set.nb_entries + 1 ∧
        s1.r_set.entries.take s1.r_set.nb_entries
          = s.r_set.entries.take s.r_set.nb_entries
            ++ [⟨LOCK_GET_TIMESTAMP (load_lock s (GET_LOCK cfg a)), GET_LOCK cfg a⟩]) := by
  refine ⟨?_, ?_, ?_⟩
  · intro s1 h
    unfold pwb_load_internal at h
    simp only [hact, ne_eq, not_true_eq_false, if_false] at h
    split at h
    · simp only [Outcome.state?, Option.some.injEq] at h
      rw [← h]
    · split at h
      · rename_i hst _
        rw [load_upgrade_state] at h
        unfold pwb_write pwb_write_internal at h
        simp only [hact, ne_eq, not_true_eq_false, if_false, hst] at h
        exact (pwb_write_loop_same_memory cfg cm a 0 0 _ true fuel _ 0 s s1 h).2.2.2.2.2.2.1
      · exact (pwb_load_loop_no_extend cfg cm a _ iso fuel _ s s1 hce h).2.2.2.2.2.2.1
  · intro hstack hnoup hfree hstale
    have hl : pwb_load_internal cfg cm (fuel + 1) s a true
        = Outcome.restart_no_tx RESTART_VALIDATE_READ s := by
      unfold pwb_load_internal
      simp only [hact, hstack, hnoup]
      simp only [ne_eq, not_true_eq_false, if_false, Bool.false_eq_true, and_false, if_true]
      unfold pwb_load_loop
      simp only [hfree, Bool.false_eq_true, if_false, if_true, ne_eq, not_true_eq_false]
      rw [if_pos hstale]
      simp [hce]
    rw [hl]
    exact ⟨rfl, rfl⟩
  · intro hstack hnoup hfree hver hrs
    obtain ⟨s1, h1, -, h3, h4⟩ := pwb_load_loop_free_inside cfg cm a (GET_LOCK cfg a) fuel s
      hfree hver hrs
    refine ⟨s1, ?_, h3, h4⟩
    unfold pwb_load_internal
    simp only [hact, hstack, hnoup]
    simp only [ne_eq, not_true_eq_false, if_false, Bool.false_eq_true, and_false, if_true]
    exact h1

/-- Loads by a transaction that cannot extend: of a location newer than the
snapshot (timestamp 9 against end 5), which does not return, and of a location
inside it. -/
theorem load_cannot_extend_witness :
    ({ s_fresh with can_extend := false, locks := fun _ => LOCK_SET_TIMESTAMP 9 } : State).status
      = TX_ACTIVE ∧
    ((pwb_load_internal cfg0 cm0 (0 + 1)
        { s_fresh with can_extend := false, locks := fun _ => LOCK_SET_TIMESTAMP 9 }
        4096 true).val? = none ∧
      (pwb_load_internal cfg0 cm0 (0 + 1)
        { s_fresh with can_extend := false, locks := fun _ => LOCK_SET_TIMESTAMP 9 }
        4096 true).state?
        = some { s_fresh with can_extend := false, locks := fun _ => LOCK_SET_TIMESTAMP 9 }) ∧
    (∀ s1, (pwb_load_internal cfg0 cm0 1 { s_fresh with can_extend := false } 4096 true).state?
      = some s1 → s1.end_ = 5) :=
  ⟨by decide,
    (load_cannot_extend cfg0 cm0 0
      { s_fresh with can_extend := false, locks := fun _ => LOCK_SET_TIMESTAMP 9 } 4096 true
      (by decide) (by decide)).2.1 (by decide) rfl (by decide) (by decide),
    (load_cannot_extend cfg0 cm0 1 { s_fresh with can_extend := false } 4096 true
      (by decide) (by decide)).1⟩

/-- C16 (the claim as stated is false). Under `ROLLOVER_CLOCK`, once the clock
has reached the overflow sentinel, a load of a location newer than the snapshot
does not return although the transaction can extend and validation of its read
set passes: `end` keeps its value 5 instead of taking the clock value 100. -/
theorem load_extend_refused_at_sentinel :
    ({ s_fresh with locks := fun _ => LOCK_SET_TIMESTAMP 9, gclock := 100 } : State).can_extend
      = true ∧
    mtm_validate { s_fresh with locks := fun _ => LOCK_SET_TIMESTAMP 9, gclock := 100 } = true ∧
    LOCK_GET_OWNED (load_lock
      { s_fresh with locks := fun _ => LOCK_SET_TIMESTAMP 9, gclock := 100 }
      (GET_LOCK cfg_rollover 4096)) = false ∧
    s_fresh.end_ < LOCK_GET_TIMESTAMP (load_lock
      { s_fresh with locks := fun _ => LOCK_SET_TIMESTAMP 9, gclock := 100 }
      (GET_LOCK cfg_rollover 4096)) ∧
    (pwb_load_internal cfg_rollover cm0 1
      { s_fresh with locks := fun _ => LOCK_SET_TIMESTAMP 9, gclock := 100 } 4096 true).val?
      = none ∧
    (pwb_load_internal cfg_rollover cm0 1
      { s_fresh with locks := fun _ => LOCK_SET_TIMESTAMP 9, gclock := 100 } 4096 true).state?.map
      (fun s1 => s1.end_) = some 5 := by
  refine ⟨?_, ?_, ?_, ?_, ?_, ?_⟩ <;> decide

/-- C16 (amended). Load of a location newer than the snapshot, with isolation
enabled, no upgrade hint and the bucket of the non-stack address `a` in free
form with version > end. If the transaction can extend, the clock is not the
overflow sentinel (below `VERSION_MAX` under `ROLLOVER_CLOCK`) and validation
of its read set passes, `end` becomes the current clock value and the load
returns `mem[a]`, appending `(lock, version)` to the read set. If the
transaction cannot extend, or the clock is the sentinel, or validation fails,
the load does not return and the state, the read set included, is
unchanged. -/
theorem load_newer_than_snapshot (cfg : Config) (cm : CM) (fuel : Nat) (s : State) (a : Nat)
    (hact : s.status = TX_ACTIVE) (hstack : stack_filter s a = false)
    (hnoup : cm.cm_upgrade_lock s = false)
    (hfree : LOCK_GET_OWNED (load_lock s (GET_LOCK cfg a)) = false)
    (hstale : s.end_ < LOCK_GET_TIMESTAMP (load_lock s (GET_LOCK cfg a))) :
    (s.can_extend = true →
      ¬ (cfg.ROLLOVER_CLOCK = true ∧ cfg.VERSION_MAX ≤ s.gclock) →
      mtm_validate s = true → r_set_ok s.r_set →
      ∃ s1, pwb_load_internal cfg cm (fuel + 1) s a true = Outcome.ret (s.mem a) s1 ∧
        s1.end_ = s.gclock ∧
        s1.r_set.nb_entries = s.r_set.nb_entries + 1 ∧
        s1.r_set.entries.take s1.r_set.nb_entries
          = s.r_set.entries.take s.r_set.nb_entries
            ++ [⟨LOCK_GET_TIMESTAMP (load_lock s (GET_LOCK cfg a)), GET_LOCK cfg a⟩] ∧
        s1.w_set = s.w_set ∧ s1.w_set_nv = s.w_set_nv ∧ s1.locks = s.locks ∧
        s1.mem = s.mem) ∧
    ((s.can_extend = false ∨ (cfg.ROLLOVER_CLOCK = true ∧ cfg.VERSION_MAX ≤ s.gclock) ∨
        mtm_validate s = false) →
      (pwb_load_internal cfg cm (fuel + 1) s a true).val? = none ∧
      (pwb_load_internal cfg cm (fuel + 1) s a true).state? = some s) := by
  have hst : pwb_load_internal cfg cm (fuel + 1) s a true
      = pwb_load_loop cfg cm a (GET_LOCK cfg a) true (fuel + 1)
        (load_lock s (GET_LOCK cfg a)) s := by
    unfold pwb_load_internal
    simp only [hact, hstack, hnoup]
    simp only [ne_eq, not_true_eq_false, if_false, Bool.false_eq_true, and_false, if_true]
  constructor
  · intro hce hov hval hrs
    obtain ⟨s2, hs2⟩ : ∃ s2 : State, s2 = { s with end_ := s.gclock } := ⟨_, rfl⟩
    have hext : pwb_extend cfg s = some (true, s2) := by
      rw [hs2]
      unfold pwb_extend
      simp only [hact, ne_eq, not_true_eq_false, if_false, ge_iff_le, hov, hval, if_true]
    have hrs1 : r_set_ok s2.r_set := by
      rw [hs2]
      exact hrs
    have hlk : load_lock s2 (GET_LOCK cfg a) = load_lock s (GET_LOCK cfg a) := by
      rw [hs2]
      cases GET_LOCK cfg a <;> rfl
    obtain ⟨s1, h1, h2, h3, h4⟩ := pwb_load_finish_appends (GET_LOCK cfg a)
      (LOCK_GET_TIMESTAMP (load_lock s (GET_LOCK cfg a))) (s.mem a) s2 hrs1
    have hmem : s2.mem a = s.mem a := by rw [hs2]
    obtain ⟨-, -, -, -, -, -, e7, e8, e9, -, e11, -, e13⟩ := h2
    refine ⟨s1, ?_, ?_, ?_, ?_, ?_, ?_, ?_, ?_⟩
    · rw [hst]
      unfold pwb_load_loop
      simp only [hfree, Bool.false_eq_true, if_false, if_true, ne_eq, not_true_eq_false]
      rw [if_pos hstale, if_neg (by simp [hce])]
      simp only [hext, hlk, not_true_eq_false, if_false]
      exact h1
    · rw [e7, hs2]
    · rw [h3, hs2]
    · rw [h4, hs2]
    · rw [e8, hs2]
    · rw [e9, hs2]
    · rw [e11, hs2]
    · rw [e13, hs2]
  · intro hc
    have hl : pwb_load_internal cfg cm (fuel + 1) s a true
        = Outcome.restart_no_tx RESTART_VALIDATE_READ s := by
      rw [hst]
      unfold pwb_load_loop
      simp only [hfree, Bool.false_eq_true, if_false, if_true, ne_eq, not_true_eq_false]
      rw [if_pos hstale]
      by_cases hce : s.can_extend = true
      · have hext : pwb_extend cfg s = some (false, s) := by
          unfold pwb_extend
          rcases hc with h | h | h
          · rw [hce] at h
            exact absurd h (by decide)
          · simp only [hact, ne_eq, not_true_eq_false, if_false, ge_iff_le, h, and_self,
              if_true]
          · by_cases hov : cfg.ROLLOVER_CLOCK = true ∧ cfg.VERSION_MAX ≤ s.gclock
            · simp only [hact, ne_eq, not_true_eq_false, if_false, ge_iff_le, hov, and_self,
                if_true]
            · simp only [hact, ne_eq, not_true_eq_false, if_false, ge_iff_le, hov, h,
                Bool.false_eq_true]
        simp only [hce, not_true_eq_false, if_false, hext]
      · simp [hce]
    rw [hl]
    exact ⟨rfl, rfl⟩

/-- A load of a location with timestamp 4 by a transaction whose snapshot ends
at 3 while the clock is at 5: the snapshot is extended to 5; and the same load
by a transaction that cannot extend, which does not return. -/
theorem load_newer_than_snapshot_witness :
    s_stale.status = TX_ACTIVE ∧ stack_filter s_stale 4096 = false ∧
    LOCK_GET_OWNED (load_lock s_stale (GET_LOCK cfg0 4096)) = false ∧
    s_stale.end_ < LOCK_GET_TIMESTAMP (load_lock s_stale (GET_LOCK cfg0 4096)) ∧
    s_stale.gclock = 5 ∧
    (∃ s1, pwb_load_internal cfg0 cm0 (0 + 1) s_stale 4096 true
        = Outcome.ret (s_stale.mem 4096) s1 ∧
      s1.end_ = s_stale.gclock ∧
      s1.r_set.nb_entries = s_stale.r_set.nb_entries + 1 ∧
      s1.r_set.entries.take s1.r_set.nb_entries
        = s_stale.r_set.entries.take s_stale.r_set.nb_entries
          ++ [⟨LOCK_GET_TIMESTAMP (load_lock s_stale (GET_LOCK cfg0 4096)), GET_LOCK cfg0 4096⟩] ∧
      s1.w_set = s_stale.w_set ∧ s1.w_set_nv = s_stale.w_set_nv ∧ s1.locks = s_stale.locks ∧
      s1.mem = s_stale.mem) ∧
    ((pwb_load_internal cfg0 cm0 (0 + 1) { s_stale with can_extend := false } 4096 true).val?
        = none ∧
      (pwb_load_internal cfg0 cm0 (0 + 1) { s_stale with can_extend := false } 4096 true).state?
        = some { s_stale with can_extend := false }) :=
  ⟨by decide, by decide, by decide, by decide, by decide,
    (load_newer_than_snapshot cfg0 cm0 0 s_stale 4096
      (by decide) (by decide) rfl (by decide) (by decide)).1
      (by decide) (by decide) (by decide) ⟨by decide, by decide⟩,
    (load_newer_than_snapshot cfg0 cm0 0 { s_stale with can_extend := false } 4096
      (by decide) (by decide) rfl (by decide) (by decide)).2 (Or.inl (by decide))⟩

theorem no_new_cache_link_refl (s : State) : no_new_cache_link s s := by
  intro q
  exact Or.inl rfl

theorem no_new_cache_link_trans {s t u : State}
    (h1 : no_new_cache_link s t) (h2 : no_new_cache_link t u) : no_new_cache_link s u := by
  intro q
  rcases h2 q with h | h
  · rcases h1 q with h3 | h3
    · exact Or.inl (h.trans h3)
    · exact Or.inr (by rw [h]; exact h3)
  · exact Or.inr h

theorem step_bind_link {x : Except State State} {g : State → Except State State} {s : State}
    (hx : no_new_cache_link s (step_state x))
    (hg : ∀ s1, no_new_cache_link s s1 → no_new_cache_link s (step_state (g s1))) :
    no_new_cache_link s (step_state (x >>= g)) := by
  cases x with
  | error e => simpa [bind, Except.bind, step_state] using hx
  | ok a => simpa [bind, Except.bind] using hg a (by simpa [step_state] using hx)

theorem w_modify_link (p : Nat) (f : w_entry_t → w_entry_t) (s0 s : State)
    (h : no_new_cache_link s0 s) : no_new_cache_link s0 (step_state (w_modify p f s)) := by
  unfold w_modify
  cases w_deref s.w_set p <;> simpa [step_state, no_new_cache_link] using h

theorem mask_new_value_link (entry address value mask : Nat) (s0 s : State)
    (h : no_new_cache_link s0 s) :
    no_new_cache_link s0 (step_state (mask_new_value entry address value mask s)) := by
  unfold mask_new_value
  cases w_deref s.w_set entry <;> simpa [step_state, no_new_cache_link] using h

theorem nv_modify_null_link (p : Nat) (f : w_entry_nv_t → w_entry_nv_t)
    (hf : ∀ n, (f n).next_cache_neighbor = 0) (s0 s : State)
    (h : no_new_cache_link s0 s) : no_new_cache_link s0 (step_state (nv_modify p f s)) := by
  unfold nv_modify
  split
  · simpa [step_state] using h
  · split
    · simpa [step_state] using h
    · split
      · simpa [step_state] using h
      · rename_i _ e he _ q0 hq0 _ n hq
        refine no_new_cache_link_trans h ?_
        intro q
        simp only [step_state]
        by_cases hqq : q0 = q
        · subst hqq
          right
          have hlt : q0 < s.w_set_nv.entries.length := by
            rcases Nat.lt_or_ge q0 s.w_set_nv.entries.length with h1 | h1
            · exact h1
            · rw [List.getElem?_eq_none h1] at hq
              exact Option.noConfusion hq
          simp [List.getElem?_set_self hlt, hf]
        · left
          simp [List.getElem?_set_ne hqq]

theorem initialize_write_set_entry_link (entry address value mask version : Nat)
    (lock : LockPtr) (s0 s : State) (h : no_new_cache_link s0 s) :
    no_new_cache_link s0
      (step_state (initialize_write_set_entry entry address value mask version lock s)) := by
  unfold initialize_write_set_entry
  refine step_bind_link (w_modify_link _ _ _ _ h) (fun s1 h1 => ?_)
  refine step_bind_link (w_modify_link _ _ _ _ h1) (fun s2 h2 => ?_)
  refine step_bind_link (mask_new_value_link _ _ _ _ _ _ h2) (fun s3 h3 => ?_)
  refine step_bind_link (w_modify_link _ _ _ _ h3) (fun s4 h4 => ?_)
  refine step_bind_link (w_modify_link _ _ _ _ h4) (fun s5 h5 => ?_)
  exact nv_modify_null_link _ _ (fun _ => rfl) _ _ h5

/-- The acquisition block of the store barrier ends in the state in which the
initialisation of the new entry ended. -/
theorem pwb_write_loop_free_state (cfg : Config) (cm : CM) (addr value mask : Nat)
    (lock : LockPtr) (fuel version : Nat) (s : State)
    (hfree : LOCK_GET_OWNED (load_lock s lock) = false)
    (hver : LOCK_GET_TIMESTAMP (load_lock s lock) ≤ s.end_ ∨ (s.can_extend = true ∧
      mtm_has_read s lock = none))
    (hroom : s.w_set.nb_entries ≠ s.w_set.size) :
    (pwb_write_loop cfg cm addr value mask lock true (fuel + 1) (load_lock s lock)
        version s).state?
      = some (step_state (initialize_write_set_entry (s.w_set.base + s.w_set.nb_entries)
          addr value mask (LOCK_GET_TIMESTAMP (load_lock s lock)) lock
          (store_lock s lock (LOCK_SET_ADDR (s.w_set.base + s.w_set.nb_entries))))) := by
  have hcond : ¬ (s.end_ < LOCK_GET_TIMESTAMP (load_lock s lock) ∧
      (s.can_extend = false ∨ ¬ mtm_has_read s lock = none)) := by
    rcases hver with h | ⟨h1, h2⟩
    · intro hc
      omega
    · simp [h1, h2]
  unfold pwb_write_loop
  simp only [hfree, hroom, insert_null_new_entry]
  simp
  rw [if_neg hcond]
  cases initialize_write_set_entry (s.w_set.base + s.w_set.nb_entries) addr value
      mask (LOCK_GET_TIMESTAMP (load_lock s lock)) lock
      (store_lock s lock (LOCK_SET_ADDR (s.w_set.base + s.w_set.nb_entries))) <;> rfl

theorem store_lock_link (s : State) (p : LockPtr) (v : Nat) :
    no_new_cache_link s (store_lock s p v) := by
  intro q
  cases p <;> exact Or.inl rfl

/-- Chain search, cache neighbour: on a miss over a null-terminated chain the
search leaves in `*last_cache_neighbor` the last chain entry lying in the cache
block of the address, or the initial content when the chain has none. -/
theorem matching_write_set_entry_neighbor (cfg : Config) (ws : w_set_t) (a : Nat) :
    ∀ (n head : Nat) (es : List (Nat × w_entry_t)), chain_list ws n head = some es →
      es.find? (fun pe => decide (a = pe.2.addr)) = none →
      ∀ fuel, es.length ≤ fuel → ∀ lt0 c0, ∃ q,
        matching_write_set_entry cfg ws a fuel head (some lt0) (some c0)
          = Walk.done ⟨0, some q,
              some (match (es.filter (fun pe =>
                  decide (BLOCK_ADDR cfg a = BLOCK_ADDR cfg pe.2.addr))).getLast? with
                | some pe => pe.1
                | none => c0)⟩ := by
  intro n
  induction n with
  | zero => intro head es h; simp [chain_list] at h
  | succ n ih =>
    intro head es h hfind fuel hfuel lt0 c0
    obtain ⟨e0, hd, ⟨hn, hes⟩ | ⟨hn, rest, hrest, hes⟩⟩ := chain_list_inv h
    · subst hes
      have ha : ¬ a = e0.addr := by
        intro ha
        simp [List.find?, ha] at hfind
      obtain ⟨f, rfl⟩ : ∃ f, fuel = f + 1 := ⟨fuel - 1, by simp at hfuel; omega⟩
      refine ⟨head, ?_⟩
      unfold matching_write_set_entry
      by_cases hb : BLOCK_ADDR cfg a = BLOCK_ADDR cfg e0.addr
      · simp [hd, ha, hn, hb, List.filter]
      · simp [hd, ha, hn, hb, List.filter]
    · subst hes
      obtain ⟨f, rfl⟩ : ∃ f, fuel = f + 1 := ⟨fuel - 1, by simp at hfuel; omega⟩
      have ha : ¬ a = e0.addr := by
        intro ha
        simp [List.find?, ha] at hfind
      simp only [List.find?, ha, decide_False] at hfind
      have hf : rest.length ≤ f := by simp at hfuel; omega
      by_cases hb : BLOCK_ADDR cfg a = BLOCK_ADDR cfg e0.addr
      · obtain ⟨q, hm⟩ := ih _ _ hrest hfind f hf lt0 head
        refine ⟨q, ?_⟩
        unfold matching_write_set_entry
        simp only [hd, ha, hn, if_false, hb, ne_eq, reduceCtorEq, not_false_eq_true, and_self,
          if_true]
        rw [hm]
        simp only [List.filter, hb, decide_True, List.getLast?_cons]
        cases (List.filter (fun pe => decide (BLOCK_ADDR cfg e0.addr = BLOCK_ADDR cfg pe.2.addr))
          rest).getLast? <;> rfl
      · obtain ⟨q, hm⟩ := ih _ _ hrest hfind f hf lt0 c0
        refine ⟨q, ?_⟩
        unfold matching_write_set_entry
        simp only [hd, ha, hn, if_false, hb, and_false]
        rw [hm]
        simp only [List.filter, hb, decide_False]


/-- C18 (the claim as stated is false). Cache-line threading does depend on
the hash bucket. The transaction owns bucket 128 through the entry for 4104
(pointer 1000, created first) and bucket 129 through an entry of another cache
line; it then stores to 4128, which lies in the cache line of 4104 but hashes
to bucket 129. The store returns the new entry at pointer 1002, and following
`next_cache_neighbor` from the first entry still visits that entry alone: the
two entries of the cache line are not on one chain. -/
theorem cache_chain_misses_other_bucket :
    BLOCK_ADDR cfg0 4104 = BLOCK_ADDR cfg0 4128 ∧ LOCK_IDX cfg0 4104 ≠ LOCK_IDX cfg0 4128 ∧
    (w_deref s_two_buckets.w_set 1000).map (fun e => e.addr) = some 4104 ∧
    (pwb_write_internal cfg0 cm0 4 s_two_buckets 4128 0xFF 0x0F true).val? = some 1002 ∧
    ((pwb_write_internal cfg0 cm0 4 s_two_buckets 4128 0xFF 0x0F true).state?.bind (fun s1 =>
      w_deref s1.w_set 1002)).map (fun e => e.addr) = some 4128 ∧
    (pwb_write_internal cfg0 cm0 4 s_two_buckets 4128 0xFF 0x0F true).state?.bind (fun s1 =>
      cache_chain s1 4 1000) = some [1000] := by
  refine ⟨?_, ?_, ?_, ?_, ?_, ?_⟩ <;> decide

/-- C18 (amended). Cache-line threading is confined to one lock bucket. A
store that acquires a free-form bucket passes no cache neighbour: whatever
state it ends in, every persistent record is the one held before or has a
`NULL` `next_cache_neighbor`, so no record is made to point to the new entry.
A store into a bucket the transaction already owns searches only the chain of
that bucket: on a miss the cache neighbour it obtains is the last entry of that
chain lying in the cache line of the address, `NULL` when there is none. -/
theorem cache_threading_confined_to_bucket (cfg : Config) (cm : CM) (fuel n : Nat)
    (s : State) (a v m : Nat) (es : List (Nat × w_entry_t))
    (hact : s.status = TX_ACTIVE) (hstack : stack_filter s a = false) :
    (LOCK_GET_OWNED (load_lock s (GET_LOCK cfg a)) = false →
      (LOCK_GET_TIMESTAMP (load_lock s (GET_LOCK cfg a)) ≤ s.end_ ∨
        (s.can_extend = true ∧ mtm_has_read s (GET_LOCK cfg a) = none)) →
      s.w_set.nb_entries ≠ s.w_set.size →
      ∃ s1, (pwb_write_internal cfg cm (fuel + 1) s a v m true).state? = some s1 ∧
        no_new_cache_link s s1) ∧
    (LOCK_GET_OWNED (load_lock s (GET_LOCK cfg a)) = true →
      chain_list s.w_set n (LOCK_GET_ADDR (load_lock s (GET_LOCK cfg a))) = some es →
      es.find? (fun pe => decide (a = pe.2.addr)) = none → es.length ≤ fuel →
      ∃ q, matching_write_set_entry cfg s.w_set a fuel
          (LOCK_GET_ADDR (load_lock s (GET_LOCK cfg a))) (some 0) (some 0)
        = Walk.done ⟨0, some q, some (last_in_block cfg a es)⟩) := by
  constructor
  · intro hfree hver hroom
    have hst := pwb_write_loop_free_state cfg cm a v m (GET_LOCK cfg a) fuel 0 s hfree hver
      hroom
    refine ⟨_, ?_, initialize_write_set_entry_link (s.w_set.base + s.w_set.nb_entries) a v m
      (LOCK_GET_TIMESTAMP (load_lock s (GET_LOCK cfg a))) (GET_LOCK cfg a) s _
      (store_lock_link s (GET_LOCK cfg a) (LOCK_SET_ADDR (s.w_set.base + s.w_set.nb_entries)))⟩
    unfold pwb_write_internal
    simp only [hact, hstack, ne_eq, not_true_eq_false, if_false, Bool.false_eq_true, if_true]
    exact hst
  · intro _ hchain hmiss hfuel
    exact matching_write_set_entry_neighbor cfg s.w_set a n _ es hchain hmiss fuel hfuel 0 0

/-- The store of 4096 by the fresh transaction (free bucket), and the chain
search of the store of 4128 into bucket 129 of the two-bucket transaction,
whose chain holds no entry of the cache line of 4128. -/
theorem cache_threading_confined_to_bucket_witness :
    s_fresh.status = TX_ACTIVE ∧ stack_filter s_fresh 4096 = false ∧
    (∃ s1, (pwb_write_internal cfg0 cm0 (0 + 1) s_fresh 4096 0xFF 0x0F true).state? = some s1 ∧
      no_new_cache_link s_fresh s1) ∧
    s_two_buckets.status = TX_ACTIVE ∧ stack_filter s_two_buckets 4128 = false ∧
    last_in_block cfg0 4128
      [(1001, ⟨36896, 9, WORD_MAX, 3, LockPtr.glob 129, 0, some 1⟩)] = 0 ∧
    (∃ q, matching_write_set_entry cfg0 s_two_buckets.w_set 4128 1
        (LOCK_GET_ADDR (load_lock s_two_buckets (GET_LOCK cfg0 4128))) (some 0) (some 0)
      = Walk.done ⟨0, some q, some (last_in_block cfg0 4128
          [(1001, ⟨36896, 9, WORD_MAX, 3, LockPtr.glob 129, 0, some 1⟩)])⟩) :=
  ⟨by decide, by decide,
    (cache_threading_confined_to_bucket cfg0 cm0 0 0 s_fresh 4096 0xFF 0x0F []
      (by decide) (by decide)).1 (by decide) (Or.inl (by decide)) (by decide),
    by decide, by decide, by decide,
    (cache_threading_confined_to_bucket cfg0 cm0 1 1 s_two_buckets 4128 0xFF 0x0F
      [(1001, ⟨36896, 9, WORD_MAX, 3, LockPtr.glob 129, 0, some 1⟩)]
      (by decide) (by decide)).2 (by decide) (by decide) (by decide) (by decide)⟩

/-- C19 (defect in the code). The persistent twin of a new entry is not
written. On the owned bucket 128, `store2(4096, 0xFF, 0x0F)` creates the entry
at pointer 1001 (address 4096, value 0x0F, twin record 1) and advances both
`nb_entries` to 2, but record 1 still holds address 0 and value 0: the two
stream stores went to the twin of the old tail (record 0), whose cache link now
points to itself. On a free bucket the store faults before any stream
store. -/
theorem new_entry_twin_not_written :
    (pwb_write_internal cfg0 cm0 4 s_owned 4096 0xFF 0x0F true).val? = some 1001 ∧
    ((pwb_write_internal cfg0 cm0 4 s_owned 4096 0xFF 0x0F true).state?.bind (fun s1 =>
      w_deref s1.w_set 1001)).map (fun e => (e.addr, e.value, e.w_entry_nv))
      = some (4096, 0x0F, some 1) ∧
    ((pwb_write_internal cfg0 cm0 4 s_owned 4096 0xFF 0x0F true).state?.bind (fun s1 =>
      nv_deref s1 1001)).map (fun r => (r.address, r.value)) = some (0, 0) ∧
    ((pwb_write_internal cfg0 cm0 4 s_owned 4096 0xFF 0x0F true).state?.bind (fun s1 =>
      nv_deref s1 1000)).map (fun r => (r.address, r.value, r.next_cache_neighbor))
      = some (4104, 7, 1000) ∧
    (pwb_write_internal cfg0 cm0 4 s_owned 4096 0xFF 0x0F true).state?.map (fun s1 =>
      (s1.w_set.nb_entries, s1.w_set_nv.nb_entries)) = some (2, 2) ∧
    (pwb_write_internal cfg0 cm0 4 s_fresh 4096 0xFF 0x0F true).faulted = true ∧
    (pwb_write_internal cfg0 cm0 4 s_fresh 4096 0xFF 0x0F true).state?.map (fun s1 =>
      (s1.w_set_nv.nb_entries, s1.w_set_nv.entries.map (fun r => (r.address, r.value))))
      = some (0, [(0, 0), (0, 0), (0, 0), (0, 0)]) := by
  refine ⟨?_, ?_, ?_, ?_, ?_, ?_, ?_⟩ <;> decide

/-- C20 (defect in the code). The public load entry point does not hand back
the barrier's result: `mtm_pwb_load` calls `pwb_load_internal(tx, addr, 1)` and
ends without a `return`, so whenever the barrier returns a word the value of
the call is indeterminate. With `mem[4096] = 7` the barrier computes 7 and the
entry point returns no defined word. -/
theorem mtm_pwb_load_drops_result :
    (∀ (cfg : Config) (cm : CM) (fuel : Nat) (s : State) (a w : Nat),
      (mtm_pwb_load cfg cm fuel s a).val? ≠ some (some w)) ∧
    (pwb_load_internal cfg0 cm0 1 { s_fresh with mem := fun _ => 7 } 4096 true).val? = some 7 ∧
    (mtm_pwb_load cfg0 cm0 1 { s_fresh with mem := fun _ => 7 } 4096).val? = some none := by
  refine ⟨?_, by decide, by decide⟩
  intro cfg cm fuel s a w
  unfold mtm_pwb_load
  cases pwb_load_internal cfg cm fuel s a true <;> simp [Outcome.val?]

/-! ## The byte swap of the lock index -/

theorem lock_idx_swap_testBit (idx : Nat) (i : Nat) :
    (lock_idx_swap idx).testBit i =
      if i < 8 then (idx % 2 ^ 32).testBit (i + 8)
      else if i < 16 then (idx % 2 ^ 32).testBit (i - 8)
      else (idx % 2 ^ 32).testBit i := by
  have c1 : (2 ^ 32 - 1 - 0xFFFF : Nat) = (2 ^ 16 - 1) <<< 16 := by decide
  have c2 : (0x00FF : Nat) = 2 ^ 8 - 1 := by decide
  have c3 : (0xFF00 : Nat) = (2 ^ 8 - 1) <<< 8 := by decide
  unfold lock_idx_swap
  rw [c1, c2, c3]
  simp only [Nat.testBit_or, Nat.testBit_and, Nat.testBit_shiftLeft, Nat.testBit_shiftRight,
    Nat.testBit_mod_two_pow, Nat.testBit_two_pow_sub_one]
  by_cases h8 : i < 8
  · have h1 : ¬ 16 ≤ i := by omega
    have h2 : ¬ 8 ≤ i := by omega
    have h3 : 8 + i < 32 := by omega
    have h4 : i + 8 < 32 := by omega
    simp [h8, h1, h2, h3, h4, Nat.add_comm]
  · by_cases h16 : i < 16
    · have h1 : ¬ 16 ≤ i := by omega
      have h2 : 8 ≤ i := by omega
      have h3 : i < 32 := by omega
      have h4 : i - 8 < 32 := by omega
      have h5 : i - 8 < 8 := by omega
      simp [h8, h16, h1, h2, h3, h4, h5]
    · have h1 : 16 ≤ i := by omega
      have h2 : 8 ≤ i := by omega
      by_cases h32 : i < 32
      · have h5 : ¬ i - 8 < 8 := by omega
        have h6 : i - 16 < 16 := by omega
        simp [h8, h16, h1, h2, h32, h5, h6]
      · have h7 : ¬ 8 + i < 32 := by omega
        simp [h8, h16, h1, h2, h32, h7]

theorem lock_idx_swap_lt (idx : Nat) : lock_idx_swap idx < 2 ^ 32 := by
  apply Nat.lt_pow_two_of_testBit
  intro i hi
  rw [lock_idx_swap_testBit]
  have h1 : ¬ i < 8 := by omega
  have h2 : ¬ i < 16 := by omega
  simp only [h1, h2, if_false, Nat.testBit_mod_two_pow]
  have h3 : ¬ i < 32 := by omega
  simp [h3]

theorem lock_idx_swap_swap (idx : Nat) :
    lock_idx_swap (lock_idx_swap idx) = idx % 2 ^ 32 := by
  apply Nat.eq_of_testBit_eq
  intro i
  rw [lock_idx_swap_testBit, Nat.mod_eq_of_lt (lock_idx_swap_lt idx)]
  by_cases h8 : i < 8
  · have h1 : ¬ i + 8 < 8 := by omega
    have h2 : i + 8 < 16 := by omega
    simp [h8, lock_idx_swap_testBit, h1, h2]
  · by_cases h16 : i < 16
    · have h1 : i - 8 < 8 := by omega
      have h2 : i - 8 + 8 = i := by omega
      simp [h8, h16, lock_idx_swap_testBit, h1, h2]
    · simp [h8, h16, lock_idx_swap_testBit]

theorem lock_idx_swap_arith (idx : Nat) (h : idx < 2 ^ 32) :
    lock_idx_swap idx =
      2 ^ 16 * (idx / 2 ^ 16) + (2 ^ 8 * (idx % 2 ^ 8) + idx / 2 ^ 8 % 2 ^ 8) := by
  apply Nat.eq_of_testBit_eq
  intro i
  have hb : 2 ^ 8 * (idx % 2 ^ 8) + idx / 2 ^ 8 % 2 ^ 8 < 2 ^ 16 := by omega
  have hc : idx / 2 ^ 8 % 2 ^ 8 < 2 ^ 8 := Nat.mod_lt _ (by decide)
  rw [lock_idx_swap_testBit, Nat.mod_eq_of_lt h, Nat.testBit_mul_pow_two_add _ hb,
    Nat.testBit_mul_pow_two_add _ hc]
  rw [← Nat.shiftRight_eq_div_pow idx 8, ← Nat.shiftRight_eq_div_pow idx 16]
  simp only [Nat.testBit_mod_two_pow, Nat.testBit_shiftRight]
  by_cases h8 : i < 8
  · have h1 : i < 16 := by omega
    simp [h8, h1, Nat.add_comm]
  · by_cases h16 : i < 16
    · have h1 : i - 8 < 8 := by omega
      simp [h8, h16, h1]
    · have h1 : 16 + (i - 16) = i := by omega
      simp [h8, h16, h1]

/-- C26. The function `lock_idx_swap` is a byte swap that loses no bucket. For
every 32-bit index `idx`: the result is `idx` with its two low-order bytes
exchanged and the bits from 16 up unchanged (as a sum of the three fields, and
bit by bit); the result is again a 32-bit index; applying the swap twice gives
`idx` back; two 32-bit indices with the same image are equal; and `idx` is the
image of a 32-bit index. -/
theorem lock_idx_swap_is_byte_swap (idx : Nat) (h : idx < 2 ^ 32) :
    lock_idx_swap idx =
      2 ^ 16 * (idx / 2 ^ 16) + (2 ^ 8 * (idx % 2 ^ 8) + idx / 2 ^ 8 % 2 ^ 8) ∧
    (∀ i, (lock_idx_swap idx).testBit i =
      if i < 8 then idx.testBit (i + 8)
      else if i < 16 then idx.testBit (i - 8)
      else idx.testBit i) ∧
    lock_idx_swap idx < 2 ^ 32 ∧
    lock_idx_swap (lock_idx_swap idx) = idx ∧
    (∀ j, j < 2 ^ 32 → lock_idx_swap j = lock_idx_swap idx → j = idx) ∧
    (∃ j, j < 2 ^ 32 ∧ lock_idx_swap j = idx) := by
  have hinv : lock_idx_swap (lock_idx_swap idx) = idx := by
    rw [lock_idx_swap_swap, Nat.mod_eq_of_lt h]
  refine ⟨lock_idx_swap_arith idx h, ?_, lock_idx_swap_lt idx, hinv, ?_,
    ⟨lock_idx_swap idx, lock_idx_swap_lt idx, hinv⟩⟩
  · intro i
    rw [lock_idx_swap_testBit, Nat.mod_eq_of_lt h]
  · intro j hj hji
    have h1 : lock_idx_swap (lock_idx_swap j) = lock_idx_swap (lock_idx_swap idx) := by
      rw [hji]
    rw [lock_idx_swap_swap, lock_idx_swap_swap, Nat.mod_eq_of_lt h, Nat.mod_eq_of_lt hj] at h1
    exact h1

theorem lock_idx_swap_is_byte_swap_witness :
    (0x12345678 : Nat) < 2 ^ 32 ∧
    lock_idx_swap 0x12345678 = 0x12347856 ∧
    lock_idx_swap (lock_idx_swap 0x12345678) = 0x12345678 :=
  ⟨by decide, by decide,
    (lock_idx_swap_is_byte_swap 0x12345678 (by decide)).2.2.2.1⟩

/-! ## The chain search -/

theorem chain_list_last (ws : w_set_t) :
    ∀ (n head : Nat) (es : List (Nat × w_entry_t)), chain_list ws n head = some es →
      ∃ q eq, es.getLast? = some (q, eq) ∧ eq.next = 0 := by
  intro n
  induction n with
  | zero => intro head es h; simp [chain_list] at h
  | succ n ih =>
    intro head es h
    obtain ⟨e0, hd, ⟨hn, hes⟩ | ⟨hn, rest, hrest, hes⟩⟩ := chain_list_inv h
    · subst hes
      exact ⟨head, e0, by simp, hn⟩
    · subst hes
      obtain ⟨q, eq, hlast, hq⟩ := ih _ _ hrest
      refine ⟨q, eq, ?_, hq⟩
      cases rest with
      | nil => simp at hlast
      | cons x xs => simpa [List.getLast?_cons_cons] using hlast

theorem matching_write_set_entry_miss_tail (cfg : Config) (ws : w_set_t) (a : Nat) :
    ∀ (n head : Nat) (es : List (Nat × w_entry_t)), chain_list ws n head = some es →
      es.find? (fun pe => decide (a = pe.2.addr)) = none →
      ∀ fuel, es.length ≤ fuel → ∀ (lt lcn : Option Nat), ∃ q eq lcn1,
        es.getLast? = some (q, eq) ∧
        matching_write_set_entry cfg ws a fuel head lt lcn
          = Walk.done ⟨0, lt.map (fun _ => q), lcn1⟩ := by
  intro n
  induction n with
  | zero => intro head es h; simp [chain_list] at h
  | succ n ih =>
    intro head es h hfind fuel hfuel lt lcn
    obtain ⟨e0, hd, ⟨hn, hes⟩ | ⟨hn, rest, hrest, hes⟩⟩ := chain_list_inv h
    · subst hes
      have ha : ¬ a = e0.addr := by
        intro ha
        simp [List.find?, ha] at hfind
      obtain ⟨f, rfl⟩ : ∃ f, fuel = f + 1 := ⟨fuel - 1, by simp at hfuel; omega⟩
      refine ⟨head, e0,
        (if lcn ≠ none ∧ BLOCK_ADDR cfg a = BLOCK_ADDR cfg e0.addr then some head else lcn),
        by simp, ?_⟩
      unfold matching_write_set_entry
      cases lt <;> simp [hd, ha, hn]
    · subst hes
      obtain ⟨f, rfl⟩ : ∃ f, fuel = f + 1 := ⟨fuel - 1, by simp at hfuel; omega⟩
      have ha : ¬ a = e0.addr := by
        intro ha
        simp [List.find?, ha] at hfind
      simp only [List.find?, ha, decide_False] at hfind
      have hf : rest.length ≤ f := by simp at hfuel; omega
      obtain ⟨q, eq, lcn1, hlast, hm⟩ := ih _ _ hrest hfind f hf lt
        (if lcn ≠ none ∧ BLOCK_ADDR cfg a = BLOCK_ADDR cfg e0.addr then some head else lcn)
      refine ⟨q, eq, lcn1, ?_, ?_⟩
      · cases rest with
        | nil => simp at hlast
        | cons x xs => simpa [List.getLast?_cons_cons] using hlast
      · unfold matching_write_set_entry
        simp only [hd, ha, hn, if_false]
        exact hm

/-- C27. Chain search. On a non-empty, finite, null-terminated chain (the
chain from `head` is the list `es`) `matching_write_set_entry` terminates
within `es.length` iterations and returns the first entry of `es` whose `addr`
is the address searched; it returns `NULL` exactly when no entry of the chain
has that address, and then `*list_tail` (when the caller passed a pointer for
it) holds the last entry of the chain, the one whose `next` is `NULL`. -/
theorem matching_write_set_entry_search (cfg : Config) (ws : w_set_t) (a n head fuel : Nat)
    (es : List (Nat × w_entry_t)) (lt lcn : Option Nat)
    (hchain : chain_list ws n head = some es) (hfuel : es.length ≤ fuel) :
    ∃ r, matching_write_set_entry cfg ws a fuel head lt lcn = Walk.done r ∧
      r.entry = (match es.find? (fun pe => decide (a = pe.2.addr)) with
        | some pe => pe.1
        | none => 0) ∧
      (r.entry = 0 ↔ ∀ pe ∈ es, pe.2.addr ≠ a) ∧
      (r.entry = 0 → ∃ q eq, es.getLast? = some (q, eq) ∧ w_deref ws q = some eq ∧
        eq.next = 0 ∧ r.list_tail = lt.map (fun _ => q)) := by
  cases hfind : es.find? (fun pe => decide (a = pe.2.addr)) with
  | some pe =>
    obtain ⟨p, e⟩ := pe
    obtain ⟨lt1, lcn1, hwalk⟩ :=
      matching_write_set_entry_hit cfg ws a n head es hchain p e hfind fuel hfuel lt lcn
    have hmem : (p, e) ∈ es := List.mem_of_find?_eq_some hfind
    have hp0 : p ≠ 0 := w_deref_some_ne_null (chain_list_mem ws n head es hchain _ hmem)
    have hadd : a = e.addr := by
      have := List.find?_some hfind
      simpa using this
    refine ⟨_, hwalk, rfl, ?_, ?_⟩
    · constructor
      · intro h0; exact absurd h0 hp0
      · intro hall; exact absurd hadd.symm (hall _ hmem)
    · intro h0; exact absurd h0 hp0
  | none =>
    obtain ⟨q, eq, lcn1, hlast, hwalk⟩ :=
      matching_write_set_entry_miss_tail cfg ws a n head es hchain hfind fuel hfuel lt lcn
    obtain ⟨q2, eq2, hlast2, hnext⟩ := chain_list_last ws n head es hchain
    rw [hlast] at hlast2
    cases hlast2
    have hq : w_deref ws q = some eq :=
      chain_list_mem ws n head es hchain _ (List.mem_of_getLast?_eq_some hlast)
    refine ⟨_, hwalk, rfl, ?_, ?_⟩
    · constructor
      · intro _ pe hpe hc
        have := List.find?_eq_none.mp hfind pe hpe
        simp [hc] at this
      · intro _; rfl
    · intro _
      exact ⟨q, eq, hlast, hq, hnext, rfl⟩

/-- On the chain `1000 -> 1001 -> 1002` of `ws_chain` a search for 4104 visits
three entries at most. -/
theorem matching_write_set_entry_search_witness :
    chain_list ws_chain 3 1000 = some
      [(1000, ⟨4096, 1, WORD_MAX, 3, LockPtr.glob 128, 1001, some 0⟩),
       (1001, ⟨4104, 2, WORD_MAX, 3, LockPtr.glob 128, 1002, some 1⟩),
       (1002, ⟨4096, 3, WORD_MAX, 3, LockPtr.glob 128, 0, some 2⟩)] ∧
    matching_write_set_entry cfg0 ws_chain 4096 3 1000 (some 0) (some 0)
      = Walk.done ⟨1000, some 0, some 1000⟩ ∧
    matching_write_set_entry cfg0 ws_chain 4104 3 1000 (some 0) (some 0)
      = Walk.done ⟨1001, some 0, some 1001⟩ ∧
    matching_write_set_entry cfg0 ws_chain 4112 3 1000 (some 0) (some 0)
      = Walk.done ⟨0, some 1002, some 1002⟩ ∧
    ∃ r, matching_write_set_entry cfg0 ws_chain 4104 3 1000 (some 0) (some 0) = Walk.done r ∧
      r.entry = (match
          ([(1000, ⟨4096, 1, WORD_MAX, 3, LockPtr.glob 128, 1001, some 0⟩),
            (1001, ⟨4104, 2, WORD_MAX, 3, LockPtr.glob 128, 1002, some 1⟩),
            (1002, ⟨4096, 3, WORD_MAX, 3, LockPtr.glob 128, 0, some 2⟩)] :
            List (Nat × w_entry_t)).find? (fun pe => decide (4104 = pe.2.addr)) with
        | some pe => pe.1
        | none => 0) :=
  ⟨by decide, by decide, by decide, by decide,
    (matching_write_set_entry_search cfg0 ws_chain 4104 3 1000 3
      [(1000, ⟨4096, 1, WORD_MAX, 3, LockPtr.glob 128, 1001, some 0⟩),
       (1001, ⟨4104, 2, WORD_MAX, 3, LockPtr.glob 128, 1002, some 1⟩),
       (1002, ⟨4096, 3, WORD_MAX, 3, LockPtr.glob 128, 0, some 2⟩)]
      (some 0) (some 0) (by decide) (by decide)).imp (fun _ h => ⟨h.1, h.2.1⟩)⟩

/-! ## Clock rollover -/

theorem rollover_apply_quiescent (cfg : Config) (op : rollover_op) (g : rollover_t) :
    ((op = rollover_op.enter ∨ op = rollover_op.wakeup ∨ g.tx_count - 1 ≠ 0 ∨
        (op = rollover_op.exit ∧ g.tx_overflow = 0)) →
      (rollover_apply cfg op g).state.gclock = g.gclock ∧
      (rollover_apply cfg op g).state.locks = g.locks) ∧
    (((rollover_apply cfg op g).state.gclock ≠ g.gclock ∨
        (rollover_apply cfg op g).state.locks ≠ g.locks) →
      g.tx_count - 1 = 0 ∧
      (op = rollover_op.overflow ∨ (op = rollover_op.exit ∧ g.tx_overflow ≠ 0)) ∧
      (rollover_apply cfg op g).state.gclock = 0 ∧
      (∀ i, i < cfg.LOCK_ARRAY_SIZE → (rollover_apply cfg op g).state.locks i = 0) ∧
      (rollover_apply cfg op g).state.tx_overflow = 0) := by
  cases op
  · simp [rollover_apply, mtm_rollover_enter]
    split <;> simp [rollover_step.state]
  · simp only [rollover_apply, mtm_rollover_exit]
    by_cases h0 : g.tx_count - 1 ≥ 0
    · by_cases h1 : g.tx_overflow ≠ 0 ∧ g.tx_count - 1 = 0
      · simp [h0, h1, rollover_step.state]
        intro _ i h2 h3
        omega
      · simp [h0, h1, rollover_step.state]
    · simp [h0, rollover_step.state]
  · simp only [rollover_apply, mtm_overflow]
    by_cases h0 : g.tx_count - 1 ≥ 0
    · by_cases h1 : g.tx_count - 1 = 0
      · simp [h0, h1, rollover_step.state]
        intro _ i h2 h3
        omega
      · simp [h0, h1, rollover_step.state]
    · simp [h0, rollover_step.state]
  · simp [rollover_apply, mtm_overflow_wakeup, rollover_step.state]

theorem rollover_apply_reset (cfg : Config) (g : rollover_t) (h : g.tx_count - 1 = 0) :
    (mtm_overflow cfg g).state.gclock = 0 ∧
    (∀ i, i < cfg.LOCK_ARRAY_SIZE → (mtm_overflow cfg g).state.locks i = 0) ∧
    (mtm_overflow cfg g).state.tx_overflow = 0 ∧
    (mtm_overflow cfg g).state.tx_count = 1 ∧
    (g.tx_overflow ≠ 0 →
      (mtm_rollover_exit cfg g).state.gclock = 0 ∧
      (∀ i, i < cfg.LOCK_ARRAY_SIZE → (mtm_rollover_exit cfg g).state.locks i = 0) ∧
      (mtm_rollover_exit cfg g).state.tx_overflow = 0 ∧
      (mtm_rollover_exit cfg g).state.tx_count = 0) := by
  refine ⟨?_, ?_, ?_, ?_, ?_⟩
  · simp [mtm_overflow, h, rollover_step.state]
  · intro i hi
    simp [mtm_overflow, h, rollover_step.state, hi]
  · simp [mtm_overflow, h, rollover_step.state]
  · simp [mtm_overflow, h, rollover_step.state]
  · intro ho
    refine ⟨?_, ?_, ?_, ?_⟩
    · simp [mtm_rollover_exit, h, ho, rollover_step.state]
    · intro i hi
      simp [mtm_rollover_exit, h, ho, rollover_step.state, hi]
    · simp [mtm_rollover_exit, h, ho, rollover_step.state]
    · simp [mtm_rollover_exit, h, ho, rollover_step.state]

/-- C22. Clock rollover happens only at quiescence. Take any sequence `ops` of
`mtm_rollover_enter` / `mtm_rollover_exit` / `mtm_overflow` steps (and
wake-ups of threads blocked in `mtm_overflow`) from any globals `g0`, and any
next step `op`, with `g` the globals before it. (1) An enter, a wake-up, a
step that leaves `tx_count` non-zero after its decrement, and an exit taken
with `tx_overflow = 0` leave the clock and the lock table unchanged. (2) If the
step changes the clock or the lock table, then `tx_count` is 0 after the
step's decrement, the step is an overflow or an exit with `tx_overflow` set,
and it has set the clock to 0, cleared the lock words
`0 .. LOCK_ARRAY_SIZE - 1` and cleared `tx_overflow`. (3) At that point the
reset does take place: an overflow resets and counts its caller active again
(`tx_count = 1`), an exit with `tx_overflow` set resets with `tx_count = 0`. -/
theorem rollover_only_at_quiescence (cfg : Config) (ops : List rollover_op) (g0 : rollover_t)
    (op : rollover_op) :
    ((op = rollover_op.enter ∨ op = rollover_op.wakeup ∨
        (rollover_run cfg ops g0).tx_count - 1 ≠ 0 ∨
        (op = rollover_op.exit ∧ (rollover_run cfg ops g0).tx_overflow = 0)) →
      (rollover_apply cfg op (rollover_run cfg ops g0)).state.gclock
        = (rollover_run cfg ops g0).gclock ∧
      (rollover_apply cfg op (rollover_run cfg ops g0)).state.locks
        = (rollover_run cfg ops g0).locks) ∧
    (((rollover_apply cfg op (rollover_run cfg ops g0)).state.gclock
          ≠ (rollover_run cfg ops g0).gclock ∨
        (rollover_apply cfg op (rollover_run cfg ops g0)).state.locks
          ≠ (rollover_run cfg ops g0).locks) →
      (rollover_run cfg ops g0).tx_count - 1 = 0 ∧
      (op = rollover_op.overflow ∨
        (op = rollover_op.exit ∧ (rollover_run cfg ops g0).tx_overflow ≠ 0)) ∧
      (rollover_apply cfg op (rollover_run cfg ops g0)).state.gclock = 0 ∧
      (∀ i, i < cfg.LOCK_ARRAY_SIZE →
        (rollover_apply cfg op (rollover_run cfg ops g0)).state.locks i = 0) ∧
      (rollover_apply cfg op (rollover_run cfg ops g0)).state.tx_overflow = 0) ∧
    ((rollover_run cfg ops g0).tx_count - 1 = 0 →
      (mtm_overflow cfg (rollover_run cfg ops g0)).state.gclock = 0 ∧
      (∀ i, i < cfg.LOCK_ARRAY_SIZE →
        (mtm_overflow cfg (rollover_run cfg ops g0)).state.locks i = 0) ∧
      (mtm_overflow cfg (rollover_run cfg ops g0)).state.tx_overflow = 0 ∧
      (mtm_overflow cfg (rollover_run cfg ops g0)).state.tx_count = 1 ∧
      ((rollover_run cfg ops g0).tx_overflow ≠ 0 →
        (mtm_rollover_exit cfg (rollover_run cfg ops g0)).state.gclock = 0 ∧
        (∀ i, i < cfg.LOCK_ARRAY_SIZE →
          (mtm_rollover_exit cfg (rollover_run cfg ops g0)).state.locks i = 0) ∧
        (mtm_rollover_exit cfg (rollover_run cfg ops g0)).state.tx_overflow = 0 ∧
        (mtm_rollover_exit cfg (rollover_run cfg ops g0)).state.tx_count = 0)) :=
  ⟨(rollover_apply_quiescent cfg op _).1, (rollover_apply_quiescent cfg op _).2,
    rollover_apply_reset cfg _⟩

/-- Two transactions enter, one detects the overflow and waits, the other
exits: only that exit resets the clock (7 to 0) and the lock words (9 to 0),
with `tx_count = 0`; the waiting thread then wakes up and counts again. -/
theorem rollover_only_at_quiescence_witness :
    ((rollover_run cfg0 [rollover_op.enter, rollover_op.enter] g_idle).tx_count,
      (rollover_run cfg0 [rollover_op.enter, rollover_op.enter] g_idle).gclock) = (2, 7) ∧
    ((rollover_run cfg0 [rollover_op.enter, rollover_op.enter, rollover_op.overflow]
        g_idle).tx_count,
      (rollover_run cfg0 [rollover_op.enter, rollover_op.enter, rollover_op.overflow]
        g_idle).tx_overflow,
      (rollover_run cfg0 [rollover_op.enter, rollover_op.enter, rollover_op.overflow]
        g_idle).gclock,
      (rollover_run cfg0 [rollover_op.enter, rollover_op.enter, rollover_op.overflow]
        g_idle).locks 5) = (1, 1, 7, 9) ∧
    ((rollover_run cfg0 [rollover_op.enter, rollover_op.enter, rollover_op.overflow,
        rollover_op.exit, rollover_op.wakeup] g_idle).tx_count,
      (rollover_run cfg0 [rollover_op.enter, rollover_op.enter, rollover_op.overflow,
        rollover_op.exit, rollover_op.wakeup] g_idle).tx_overflow,
      (rollover_run cfg0 [rollover_op.enter, rollover_op.enter, rollover_op.overflow,
        rollover_op.exit, rollover_op.wakeup] g_idle).gclock,
      (rollover_run cfg0 [rollover_op.enter, rollover_op.enter, rollover_op.overflow,
        rollover_op.exit, rollover_op.wakeup] g_idle).locks 5) = (1, 0, 0, 0) ∧
    (rollover_apply cfg0 rollover_op.exit
      (rollover_run cfg0 [rollover_op.enter, rollover_op.enter, rollover_op.overflow]
        g_idle)).state.gclock
      ≠ (rollover_run cfg0 [rollover_op.enter, rollover_op.enter, rollover_op.overflow]
        g_idle).gclock ∧
    (rollover_run cfg0 [rollover_op.enter, rollover_op.enter, rollover_op.overflow]
      g_idle).tx_count - 1 = 0 ∧
    (rollover_apply cfg0 rollover_op.exit
      (rollover_run cfg0 [rollover_op.enter, rollover_op.enter, rollover_op.overflow]
        g_idle)).state.gclock = 0 :=
  ⟨by decide, by decide, by decide, by decide,
    ((rollover_only_at_quiescence cfg0
      [rollover_op.enter, rollover_op.enter, rollover_op.overflow] g_idle
      rollover_op.exit).2.1 (Or.inl (by decide))).1,
    ((rollover_only_at_quiescence cfg0
      [rollover_op.enter, rollover_op.enter, rollover_op.overflow] g_idle
      rollover_op.exit).2.1 (Or.inl (by decide))).2.2.1⟩

/-! ## The list insertion helper -/

theorem w_modify_ok {s : State} {p : Nat} {e : w_entry_t} (f : w_entry_t → w_entry_t)
    (h : w_deref s.w_set p = some e) :
    w_modify p f s = Except.ok { s with w_set := w_assign s.w_set p (f e) } := by
  simp [w_modify, h]

theorem nv_modify_ok {s : State} {p q : Nat} {e : w_entry_t} {n : w_entry_nv_t}
    (f : w_entry_nv_t → w_entry_nv_t)
    (h : w_deref s.w_set p = some e) (hq : e.w_entry_nv = some q)
    (hn : s.w_set_nv.entries[q]? = some n) :
    nv_modify p f s = Except.ok
      { s with w_set_nv := { s.w_set_nv with entries := s.w_set_nv.entries.set q (f n) } } := by
  simp [nv_modify, h, hq, hn]

theorem nv_deref_ok {s : State} {p q : Nat} {e : w_entry_t}
    (h : w_deref s.w_set p = some e) (hq : e.w_entry_nv = some q) :
    nv_deref s p = s.w_set_nv.entries[q]? := by
  simp [nv_deref, h, hq]

theorem getElem?_set_self_of_some {α : Type} {l : List α} {q : Nat} {n : α} (x : α)
    (h : l[q]? = some n) : (l.set q x)[q]? = some x := by
  have hlt : q < l.length := by
    rcases Nat.lt_or_ge q l.length with hlt | hge
    · exact hlt
    · rw [List.getElem?_eq_none hge] at h
      exact Option.noConfusion h
  simp [hlt]

theorem except_ok_bind (a : State) (f : State → Except State State) :
    (Except.ok a >>= f) = f a := rfl

theorem stream_store_twin (x : State) (p qn : Nat) (e1 : w_entry_t) (nx : w_entry_nv_t)
    (v a : Nat) (hx : w_deref x.w_set p = some e1) (hq : e1.w_entry_nv = some qn)
    (hnx : x.w_set_nv.entries[qn]? = some nx) :
    (nv_modify p (fun n => { n with value := v }) x >>= fun s =>
      nv_modify p (fun n => { n with address := a }) s >>= fun s =>
      Except.ok { s with
        w_set := { s.w_set with nb_entries := s.w_set.nb_entries + 1 },
        w_set_nv := { s.w_set_nv with nb_entries := s.w_set_nv.nb_entries + 1 } }) =
    Except.ok { x with
      w_set := { x.w_set with nb_entries := x.w_set.nb_entries + 1 },
      w_set_nv :=
        { entries := x.w_set_nv.entries.set qn ⟨a, v, nx.next_cache_neighbor⟩,
          nb_entries := x.w_set_nv.nb_entries + 1 } } := by
  rw [nv_modify_ok _ hx hq hnx]
  simp only [bind, Except.bind]
  rw [nv_modify_ok _ (by exact hx) hq (by exact getElem?_set_self_of_some _ hnx)]
  simp only [List.set_set]

/-- C28. List insertion helper. `insert_write_set_entry_after(new_entry, tail,
tx, cache_neighbor)`, called with a non-NULL `tail` other than `new_entry`,
both valid entries, `new_entry` having a persistent twin (and, when
`cache_neighbor` is not NULL, `cache_neighbor` having a twin other than that of
`new_entry`), returns and has normal singly-linked-list insertion semantics:
afterwards `tail.next = new_entry` and `new_entry.next` is the old `tail.next`,
every other entry is unchanged, the volatile and the persistent `nb_entries`
have both grown by exactly 1, and the twin of `new_entry` holds its address and
value; with a non-NULL `cache_neighbor` the twin of `cache_neighbor` points to
`new_entry` and the twin of `new_entry` to the old cache successor of
`cache_neighbor`; with a NULL `cache_neighbor` the cache link of the twin of
`new_entry` is NULL. -/
theorem insert_write_set_entry_after_list_insertion (new_entry tail cn : Nat) (s : State)
    (e t : w_entry_t) (qn : Nat) (n : w_entry_nv_t)
    (htail : w_deref s.w_set tail = some t)
    (hnew : w_deref s.w_set new_entry = some e)
    (hne : new_entry ≠ tail)
    (hqn : e.w_entry_nv = some qn)
    (hn : s.w_set_nv.entries[qn]? = some n)
    (hcn : cn ≠ 0 → ∃ ec qc c, w_deref s.w_set cn = some ec ∧ ec.w_entry_nv = some qc ∧
      s.w_set_nv.entries[qc]? = some c ∧ qc ≠ qn) :
    ∃ s1, insert_write_set_entry_after new_entry tail cn s = Except.ok s1 ∧
      w_deref s1.w_set tail = some { t with next := new_entry } ∧
      w_deref s1.w_set new_entry = some { e with next := t.next } ∧
      (∀ q, q ≠ new_entry → q ≠ tail → w_deref s1.w_set q = w_deref s.w_set q) ∧
      s1.w_set.nb_entries = s.w_set.nb_entries + 1 ∧
      s1.w_set_nv.nb_entries = s.w_set_nv.nb_entries + 1 ∧
      (cn = 0 → nv_deref s1 new_entry = some ⟨e.addr, e.value, 0⟩) ∧
      (cn ≠ 0 → ∃ c, nv_deref s cn = some c ∧
        nv_deref s1 cn = some { c with next_cache_neighbor := new_entry } ∧
        nv_deref s1 new_entry = some ⟨e.addr, e.value, c.next_cache_neighbor⟩) := by
  have ht0 : tail ≠ 0 := w_deref_some_ne_null htail
  obtain ⟨sa, hsa⟩ : ∃ sa : State, sa =
      { s with w_set := w_assign s.w_set new_entry { e with next := t.next } } := ⟨_, rfl⟩
  have h1 : w_modify new_entry (fun e => { e with next := t.next }) s = Except.ok sa := by
    rw [hsa]; exact w_modify_ok _ hnew
  have hda : ∀ q, w_deref sa.w_set q =
      if q = new_entry then some { e with next := t.next } else w_deref s.w_set q := by
    intro q; rw [hsa]; exact w_deref_w_assign hnew _ q
  have hta : w_deref sa.w_set tail = some t := by
    rw [hda, if_neg (Ne.symm hne)]; exact htail
  obtain ⟨sb, hsb⟩ : ∃ sb : State, sb =
      { sa with w_set := w_assign sa.w_set tail { t with next := new_entry } } := ⟨_, rfl⟩
  have h2 : w_modify tail (fun e => { e with next := new_entry }) sa = Except.ok sb := by
    rw [hsb]; exact w_modify_ok _ hta
  have hdb : ∀ q, w_deref sb.w_set q =
      if q = tail then some { t with next := new_entry }
      else if q = new_entry then some { e with next := t.next } else w_deref s.w_set q := by
    intro q; rw [hsb]
    show w_deref (w_assign sa.w_set tail _) q = _
    rw [w_deref_w_assign hta, hda]
  have hnvb : sb.w_set_nv = s.w_set_nv := by rw [hsb, hsa]
  have hnbb : sb.w_set.nb_entries = s.w_set.nb_entries := by rw [hsb, hsa]; rfl
  have hnewb : w_deref sb.w_set new_entry = some { e with next := t.next } := by
    rw [hdb, if_neg hne, if_pos rfl]
  have htwin : ∀ q x, w_deref s.w_set q = some x → ∃ y, w_deref sb.w_set q = some y ∧
      y.w_entry_nv = x.w_entry_nv := by
    intro q x hx
    rw [hdb]
    by_cases hq1 : q = tail
    · rw [hq1] at hx
      have hxt : t = x := Option.some.inj (htail.symm.trans hx)
      rw [if_pos hq1, ← hxt]
      exact ⟨_, rfl, rfl⟩
    · by_cases hq2 : q = new_entry
      · rw [hq2] at hx
        have hxe : e = x := Option.some.inj (hnew.symm.trans hx)
        rw [if_neg hq1, if_pos hq2, ← hxe]
        exact ⟨_, rfl, rfl⟩
      · rw [if_neg hq1, if_neg hq2]
        exact ⟨x, hx, rfl⟩
  have hdf : ∀ (x : State) (k : Nat) (q : Nat), x.w_set = sb.w_set →
      w_deref { x.w_set with nb_entries := k } q = w_deref sb.w_set q := by
    intro x k q hx
    rw [← hx]
    rfl
  by_cases hc0 : cn = 0
  · obtain ⟨sc, hsc⟩ : ∃ sc : State, sc = { sb with w_set_nv := { sb.w_set_nv with
      entries := sb.w_set_nv.entries.set qn { n with next_cache_neighbor := 0 } } } := ⟨_, rfl⟩
    have h3 : nv_modify new_entry (fun n => { n with next_cache_neighbor := 0 }) sb
        = Except.ok sc := by
      rw [hsc]; exact nv_modify_ok _ hnewb hqn (by rw [hnvb]; exact hn)
    have hscw : sc.w_set = sb.w_set := by rw [hsc]
    have hnewc : w_deref sc.w_set new_entry = some { e with next := t.next } := by
      rw [hscw]; exact hnewb
    have hscq : sc.w_set_nv.entries[qn]? = some { n with next_cache_neighbor := 0 } := by
      rw [hsc]
      show (sb.w_set_nv.entries.set qn _)[qn]? = _
      rw [hnvb]
      exact getElem?_set_self_of_some _ hn
    have hscn : sc.w_set_nv.nb_entries = s.w_set_nv.nb_entries := by rw [hsc]; simp [hnvb]
    have hC := stream_store_twin sc new_entry qn _ _ e.value e.addr hnewc hqn hscq
    obtain ⟨sf, hfun, hsf⟩ : ∃ sf, insert_write_set_entry_after new_entry tail cn s
        = Except.ok sf ∧ sf = { sc with
          w_set := { sc.w_set with nb_entries := sc.w_set.nb_entries + 1 },
          w_set_nv :=
            { entries := sc.w_set_nv.entries.set qn ⟨e.addr, e.value, 0⟩,
              nb_entries := sc.w_set_nv.nb_entries + 1 } } := by
      refine ⟨_, ?_, rfl⟩
      unfold insert_write_set_entry_after
      simp only [ht0, hc0, ne_eq, not_false_eq_true, not_true_eq_false, if_true, if_false,
        htail, h1, h2, h3, except_ok_bind, hnewc]
      exact hC
    refine ⟨sf, hfun, ?_, ?_, ?_, ?_, ?_, ?_, ?_⟩ <;> rw [hsf]
    · show w_deref { sc.w_set with nb_entries := _ } tail = _
      rw [hdf sc _ _ hscw, hdb, if_pos rfl]
    · show w_deref { sc.w_set with nb_entries := _ } new_entry = _
      rw [hdf sc _ _ hscw]; exact hnewb
    · intro q hq1 hq2
      show w_deref { sc.w_set with nb_entries := _ } q = _
      rw [hdf sc _ _ hscw, hdb, if_neg hq2, if_neg hq1]
    · show sc.w_set.nb_entries + 1 = _
      rw [hscw, hnbb]
    · show sc.w_set_nv.nb_entries + 1 = _
      rw [hscn]
    · intro _
      have hd : w_deref { sc.w_set with nb_entries := sc.w_set.nb_entries + 1 } new_entry
          = some { e with next := t.next } := by
        rw [hdf sc _ _ hscw]; exact hnewb
      simp only [nv_deref, hd, hqn]
      exact getElem?_set_self_of_some _ hscq
    · intro h; exact absurd hc0 h
  · obtain ⟨ec, qc, c, hec, hqc, hc, hqq⟩ := hcn hc0
    obtain ⟨y, hy, hyq⟩ := htwin cn ec hec
    have hdc : nv_deref sb cn = some c := by
      rw [nv_deref_ok hy (hyq.trans hqc), hnvb]; exact hc
    obtain ⟨sc1, hsc1⟩ : ∃ sc1 : State, sc1 = { sb with w_set_nv := { sb.w_set_nv with
      entries := sb.w_set_nv.entries.set qn
        { n with next_cache_neighbor := c.next_cache_neighbor } } } := ⟨_, rfl⟩
    have h3 : nv_modify new_entry
        (fun n => { n with next_cache_neighbor := c.next_cache_neighbor }) sb
        = Except.ok sc1 := by
      rw [hsc1]; exact nv_modify_ok _ hnewb hqn (by rw [hnvb]; exact hn)
    have hc1 : sc1.w_set_nv.entries[qc]? = some c := by
      rw [hsc1]
      show (sb.w_set_nv.entries.set qn _)[qc]? = some c
      rw [List.getElem?_set_ne (Ne.symm hqq), hnvb]; exact hc
    have hq1 : sc1.w_set_nv.entries[qn]? =
        some { n with next_cache_neighbor := c.next_cache_neighbor } := by
      rw [hsc1]
      show (sb.w_set_nv.entries.set qn _)[qn]? = _
      rw [hnvb]
      exact getElem?_set_self_of_some _ hn
    have hy1 : w_deref sc1.w_set cn = some y := by rw [hsc1]; exact hy
    obtain ⟨sc, hsc⟩ : ∃ sc : State, sc = { sc1 with w_set_nv := { sc1.w_set_nv with
      entries := sc1.w_set_nv.entries.set qc { c with next_cache_neighbor := new_entry } } } :=
      ⟨_, rfl⟩
    have h4 : nv_modify cn (fun n => { n with next_cache_neighbor := new_entry }) sc1
        = Except.ok sc := by
      rw [hsc]; exact nv_modify_ok _ hy1 (hyq.trans hqc) hc1
    have hscw : sc.w_set = sb.w_set := by rw [hsc, hsc1]
    have hnewc : w_deref sc.w_set new_entry = some { e with next := t.next } := by
      rw [hscw]; exact hnewb
    have hscq : sc.w_set_nv.entries[qn]? =
        some { n with next_cache_neighbor := c.next_cache_neighbor } := by
      rw [hsc]
      show (sc1.w_set_nv.entries.set qc _)[qn]? = _
      rw [List.getElem?_set_ne hqq]; exact hq1
    have hscc : sc.w_set_nv.entries[qc]? = some { c with next_cache_neighbor := new_entry } := by
      rw [hsc]
      show (sc1.w_set_nv.entries.set qc _)[qc]? = _
      exact getElem?_set_self_of_some _ hc1
    have hscn : sc.w_set_nv.nb_entries = s.w_set_nv.nb_entries := by
      rw [hsc, hsc1]; simp [hnvb]
    have hC := stream_store_twin sc new_entry qn _ _ e.value e.addr hnewc hqn hscq
    obtain ⟨sf, hfun, hsf⟩ : ∃ sf, insert_write_set_entry_after new_entry tail cn s
        = Except.ok sf ∧ sf = { sc with
          w_set := { sc.w_set with nb_entries := sc.w_set.nb_entries + 1 },
          w_set_nv :=
            { entries := sc.w_set_nv.entries.set qn ⟨e.addr, e.value, c.next_cache_neighbor⟩,
              nb_entries := sc.w_set_nv.nb_entries + 1 } } := by
      refine ⟨_, ?_, rfl⟩
      unfold insert_write_set_entry_after
      simp only [ht0, hc0, ne_eq, not_false_eq_true, if_true, htail, h1, h2, hdc, h3, h4,
        except_ok_bind, hnewc]
      exact hC
    refine ⟨sf, hfun, ?_, ?_, ?_, ?_, ?_, ?_, ?_⟩ <;> rw [hsf]
    · show w_deref { sc.w_set with nb_entries := _ } tail = _
      rw [hdf sc _ _ hscw, hdb, if_pos rfl]
    · show w_deref { sc.w_set with nb_entries := _ } new_entry = _
      rw [hdf sc _ _ hscw]; exact hnewb
    · intro q hq1 hq2
      show w_deref { sc.w_set with nb_entries := _ } q = _
      rw [hdf sc _ _ hscw, hdb, if_neg hq2, if_neg hq1]
    · show sc.w_set.nb_entries + 1 = _
      rw [hscw, hnbb]
    · show sc.w_set_nv.nb_entries + 1 = _
      rw [hscn]
    · intro h; exact absurd h hc0
    · intro _
      refine ⟨c, ?_, ?_, ?_⟩
      · rw [nv_deref_ok hec hqc]; exact hc
      · have hd : w_deref { sc.w_set with nb_entries := sc.w_set.nb_entries + 1 } cn
            = some y := by
          rw [hdf sc _ _ hscw]; exact hy
        simp only [nv_deref, hd, hyq.trans hqc]
        rw [List.getElem?_set_ne (Ne.symm hqq)]; exact hscc
      · have hd : w_deref { sc.w_set with nb_entries := sc.w_set.nb_entries + 1 } new_entry
            = some { e with next := t.next } := by
          rw [hdf sc _ _ hscw]; exact hnewb
        simp only [nv_deref, hd, hqn]
        exact getElem?_set_self_of_some _ hscq

/-- Insertion of the unused slot 1003 behind the head 1000 of the chain
`1000 -> 1001 -> 1002`, with the head as cache neighbour: the chain becomes
`1000 -> 1003 -> 1001 -> 1002`. -/
theorem insert_write_set_entry_after_list_insertion_witness :
    (chain_list (step_state (insert_write_set_entry_after 1003 1000 1000 s_chain)).w_set 4
      1000).map (fun es => es.map (fun pe => pe.1)) = some [1000, 1003, 1001, 1002] ∧
    ∃ s1, insert_write_set_entry_after 1003 1000 1000 s_chain = Except.ok s1 ∧
      w_deref s1.w_set 1000 = some
        { (⟨4096, 1, WORD_MAX, 3, LockPtr.glob 128, 1001, some 0⟩ : w_entry_t) with
          next := 1003 } ∧
      w_deref s1.w_set 1003 = some
        { blank_entry 3 with
          next := (⟨4096, 1, WORD_MAX, 3, LockPtr.glob 128, 1001, some 0⟩ : w_entry_t).next } ∧
      (∀ q, q ≠ 1003 → q ≠ 1000 → w_deref s1.w_set q = w_deref s_chain.w_set q) ∧
      s1.w_set.nb_entries = s_chain.w_set.nb_entries + 1 ∧
      s1.w_set_nv.nb_entries = s_chain.w_set_nv.nb_entries + 1 :=
  ⟨by decide,
    (insert_write_set_entry_after_list_insertion 1003 1000 1000 s_chain (blank_entry 3)
      ⟨4096, 1, WORD_MAX, 3, LockPtr.glob 128, 1001, some 0⟩ 3 ⟨0, 0, 0⟩
      (by decide) (by decide) (by decide) (by decide) (by decide)
      (fun _ => ⟨⟨4096, 1, WORD_MAX, 3, LockPtr.glob 128, 1001, some 0⟩, 0, ⟨4096, 1, 0⟩,
        by decide, by decide, by decide, by decide⟩)).imp
      (fun _ h => ⟨h.1, h.2.1, h.2.2.1, h.2.2.2.1, h.2.2.2.2.1, h.2.2.2.2.2.1⟩)⟩

/-! ## Read-set versions and the snapshot -/

theorem pwb_extend_true {cfg : Config} {s s1 : State}
    (h : pwb_extend cfg s = some (true, s1)) : s1 = { s with end_ := s.gclock } := by
  unfold pwb_extend at h
  simp only [] at h
  split at h
  · exact Option.noConfusion h
  · split at h
    · simp at h
    · split at h
      · simp only [Option.some.injEq, Prod.mk.injEq, true_and] at h
        exact h.symm
      · simp at h

theorem pwb_extend_false {cfg : Config} {s s1 : State}
    (h : pwb_extend cfg s = some (false, s1)) : s1 = s := by
  unfold pwb_extend at h
  simp only [] at h
  split at h
  · exact Option.noConfusion h
  · split at h
    · simp only [Option.some.injEq, Prod.mk.injEq, true_and] at h
      exact h.symm
    · split at h
      · simp at h
      · simp only [Option.some.injEq, Prod.mk.injEq, true_and] at h
        exact h.symm

theorem read_set_in_snapshot_allocate {s : State} (h : read_set_in_snapshot s) :
    read_set_in_snapshot (mtm_allocate_rs_entries s) := by
  intro r hr
  simp only [mtm_allocate_rs_entries, List.take_append_eq_append_take, List.mem_append] at hr
  rcases hr with hr | hr
  · exact h r hr
  · have := List.mem_of_mem_take hr
    rw [List.mem_replicate] at this
    rw [this.2]
    exact Nat.zero_le _

theorem pwb_load_finish_in_snapshot (iso : Bool) (lock : LockPtr) (version value : Nat)
    (s s1 : State) (hinv : read_set_in_snapshot s) (hver : version ≤ s.end_)
    (h : (pwb_load_finish iso lock version value s).state? = some s1) :
    read_set_in_snapshot s1 ∧ s1.end_ = s.end_ := by
  unfold pwb_load_finish at h
  have hpre : read_set_in_snapshot
      (if s.r_set.nb_entries = s.r_set.size then mtm_allocate_rs_entries s else s) ∧
      (if s.r_set.nb_entries = s.r_set.size then mtm_allocate_rs_entries s else s).end_
        = s.end_ := by
    split
    · exact ⟨read_set_in_snapshot_allocate hinv, rfl⟩
    · exact ⟨hinv, rfl⟩
  simp only [] at h
  generalize (if s.r_set.nb_entries = s.r_set.size then mtm_allocate_rs_entries s else s)
    = s2 at h hpre
  split at h
  · split at h
    · rename_i hlen
      simp only [Outcome.state?, Option.some.injEq] at h
      subst h
      refine ⟨?_, hpre.2⟩
      intro r hr
      simp only [] at hr
      rw [take_succ_set _ _ _ hlen, List.mem_append, List.mem_singleton] at hr
      rcases hr with hr | hr
      · exact hpre.1 r hr
      · rw [hr]
        show version ≤ s2.end_
        rw [hpre.2]; exact hver
    · simp only [Outcome.state?, Option.some.injEq] at h
      subst h
      exact hpre
  · simp only [Outcome.state?, Option.some.injEq] at h
    subst h
    exact ⟨hinv, rfl⟩

theorem state_eq_in_snapshot {α : Type} {o : Outcome α} {s s1 : State}
    (h : o.state? = some s1) (ho : o.state? = some s) (hinv : read_set_in_snapshot s) :
    read_set_in_snapshot s1 := by
  rw [ho] at h
  cases h
  exact hinv

/-- The load loop keeps the read-set versions inside the snapshot, however it
ends. -/
theorem pwb_load_loop_in_snapshot (cfg : Config) (cm : CM) (a : Nat) (lock : LockPtr)
    (iso : Bool) :
    ∀ (fuel l : Nat) (s s1 : State), read_set_in_snapshot s → timestamps_below_clock s →
      (pwb_load_loop cfg cm a lock iso fuel l s).state? = some s1 →
      read_set_in_snapshot s1 := by
  intro fuel
  induction fuel with
  | zero => intro l s s1 _ _ h; simp [pwb_load_loop, Outcome.state?] at h
  | succ f ih =>
    intro l s s1 hinv hts h
    unfold pwb_load_loop at h
    simp only [] at h
    split at h
    · split at h
      · split at h
        · exact state_eq_in_snapshot h rfl hinv
        · simp [Outcome.state?] at h
        · exact state_eq_in_snapshot h rfl hinv
      · split at h
        · exact state_eq_in_snapshot h rfl hinv
        · split at h
          · exact ih _ _ _ hinv hts h
          · exact ih _ _ _ hinv hts h
          · exact state_eq_in_snapshot h rfl hinv
    · rename_i hfree
      split at h
      · split at h
        · exact ih _ _ _ hinv hts h
        · rename_i hl
          split at h
          · rename_i hnew
            split at h
            · exact state_eq_in_snapshot h rfl hinv
            · split at h
              · exact state_eq_in_snapshot h rfl hinv
              · rename_i s2 hext
                have := pwb_extend_false hext
                subst this
                exact state_eq_in_snapshot h rfl hinv
              · rename_i s2 hext
                have hs2 := pwb_extend_true hext
                have hl2 : l = load_lock s lock := by
                  by_contra hc; exact hl hc
                have hclock : LOCK_GET_TIMESTAMP l ≤ s.gclock := by
                  rw [hl2]
                  apply hts
                  rw [← hl2]
                  simpa using hfree
                have hinv2 : read_set_in_snapshot s2 := by
                  rw [hs2]
                  intro r hr
                  have := hinv r hr
                  show r.version ≤ s.gclock
                  omega
                have hts2 : timestamps_below_clock s2 := by
                  rw [hs2]
                  intro lk hlk
                  have := hts lk (by cases lk <;> exact hlk)
                  cases lk <;> exact this
                split at h
                · exact ih _ _ _ hinv2 hts2 h
                · refine (pwb_load_finish_in_snapshot _ _ _ _ _ _ hinv2 ?_ h).1
                  rw [hs2]
                  exact hclock
          · rename_i hold
            exact (pwb_load_finish_in_snapshot _ _ _ _ _ _ hinv (by omega) h).1
      · exact (pwb_load_finish_in_snapshot _ _ _ _ _ _ hinv (Nat.zero_le _) h).1

/-- C23. Read-set versions stay inside the snapshot. If every live read-set
entry has version <= end before a load, and every free-form lock word carries a
timestamp <= the global clock, then in the state in which the load ends (in
particular after it returns) every live read-set entry, including the one just
appended, has version <= end; this covers the loads that had to extend `end`
first, the loads without isolation and the loads upgraded to a write. -/
theorem load_keeps_read_set_in_snapshot (cfg : Config) (cm : CM) (fuel : Nat) (s : State)
    (a : Nat) (iso : Bool)
    (hinv : read_set_in_snapshot s) (hts : timestamps_below_clock s) :
    ∀ s1, (pwb_load_internal cfg cm fuel s a iso).state? = some s1 →
      ∀ r ∈ s1.r_set.entries.take s1.r_set.nb_entries, r.version ≤ s1.end_ := by
  intro s1 h
  show read_set_in_snapshot s1
  unfold pwb_load_internal at h
  split at h
  · exact state_eq_in_snapshot h rfl hinv
  · rename_i hact
    split at h
    · exact state_eq_in_snapshot h rfl hinv
    · split at h
      · rename_i hst _
        rw [load_upgrade_state] at h
        unfold pwb_write pwb_write_internal at h
        simp only [hact, ne_eq, if_false, hst] at h
        have hsame := pwb_write_loop_same_memory cfg cm a 0 0 _ true fuel _ 0 s s1 h
        obtain ⟨-, -, -, -, -, -, hend, hrs, -, -⟩ := hsame
        intro r hr
        rw [hrs] at hr
        rw [hend]
        exact hinv r hr
      · exact pwb_load_loop_in_snapshot cfg cm a _ iso fuel _ s s1 hinv hts h

/-- A load of address 4096 by a transaction whose snapshot ends at 3 while the
bucket is free with timestamp 4 and the clock is at 5: the load extends `end`
to 5, returns, and the entry it appends has version 4. -/
theorem load_keeps_read_set_in_snapshot_witness :
    read_set_in_snapshot s_stale ∧ timestamps_below_clock s_stale ∧
    (pwb_load_internal cfg0 cm0 1 s_stale 4096 true).val? = some 0 ∧
    ∃ s1, (pwb_load_internal cfg0 cm0 1 s_stale 4096 true).state? = some s1 ∧
      s1.end_ = 5 ∧
      s1.r_set.entries.take s1.r_set.nb_entries = [⟨4, LockPtr.glob 128⟩] ∧
      ∀ r ∈ s1.r_set.entries.take s1.r_set.nb_entries, r.version ≤ s1.end_ :=
  ⟨by intro r hr; simp [s_stale, s_fresh] at hr,
    by intro lk _; cases lk <;> simp [load_lock, s_stale, s_fresh, LOCK_GET_TIMESTAMP, LOCK_SET_TIMESTAMP],
    by decide,
    ⟨_, rfl, by decide, by decide,
      load_keeps_read_set_in_snapshot cfg0 cm0 1 s_stale 4096 true
        (by intro r hr; simp [s_stale, s_fresh] at hr)
        (by intro lk _; cases lk <;> simp [load_lock, s_stale, s_fresh, LOCK_GET_TIMESTAMP, LOCK_SET_TIMESTAMP]) _ rfl⟩⟩

/-! ## Writes to the lock tables -/

theorem state_eq_frame {α : Type} {o : Outcome α} {s s1 : State}
    (h : o.state? = some s1) (ho : o.state? = some s) : same_outside_write_set s s1 := by
  rw [ho] at h
  cases h
  exact same_outside_write_set_refl _

/-- However the store loop ends, it has either left everything outside the two
write sets alone, or it has found the lock word of the address in free form and
replaced it by the owned-form word for the next unused write-set slot. -/
theorem pwb_write_loop_lock_write (cfg : Config) (cm : CM) (a v m : Nat) (lock : LockPtr)
    (iso : Bool) :
    ∀ (fuel : Nat) (l : Nat) (version : Nat) (s s1 : State),
      (iso = true ∨ l = load_lock s lock) →
      (pwb_write_loop cfg cm a v m lock iso fuel l version s).state? = some s1 →
      same_outside_write_set s s1 ∨
        (LOCK_GET_OWNED (load_lock s lock) = false ∧
          same_outside_write_set
            (store_lock s lock (LOCK_SET_ADDR (s.w_set.base + s.w_set.nb_entries))) s1) := by
  intro fuel
  induction fuel with
  | zero => intro l version s s1 _ h; simp [pwb_write_loop, Outcome.state?] at h
  | succ f ih =>
    intro l version s s1 hl h
    unfold pwb_write_loop at h
    simp only [] at h
    split at h
    · split at h
      · left
        split at h
        · exact state_eq_frame h rfl
        · simp [Outcome.state?] at h
        · split at h
          · split at h
            · exact state_eq_frame h rfl
            · split at h
              · split at h
                · rename_i s2 hm
                  have := frame_of_error (mask_new_value_frame _ _ _ _ s s
                    (same_outside_write_set_refl s)) hm
                  simp only [Outcome.state?, Option.some.injEq] at h
                  subst h
                  exact this
                · rename_i s2 hm
                  have := frame_of_ok (mask_new_value_frame _ _ _ _ s s
                    (same_outside_write_set_refl s)) hm
                  simp only [Outcome.state?, Option.some.injEq] at h
                  subst h
                  exact this
              · exact state_eq_frame h rfl
          · split at h
            · simp only [Outcome.state?, Option.some.injEq] at h
              subst h
              simp [same_outside_write_set]
            · split at h
              · rename_i s2 hm
                have := frame_of_error (w_modify_frame _ _ s s
                  (same_outside_write_set_refl s)) hm
                simp only [Outcome.state?, Option.some.injEq] at h
                subst h
                exact this
              · rename_i s2 hm
                have h2 := frame_of_ok (w_modify_frame _ _ s s
                  (same_outside_write_set_refl s)) hm
                split at h
                · simp only [Outcome.state?, Option.some.injEq] at h
                  subst h
                  exact h2
                · split at h
                  · rename_i s3 hi
                    have h3 := frame_of_error
                      (initialize_write_set_entry_frame _ _ _ _ _ _ s s2 h2) hi
                    simp only [Outcome.state?, Option.some.injEq] at h
                    subst h
                    exact h3
                  · rename_i s3 hi
                    have h3 := frame_of_ok
                      (initialize_write_set_entry_frame _ _ _ _ _ _ s s2 h2) hi
                    split at h
                    · rename_i s4 hj
                      have h4 := frame_of_error
                        (insert_write_set_entry_after_frame _ _ _ s s3 h3) hj
                      simp only [Outcome.state?, Option.some.injEq] at h
                      subst h
                      exact h4
                    · rename_i s4 hj
                      have h4 := frame_of_ok
                        (insert_write_set_entry_after_frame _ _ _ s s3 h3) hj
                      simp only [Outcome.state?, Option.some.injEq] at h
                      subst h
                      exact h4
      · split at h
        · exact Or.inl (state_eq_frame h rfl)
        · rename_i hiso
          have hiso2 : iso = true := by simpa using hiso
          split at h
          · exact ih _ _ _ _ (Or.inl hiso2) h
          · exact ih _ _ _ _ (Or.inl hiso2) h
          · exact Or.inl (state_eq_frame h rfl)
    · rename_i hfree
      generalize (if iso = true then LOCK_GET_TIMESTAMP l else version) = ver at h
      split at h
      · exact Or.inl (state_eq_frame h rfl)
      · split at h
        · simp only [Outcome.state?, Option.some.injEq] at h
          subst h
          left
          simp [same_outside_write_set]
        · split at h
          · rename_i hcas
            exact ih _ _ _ _ (Or.inl hcas.1) h
          · rename_i hcas
            right
            have hobs : load_lock s lock = l := by
              rcases hl with hl | hl
              · by_contra hc
                exact hcas ⟨hl, hc⟩
              · exact hl.symm
            have hfree2 : LOCK_GET_OWNED (load_lock s lock) = false := by
              rw [hobs]; simpa using hfree
            refine ⟨hfree2, ?_⟩
            split at h
            · rename_i s3 hi
              have h3 := frame_of_error
                (initialize_write_set_entry_frame _ _ _ _ _ _ _ _
                  (same_outside_write_set_refl _)) hi
              simp only [Outcome.state?, Option.some.injEq] at h
              subst h
              exact h3
            · rename_i s3 hi
              have h3 := frame_of_ok
                (initialize_write_set_entry_frame _ _ _ _ _ _ _ _
                  (same_outside_write_set_refl _)) hi
              split at h
              · rename_i s4 hj
                have h4 := frame_of_error
                  (insert_write_set_entry_after_frame _ _ _ _ s3 h3) hj
                simp only [Outcome.state?, Option.some.injEq] at h
                subst h
                exact h4
              · rename_i s4 hj
                have h4 := frame_of_ok
                  (insert_write_set_entry_after_frame _ _ _ _ s3 h3) hj
                simp only [Outcome.state?, Option.some.injEq] at h
                subst h
                exact h4

theorem state_eq_locks {α : Type} {o : Outcome α} {s s1 : State}
    (h : o.state? = some s1) (ho : o.state? = some s) :
    ∀ lk, load_lock s1 lk = load_lock s lk := by
  rw [ho] at h
  cases h
  intro lk
  rfl

theorem load_lock_read_set_frame {s t : State} (h : same_outside_read_set s t) (p : LockPtr) :
    load_lock t p = load_lock s p := by
  obtain ⟨-, -, -, -, -, -, -, -, -, h10, h11, -, -⟩ := h
  cases p <;> simp [load_lock, h10, h11]

/-- The load loop, however it ends, has written no lock word. -/
theorem pwb_load_loop_locks (cfg : Config) (cm : CM) (a : Nat) (lock : LockPtr)
    (iso : Bool) :
    ∀ (fuel l : Nat) (s s1 : State),
      (pwb_load_loop cfg cm a lock iso fuel l s).state? = some s1 →
      ∀ lk, load_lock s1 lk = load_lock s lk := by
  intro fuel
  induction fuel with
  | zero => intro l s s1 h; simp [pwb_load_loop, Outcome.state?] at h
  | succ f ih =>
    intro l s s1 h
    unfold pwb_load_loop at h
    simp only [] at h
    split at h
    · split at h
      · split at h
        · exact state_eq_locks h rfl
        · simp [Outcome.state?] at h
        · exact state_eq_locks h rfl
      · split at h
        · exact state_eq_locks h rfl
        · split at h
          · exact ih _ _ _ h
          · exact ih _ _ _ h
          · exact state_eq_locks h rfl
    · split at h
      · split at h
        · exact ih _ _ _ h
        · split at h
          · split at h
            · exact state_eq_locks h rfl
            · split at h
              · exact state_eq_locks h rfl
              · rename_i s2 hext
                have := pwb_extend_false hext
                subst this
                exact state_eq_locks h rfl
              · rename_i s2 hext
                have hs2 := pwb_extend_true hext
                have h2 : ∀ lk, load_lock s2 lk = load_lock s lk := by
                  intro lk
                  rw [hs2]
                  cases lk <;> rfl
                split at h
                · intro lk
                  rw [ih _ _ _ h lk, h2]
                · intro lk
                  rw [load_lock_read_set_frame (pwb_load_finish_frame _ _ _ _ _ _ h) lk, h2]
          · exact load_lock_read_set_frame (pwb_load_finish_frame _ _ _ _ _ _ h)
      · exact load_lock_read_set_frame (pwb_load_finish_frame _ _ _ _ _ _ h)

/-- C25. Lock words are only ever taken from free form. However the store
barrier ends, every lock word is either unchanged or it is the lock word of the
address, was in free form before the store, and now is the owned-form word
pointing to the entry the store allocated (the slot
`w_set.entries + w_set.nb_entries`); hence a word in owned form is never
overwritten. A load without an upgrade hint (or without isolation) writes no
lock word at all. -/
theorem lock_words_only_taken_from_free (cfg : Config) (cm : CM) (fuel : Nat) (s : State)
    (a v m : Nat) (iso : Bool) :
    (∀ s1, (pwb_write_internal cfg cm fuel s a v m iso).state? = some s1 →
      ∀ lk, load_lock s1 lk = load_lock s lk ∨
        (lk = (if iso then GET_LOCK cfg a else PRIVATE_GET_LOCK cfg a) ∧
          LOCK_GET_OWNED (load_lock s lk) = false ∧
          load_lock s1 lk = LOCK_SET_ADDR (s.w_set.base + s.w_set.nb_entries) ∧
          LOCK_GET_OWNED (load_lock s1 lk) = true ∧
          LOCK_GET_ADDR (load_lock s1 lk) = s.w_set.base + s.w_set.nb_entries)) ∧
    (∀ s1, (pwb_write_internal cfg cm fuel s a v m iso).state? = some s1 →
      ∀ lk, LOCK_GET_OWNED (load_lock s lk) = true → load_lock s1 lk = load_lock s lk) ∧
    (∀ s1, (pwb_load_internal cfg cm fuel s a iso).state? = some s1 →
      (iso = false ∨ cm.cm_upgrade_lock s = false) →
      ∀ lk, load_lock s1 lk = load_lock s lk) := by
  have hstore : ∀ s1, (pwb_write_internal cfg cm fuel s a v m iso).state? = some s1 →
      ∀ lk, load_lock s1 lk = load_lock s lk ∨
        (lk = (if iso then GET_LOCK cfg a else PRIVATE_GET_LOCK cfg a) ∧
          LOCK_GET_OWNED (load_lock s lk) = false ∧
          load_lock s1 lk = LOCK_SET_ADDR (s.w_set.base + s.w_set.nb_entries) ∧
          LOCK_GET_OWNED (load_lock s1 lk) = true ∧
          LOCK_GET_ADDR (load_lock s1 lk) = s.w_set.base + s.w_set.nb_entries) := by
    intro s1 h lk
    unfold pwb_write_internal at h
    split at h
    · exact Or.inl (state_eq_locks h rfl lk)
    · split at h
      · split at h
        · exact Or.inl (state_eq_locks h rfl lk)
        · simp only [Outcome.state?, Option.some.injEq] at h
          subst h
          left
          cases lk <;> rfl
      · simp only [] at h
        rcases pwb_write_loop_lock_write cfg cm a v m _ iso fuel _ 0 s s1 (Or.inr rfl) h
          with hsame | ⟨hfree, hsame⟩
        · exact Or.inl (load_lock_frame hsame lk)
        · rw [load_lock_frame hsame lk, store_lock_frame]
          by_cases hlk : lk = (if iso = true then GET_LOCK cfg a else PRIVATE_GET_LOCK cfg a)
          · right
            rw [if_pos hlk]
            refine ⟨hlk, ?_, rfl, ?_, ?_⟩
            · rw [hlk]; exact hfree
            · simp [LOCK_GET_OWNED, LOCK_SET_ADDR]
              omega
            · simp [LOCK_GET_ADDR, LOCK_SET_ADDR]
              omega
          · left
            rw [if_neg hlk]
  refine ⟨hstore, ?_, ?_⟩
  · intro s1 h lk howned
    rcases hstore s1 h lk with h1 | ⟨-, h2, -⟩
    · exact h1
    · rw [howned] at h2
      exact absurd h2 (by decide)
  · intro s1 h hno lk
    unfold pwb_load_internal at h
    split at h
    · exact state_eq_locks h rfl lk
    · split at h
      · exact state_eq_locks h rfl lk
      · split at h
        · rename_i hup
          rcases hno with hno | hno
          · rw [hno] at hup
            exact absurd hup.1 (by decide)
          · rw [hno] at hup
            exact absurd hup.2 (by decide)
        · exact pwb_load_loop_locks cfg cm a _ iso fuel _ s s1 h lk

/-- The store of address 4096 by the fresh transaction takes bucket 128 (free
with timestamp 3) for slot 1000 and leaves bucket 129 alone; on the owned
bucket of `s_owned` the store leaves the owned word alone; the load of 4096
writes no lock word. -/
theorem lock_words_only_taken_from_free_witness :
    (pwb_write_internal cfg0 cm0 4 s_fresh 4096 1 WORD_MAX true).state?.map
      (fun s1 => (load_lock s1 (LockPtr.glob 128), load_lock s1 (LockPtr.glob 129)))
      = some (LOCK_SET_ADDR 1000, LOCK_SET_TIMESTAMP 3) ∧
    LOCK_GET_OWNED (load_lock s_owned (LockPtr.glob 128)) = true ∧
    (∃ s1, (pwb_write_internal cfg0 cm0 4 s_owned 4096 1 WORD_MAX true).state? = some s1 ∧
      load_lock s1 (LockPtr.glob 128) = load_lock s_owned (LockPtr.glob 128)) ∧
    (∃ s1, (pwb_load_internal cfg0 cm0 4 s_fresh 4096 true).state? = some s1 ∧
      load_lock s1 (LockPtr.glob 128) = load_lock s_fresh (LockPtr.glob 128)) :=
  ⟨by decide, by decide,
    ⟨_, rfl, (lock_words_only_taken_from_free cfg0 cm0 4 s_owned 4096 1 WORD_MAX true).2.1
      _ rfl (LockPtr.glob 128) (by decide)⟩,
    ⟨_, rfl, (lock_words_only_taken_from_free cfg0 cm0 4 s_fresh 4096 1 WORD_MAX true).2.2
      _ rfl (Or.inr rfl) (LockPtr.glob 128)⟩⟩

/-! ## Versions along the bucket chains -/

theorem step_bind_gen {P : State → Prop} {x : Except State State}
    {g : State → Except State State}
    (hx : P (step_state x)) (hg : ∀ s1, P s1 → P (step_state (g s1))) :
    P (step_state (x >>= g)) := by
  cases x with
  | error e => simpa [bind, Except.bind, step_state] using hx
  | ok a => simpa [bind, Except.bind] using hg a (by simpa [step_state] using hx)

theorem links_kept_refl (w : Nat) (s : State) : links_kept_except w s s :=
  ⟨rfl, fun _ _ => rfl⟩

theorem links_kept_trans {w : Nat} {s t u : State}
    (h1 : links_kept_except w s t) (h2 : links_kept_except w t u) :
    links_kept_except w s u :=
  ⟨h2.1.trans h1.1, fun p hp => (h2.2 p hp).trans (h1.2 p hp)⟩

/-- A field assignment keeps the links and versions of the other entries; it
keeps those of the entry itself when it does not touch them. -/
theorem w_modify_links (w p : Nat) (f : w_entry_t → w_entry_t) (s : State)
    (hf : p = w ∨ ∀ e, w_deref s.w_set p = some e →
      link_and_version (f e) = link_and_version e) :
    links_kept_except w s (step_state (w_modify p f s)) := by
  unfold w_modify
  cases hd : w_deref s.w_set p with
  | none => exact links_kept_refl w s
  | some e =>
    refine ⟨rfl, ?_⟩
    intro q hq
    show (w_deref (w_assign s.w_set p (f e)) q).map link_and_version = _
    rw [w_deref_w_assign hd]
    by_cases hqp : q = p
    · rcases hf with hf | hf
      · exact absurd (hqp.trans hf) hq
      · rw [if_pos hqp, hqp, hd]
        simp [hf e hd]
    · rw [if_neg hqp]

theorem mask_new_value_links (w entry address value mask : Nat) (s : State) :
    links_kept_except w s (step_state (mask_new_value entry address value mask s)) := by
  unfold mask_new_value
  cases hd : w_deref s.w_set entry with
  | none => exact links_kept_refl w s
  | some e =>
    refine ⟨rfl, ?_⟩
    intro q hq
    show (w_deref (w_assign s.w_set entry _) q).map link_and_version = _
    rw [w_deref_w_assign hd]
    by_cases hqp : q = entry
    · rw [if_pos hqp, hqp, hd]
      rfl
    · rw [if_neg hqp]

theorem nv_modify_w_set (p : Nat) (f : w_entry_nv_t → w_entry_nv_t) (s : State) :
    (step_state (nv_modify p f s)).w_set = s.w_set := by
  unfold nv_modify
  split
  · rfl
  · split
    · rfl
    · split <;> rfl

theorem nv_modify_links (w p : Nat) (f : w_entry_nv_t → w_entry_nv_t) (s : State) :
    links_kept_except w s (step_state (nv_modify p f s)) := by
  have h := nv_modify_w_set p f s
  exact ⟨by rw [h], fun q _ => by rw [h]⟩

theorem initialize_write_set_entry_links (w address value mask version : Nat)
    (lock : LockPtr) (s : State) :
    links_kept_except w s
      (step_state (initialize_write_set_entry w address value mask version lock s)) := by
  unfold initialize_write_set_entry
  refine step_bind_gen (P := links_kept_except w s)
    (w_modify_links w w _ s (Or.inl rfl)) (fun s1 h1 => ?_)
  refine step_bind_gen (P := links_kept_except w s)
    (links_kept_trans h1 (w_modify_links w w _ s1 (Or.inl rfl))) (fun s2 h2 => ?_)
  refine step_bind_gen (P := links_kept_except w s)
    (links_kept_trans h2 (mask_new_value_links w w _ _ _ s2)) (fun s3 h3 => ?_)
  refine step_bind_gen (P := links_kept_except w s)
    (links_kept_trans h3 (w_modify_links w w _ s3 (Or.inl rfl))) (fun s4 h4 => ?_)
  refine step_bind_gen (P := links_kept_except w s)
    (links_kept_trans h4 (w_modify_links w w _ s4 (Or.inl rfl))) (fun s5 h5 => ?_)
  exact links_kept_trans h5 (nv_modify_links w w _ s5)

theorem of_ok {P : State → Prop} {x : Except State State} {t : State}
    (h : P (step_state x)) (hx : x = Except.ok t) : P t := by
  rw [hx] at h; exact h

theorem of_error {P : State → Prop} {x : Except State State} {t : State}
    (h : P (step_state x)) (hx : x = Except.error t) : P t := by
  rw [hx] at h; exact h

theorem bind_ok_inv {x : Except State State} {g : State → Except State State} {b : State}
    (h : (x >>= g) = Except.ok b) : ∃ a, x = Except.ok a ∧ g a = Except.ok b := by
  cases x with
  | error e => simp [bind, Except.bind] at h
  | ok a => exact ⟨a, rfl, h⟩

theorem w_modify_ok_inv {p : Nat} {f : w_entry_t → w_entry_t} {s t : State}
    (h : w_modify p f s = Except.ok t) :
    ∃ e, w_deref s.w_set p = some e ∧ t = { s with w_set := w_assign s.w_set p (f e) } := by
  unfold w_modify at h
  cases hd : w_deref s.w_set p with
  | none => simp [hd] at h
  | some e =>
    simp only [hd, Except.ok.injEq] at h
    exact ⟨e, rfl, h.symm⟩

theorem w_deref_w_assign_self {ws : w_set_t} {p : Nat} {e : w_entry_t}
    (h : w_deref ws p = some e) (e1 : w_entry_t) :
    w_deref (w_assign ws p e1) p = some e1 := by
  rw [w_deref_w_assign h, if_pos rfl]

/-- When the initialisation of an entry completes, the entry has the version
handed in and a `NULL` link. -/
theorem initialize_write_set_entry_ok_inv {w address value mask version : Nat}
    {lock : LockPtr} {s t : State}
    (h : initialize_write_set_entry w address value mask version lock s = Except.ok t) :
    ∃ e, w_deref t.w_set w = some e ∧ e.next = 0 ∧ e.version = version := by
  unfold initialize_write_set_entry at h
  obtain ⟨s1, -, h⟩ := bind_ok_inv h
  obtain ⟨s2, -, h⟩ := bind_ok_inv h
  obtain ⟨s3, -, h⟩ := bind_ok_inv h
  obtain ⟨s4, h4, h⟩ := bind_ok_inv h
  obtain ⟨s5, h5, h⟩ := bind_ok_inv h
  obtain ⟨e3, hd3, hs4⟩ := w_modify_ok_inv h4
  have hd4 : w_deref s4.w_set w = some { e3 with version := version } := by
    rw [hs4]; exact w_deref_w_assign_self hd3 _
  obtain ⟨e4, hd4', hs5⟩ := w_modify_ok_inv h5
  rw [hd4] at hd4'
  have he4 : e4 = { e3 with version := version } := (Option.some.inj hd4').symm
  have hd5 : w_deref s5.w_set w = some { e4 with next := 0 } := by
    rw [hs5]; exact w_deref_w_assign_self hd4 _
  have hw := nv_modify_w_set w (fun n => { n with next_cache_neighbor := 0 }) s5
  rw [h] at hw
  simp only [step_state] at hw
  refine ⟨{ e4 with next := 0 }, ?_, rfl, ?_⟩
  · rw [hw]; exact hd5
  · rw [he4]

/-- A chain search that starts at a live entry of a closed write set and
misses leaves in `*list_tail` a live entry whose link is `NULL`. -/
theorem matching_write_set_entry_miss_live (cfg : Config) (s : State) (a : Nat)
    (hclosed : write_set_closed s) :
    ∀ (fuel head lt0 : Nat) (lcn : Option Nat) (r : match_result),
      s.w_set.base ≤ head → head < s.w_set.base + s.w_set.nb_entries →
      matching_write_set_entry cfg s.w_set a fuel head (some lt0) lcn = Walk.done r →
      r.entry = 0 →
      ∃ T eT, r.list_tail = some T ∧ s.w_set.base ≤ T ∧
        T < s.w_set.base + s.w_set.nb_entries ∧
        w_deref s.w_set T = some eT ∧ eT.next = 0 := by
  intro fuel
  induction fuel with
  | zero => intro head lt0 lcn r _ _ h; simp [matching_write_set_entry] at h
  | succ f ih =>
    intro head lt0 lcn r hb hl h hr
    unfold matching_write_set_entry at h
    cases hd : w_deref s.w_set head with
    | none => simp [hd] at h
    | some e =>
      simp only [hd] at h
      split at h
      · simp only [Walk.done.injEq] at h
        rw [← h] at hr
        exact absurd hr (w_deref_some_ne_null hd)
      · split at h
        · rename_i hn
          simp only [Walk.done.injEq] at h
          refine ⟨head, e, ?_, hb, hl, hd, hn⟩
          rw [← h]
          simp
        · rename_i hn
          rcases hclosed head e hb hl hd with h0 | ⟨h1, h2⟩
          · exact absurd h0 hn
          · exact ih _ _ _ _ h1 h2 h hr

theorem step_bind_gen2 {P Q : State → Prop} {x : Except State State}
    {g : State → Except State State}
    (hx : P (step_state x)) (hPQ : ∀ s1, P s1 → Q s1)
    (hg : ∀ s1, P s1 → Q (step_state (g s1))) :
    Q (step_state (x >>= g)) := by
  cases x with
  | error e => exact hPQ _ hx
  | ok a => simpa [bind, Except.bind] using hg a (by simpa [step_state] using hx)

/-- The call `insert_write_set_entry_after(T, w, tx, cn)` as the store barrier
makes it, with the old tail `T` where `new_entry` is expected and the new entry
`w` where `tail` is expected: wherever it ends, `T.next` holds the old
`w.next`, `w.next` holds `T`, no other entry has changed and `nb_entries` has
grown by at most 1. -/
theorem insert_swapped_effect (T w cn : Nat) (s : State) (ew eT : w_entry_t)
    (hw : w_deref s.w_set w = some ew) (hT : w_deref s.w_set T = some eT) (hne : T ≠ w) :
    (step_state (insert_write_set_entry_after T w cn s)).w_set.base = s.w_set.base ∧
    (∀ p, w_deref (step_state (insert_write_set_entry_after T w cn s)).w_set p =
      if p = w then some { ew with next := T }
      else if p = T then some { eT with next := ew.next } else w_deref s.w_set p) ∧
    ((step_state (insert_write_set_entry_after T w cn s)).w_set.nb_entries
        = s.w_set.nb_entries ∨
      (step_state (insert_write_set_entry_after T w cn s)).w_set.nb_entries
        = s.w_set.nb_entries + 1) := by
  have hw0 : w ≠ 0 := w_deref_some_ne_null hw
  obtain ⟨sa, hsa⟩ : ∃ sa : State, sa =
      { s with w_set := w_assign s.w_set T { eT with next := ew.next } } := ⟨_, rfl⟩
  have h1 : w_modify T (fun e => { e with next := ew.next }) s = Except.ok sa := by
    rw [hsa]; exact w_modify_ok _ hT
  have hda : ∀ q, w_deref sa.w_set q =
      if q = T then some { eT with next := ew.next } else w_deref s.w_set q := by
    intro q; rw [hsa]; exact w_deref_w_assign hT _ q
  have hwa : w_deref sa.w_set w = some ew := by
    rw [hda, if_neg (Ne.symm hne)]; exact hw
  obtain ⟨sb, hsb⟩ : ∃ sb : State, sb =
      { sa with w_set := w_assign sa.w_set w { ew with next := T } } := ⟨_, rfl⟩
  have h2 : w_modify w (fun e => { e with next := T }) sa = Except.ok sb := by
    rw [hsb]; exact w_modify_ok _ hwa
  have hdb : ∀ q, w_deref sb.w_set q =
      if q = w then some { ew with next := T }
      else if q = T then some { eT with next := ew.next } else w_deref s.w_set q := by
    intro q; rw [hsb]
    show w_deref (w_assign sa.w_set w _) q = _
    rw [w_deref_w_assign hwa, hda]
  have hbase : sb.w_set.base = s.w_set.base := by rw [hsb, hsa]; rfl
  have hnb : sb.w_set.nb_entries = s.w_set.nb_entries := by rw [hsb, hsa]; rfl
  obtain ⟨Q, hQ⟩ : ∃ Q : State → Prop, ∀ y, Q y ↔
      ((y.w_set.base = sb.w_set.base ∧ y.w_set.entries = sb.w_set.entries) ∧
        (y.w_set.nb_entries = sb.w_set.nb_entries ∨
          y.w_set.nb_entries = sb.w_set.nb_entries + 1)) := ⟨_, fun _ => Iff.rfl⟩
  have hsame : ∀ y : State, y.w_set = sb.w_set → Q y := by
    intro y hy
    rw [hQ, hy]
    exact ⟨⟨rfl, rfl⟩, Or.inl rfl⟩
  have hmain : Q (step_state (insert_write_set_entry_after T w cn s)) := by
    unfold insert_write_set_entry_after
    simp only [hw0, hw, h1, h2, except_ok_bind, ne_eq, not_false_eq_true, if_true]
    refine step_bind_gen2 (P := fun y => y.w_set = sb.w_set) ?_ hsame ?_
    · split
      · split
        · rfl
        · refine step_bind_gen2 (P := fun y => y.w_set = sb.w_set) ?_ (fun _ h => h) ?_
          · exact nv_modify_w_set _ _ _
          · intro s1 h1
            show (step_state (nv_modify _ _ s1)).w_set = sb.w_set
            rw [nv_modify_w_set, h1]
      · exact nv_modify_w_set _ _ _
    · intro s1 hs1
      split
      · exact hsame _ hs1
      · refine step_bind_gen2 (P := fun y => y.w_set = sb.w_set) ?_ hsame ?_
        · show (step_state (nv_modify _ _ s1)).w_set = sb.w_set
          rw [nv_modify_w_set, hs1]
        · intro s2 hs2
          refine step_bind_gen2 (P := fun y => y.w_set = sb.w_set) ?_ hsame ?_
          · show (step_state (nv_modify _ _ s2)).w_set = sb.w_set
            rw [nv_modify_w_set, hs2]
          · intro s3 hs3
            rw [hQ]
            simp only [step_state, hs3]
            exact ⟨⟨trivial, trivial⟩, Or.inr trivial⟩
  rw [hQ] at hmain
  obtain ⟨⟨hb, he⟩, hn⟩ := hmain
  refine ⟨hb.trans hbase, ?_, ?_⟩
  · intro p
    rw [← hdb p]
    unfold w_deref
    rw [hb, he]
  · rw [← hnb]; exact hn

theorem store_effect_of_frame {s t : State}
    (hl : links_kept_except (s.w_set.base + s.w_set.nb_entries) s t)
    (hn : t.w_set.nb_entries = s.w_set.nb_entries) (hf : same_outside_write_set s t) :
    store_effect s t :=
  ⟨hl, Or.inl ⟨hn, fun lk => Or.inl (load_lock_frame hf lk)⟩⟩

theorem store_effect_refl (s : State) : store_effect s s :=
  store_effect_of_frame (links_kept_refl _ s) rfl (same_outside_write_set_refl s)

theorem state_eq_effect {α : Type} {o : Outcome α} {s s1 : State}
    (h : o.state? = some s1) (ho : o.state? = some s) : store_effect s s1 := by
  rw [ho] at h
  cases h
  exact store_effect_refl _

/-- The effect of the owned-bucket miss path of the store barrier, from the
assignment of the persistent twin to the end of the insertion. -/
theorem store_effect_owned_miss (cfg : Config) (s : State) (a v m lt0 T0 cn head fuel : Nat)
    (lock : LockPtr) (lcn : Option Nat) (r : match_result)
    (hclosed : write_set_closed s)
    (hself : s.w_set.base ≤ head ∧ head < s.w_set.base + s.w_set.nb_entries)
    (hwalk : matching_write_set_entry cfg s.w_set a fuel head (some lt0) lcn = Walk.done r)
    (hmiss : r.entry = 0) (hT0 : T0 = r.list_tail.getD 0)
    (s1 s2 : State) (t : w_entry_t)
    (hm : w_modify (s.w_set.base + s.w_set.nb_entries)
      (fun e => { e with w_entry_nv := some s.w_set_nv.nb_entries }) s = Except.ok s1)
    (ht : w_deref s1.w_set T0 = some t)
    (hi : initialize_write_set_entry (s.w_set.base + s.w_set.nb_entries) a v m t.version lock s1
      = Except.ok s2) :
    store_effect s (step_state (insert_write_set_entry_after T0
      (s.w_set.base + s.w_set.nb_entries) cn s2)) := by
  obtain ⟨T, eT, hlt, hTb, hTl, hTd, hTn⟩ :=
    matching_write_set_entry_miss_live cfg s a hclosed fuel head lt0 lcn r hself.1 hself.2
      hwalk hmiss
  have hTT : T0 = T := by rw [hT0, hlt]; rfl
  subst hTT
  have hne : T0 ≠ s.w_set.base + s.w_set.nb_entries := by omega
  -- the steps before the insertion
  have hl1 : links_kept_except (s.w_set.base + s.w_set.nb_entries) s s1 :=
    of_ok (w_modify_links _ _ _ s (Or.inl rfl)) hm
  have hc1 : same_counts s s1 := of_ok (w_modify_counts _ _ s s (same_counts_refl s)) hm
  have hf1 : same_outside_write_set s s1 :=
    frame_of_ok (w_modify_frame _ _ s s (same_outside_write_set_refl s)) hm
  have hl2 : links_kept_except (s.w_set.base + s.w_set.nb_entries) s1 s2 :=
    of_ok (initialize_write_set_entry_links _ _ _ _ _ _ s1) hi
  have hc2 : same_counts s s2 :=
    of_ok (initialize_write_set_entry_counts _ _ _ _ _ _ s s1 hc1) hi
  have hf2 : same_outside_write_set s s2 :=
    frame_of_ok (initialize_write_set_entry_frame _ _ _ _ _ _ s s1 hf1) hi
  obtain ⟨e2, he2, he2n, he2v⟩ := initialize_write_set_entry_ok_inv hi
  -- the old tail in the state before the insertion
  have hT2 : (w_deref s2.w_set T0).map link_and_version = some (link_and_version t) := by
    rw [hl2.2 T0 hne, ht]; rfl
  obtain ⟨eT2, heT2, hlv2⟩ : ∃ eT2, w_deref s2.w_set T0 = some eT2 ∧
      link_and_version eT2 = link_and_version t := by
    cases hd : w_deref s2.w_set T0 with
    | none => rw [hd] at hT2; exact Option.noConfusion hT2
    | some x =>
      rw [hd] at hT2
      exact ⟨x, rfl, Option.some.inj hT2⟩
  have hlvt : link_and_version t = link_and_version eT := by
    have := hl1.2 T0 hne
    rw [ht, hTd] at this
    exact Option.some.inj this
  have hnext2 : eT2.next = 0 := by
    have := congrArg Prod.fst (hlv2.trans hlvt)
    simpa [link_and_version, hTn] using this
  have hver2 : eT2.version = t.version := by
    have := congrArg Prod.snd hlv2
    simpa [link_and_version] using this
  obtain ⟨hb3, hd3, hn3⟩ := insert_swapped_effect T0 (s.w_set.base + s.w_set.nb_entries) cn s2
    e2 eT2 he2 heT2 hne
  have hf3 : same_outside_write_set s (step_state (insert_write_set_entry_after T0
      (s.w_set.base + s.w_set.nb_entries) cn s2)) :=
    insert_write_set_entry_after_frame _ _ _ s s2 hf2
  have hl3 : links_kept_except (s.w_set.base + s.w_set.nb_entries) s2
      (step_state (insert_write_set_entry_after T0
        (s.w_set.base + s.w_set.nb_entries) cn s2)) := by
    refine ⟨hb3, ?_⟩
    intro p hp
    rw [hd3 p, if_neg hp]
    by_cases hpT : p = T0
    · rw [if_pos hpT, hpT, heT2]
      simp [link_and_version, he2n, hnext2]
    · rw [if_neg hpT]
  refine ⟨links_kept_trans (links_kept_trans hl1 hl2) hl3, ?_⟩
  rcases hn3 with hn3 | hn3
  · left
    exact ⟨hn3.trans hc2.2.1, fun lk => Or.inl (load_lock_frame hf3 lk)⟩
  · right
    refine ⟨by rw [hn3, hc2.2.1], fun lk => load_lock_frame hf3 lk, T0,
      { e2 with next := T0 }, { eT2 with next := e2.next }, hTb, hTl, ?_, ?_, ?_, ?_, ?_⟩
    · rw [hd3, if_pos rfl]
    · rfl
    · rw [hd3, if_neg hne, if_pos rfl]
    · exact he2n
    · show e2.version = eT2.version
      rw [he2v, hver2]

theorem store_lock_w_set (s : State) (p : LockPtr) (v : Nat) :
    (store_lock s p v).w_set = s.w_set := by
  cases p <;> rfl

/-- The effect of the acquisition path of the store barrier up to the end of
the initialisation of the new entry. -/
theorem store_effect_free (s s2 : State) (lock : LockPtr)
    (hl : links_kept_except (s.w_set.base + s.w_set.nb_entries)
      (store_lock s lock (LOCK_SET_ADDR (s.w_set.base + s.w_set.nb_entries))) s2)
    (hc : same_counts (store_lock s lock (LOCK_SET_ADDR (s.w_set.base + s.w_set.nb_entries))) s2)
    (hf : same_outside_write_set
      (store_lock s lock (LOCK_SET_ADDR (s.w_set.base + s.w_set.nb_entries))) s2) :
    store_effect s s2 := by
  have hw := store_lock_w_set s lock (LOCK_SET_ADDR (s.w_set.base + s.w_set.nb_entries))
  refine ⟨⟨?_, ?_⟩, Or.inl ⟨?_, ?_⟩⟩
  · rw [hl.1, hw]
  · intro p hp
    rw [hl.2 p hp, hw]
  · rw [hc.2.1, hw]
  · intro lk
    rw [load_lock_frame hf lk, store_lock_frame]
    by_cases hlk : lk = lock
    · right; rw [if_pos hlk]
    · left; rw [if_neg hlk]

/-- However the store loop ends in a transaction whose write set is closed, its
effect on the chains is the one `store_effect` describes. -/
theorem pwb_write_loop_store_effect (cfg : Config) (cm : CM) (a v m : Nat) (lock : LockPtr)
    (iso : Bool) :
    ∀ (fuel : Nat) (l : Nat) (version : Nat) (s s1 : State), write_set_closed s →
      (pwb_write_loop cfg cm a v m lock iso fuel l version s).state? = some s1 →
      store_effect s s1 := by
  intro fuel
  induction fuel with
  | zero => intro l version s s1 _ h; simp [pwb_write_loop, Outcome.state?] at h
  | succ f ih =>
    intro l version s s1 hclosed h
    unfold pwb_write_loop at h
    simp only [] at h
    split at h
    · split at h
      · rename_i hself
        split at h
        · exact state_eq_effect h rfl
        · simp [Outcome.state?] at h
        · rename_i r hwalk
          split at h
          · split at h
            · exact state_eq_effect h rfl
            · split at h
              · have hl := mask_new_value_links (s.w_set.base + s.w_set.nb_entries)
                  r.entry a v m s
                have hc := mask_new_value_counts r.entry a v m s s (same_counts_refl s)
                have hf := mask_new_value_frame r.entry a v m s s
                  (same_outside_write_set_refl s)
                split at h
                · rename_i s2 hm
                  simp only [Outcome.state?, Option.some.injEq] at h
                  subst h
                  exact store_effect_of_frame (of_error hl hm) (of_error hc hm).2.1
                    (frame_of_error hf hm)
                · rename_i s2 hm
                  simp only [Outcome.state?, Option.some.injEq] at h
                  subst h
                  exact store_effect_of_frame (of_ok hl hm) (of_ok hc hm).2.1
                    (frame_of_ok hf hm)
              · exact state_eq_effect h rfl
          · rename_i hmiss
            have hmiss0 : r.entry = 0 := by
              by_contra hc; exact hmiss hc
            split at h
            · simp only [Outcome.state?, Option.some.injEq] at h
              subst h
              exact store_effect_of_frame ⟨rfl, fun _ _ => rfl⟩ rfl
                (by simp [same_outside_write_set])
            · have hl1 := w_modify_links (s.w_set.base + s.w_set.nb_entries)
                (s.w_set.base + s.w_set.nb_entries)
                (fun e => { e with w_entry_nv := some s.w_set_nv.nb_entries }) s (Or.inl rfl)
              have hc1 := w_modify_counts (s.w_set.base + s.w_set.nb_entries)
                (fun e => { e with w_entry_nv := some s.w_set_nv.nb_entries }) s s
                (same_counts_refl s)
              have hf1 := w_modify_frame (s.w_set.base + s.w_set.nb_entries)
                (fun e => { e with w_entry_nv := some s.w_set_nv.nb_entries }) s s
                (same_outside_write_set_refl s)
              split at h
              · rename_i s2 hm
                simp only [Outcome.state?, Option.some.injEq] at h
                subst h
                exact store_effect_of_frame (of_error hl1 hm) (of_error hc1 hm).2.1
                  (frame_of_error hf1 hm)
              · rename_i s2 hm
                split at h
                · simp only [Outcome.state?, Option.some.injEq] at h
                  subst h
                  exact store_effect_of_frame (of_ok hl1 hm) (of_ok hc1 hm).2.1
                    (frame_of_ok hf1 hm)
                · rename_i t ht
                  split at h
                  · rename_i s3 hi
                    simp only [Outcome.state?, Option.some.injEq] at h
                    subst h
                    exact store_effect_of_frame
                      (links_kept_trans (of_ok hl1 hm)
                        (of_error (initialize_write_set_entry_links _ _ _ _ _ _ s2) hi))
                      (of_error (initialize_write_set_entry_counts _ _ _ _ _ _ s s2
                        (of_ok hc1 hm)) hi).2.1
                      (frame_of_error (initialize_write_set_entry_frame _ _ _ _ _ _ s s2
                        (frame_of_ok hf1 hm)) hi)
                  · rename_i s3 hi
                    have heff := store_effect_owned_miss cfg s a v m 0 (r.list_tail.getD 0)
                      (r.last_cache_neighbor.getD 0) (LOCK_GET_ADDR l) (f + 1) lock (some 0) r
                      hclosed hself hwalk hmiss0 rfl s2 s3 t hm ht hi
                    split at h
                    · rename_i s4 hj
                      simp only [Outcome.state?, Option.some.injEq] at h
                      subst h
                      exact of_error heff hj
                    · rename_i s4 hj
                      simp only [Outcome.state?, Option.some.injEq] at h
                      subst h
                      exact of_ok heff hj
      · split at h
        · exact state_eq_effect h rfl
        · split at h
          · exact ih _ _ _ _ hclosed h
          · exact ih _ _ _ _ hclosed h
          · exact state_eq_effect h rfl
    · generalize (if iso = true then LOCK_GET_TIMESTAMP l else version) = ver at h
      split at h
      · exact state_eq_effect h rfl
      · split at h
        · simp only [Outcome.state?, Option.some.injEq] at h
          subst h
          exact store_effect_of_frame ⟨rfl, fun _ _ => rfl⟩ rfl
            (by simp [same_outside_write_set])
        · split at h
          · exact ih _ _ _ _ hclosed h
          · have hw := store_lock_w_set s lock
              (LOCK_SET_ADDR (s.w_set.base + s.w_set.nb_entries))
            have hl2 := initialize_write_set_entry_links (s.w_set.base + s.w_set.nb_entries)
              a v m ver lock
              (store_lock s lock (LOCK_SET_ADDR (s.w_set.base + s.w_set.nb_entries)))
            have hc2 := initialize_write_set_entry_counts (s.w_set.base + s.w_set.nb_entries)
              a v m ver lock _
              (store_lock s lock (LOCK_SET_ADDR (s.w_set.base + s.w_set.nb_entries)))
              (same_counts_refl _)
            have hf2 := initialize_write_set_entry_frame (s.w_set.base + s.w_set.nb_entries)
              a v m ver lock _
              (store_lock s lock (LOCK_SET_ADDR (s.w_set.base + s.w_set.nb_entries)))
              (same_outside_write_set_refl _)
            split at h
            · rename_i s3 hi
              simp only [Outcome.state?, Option.some.injEq] at h
              subst h
              exact store_effect_free s _ lock (of_error hl2 hi) (of_error hc2 hi)
                (frame_of_error hf2 hi)
            · rename_i s3 hi
              rw [insert_null_new_entry] at h
              simp only [Outcome.state?, Option.some.injEq] at h
              subst h
              exact store_effect_free s _ lock (of_ok hl2 hi) (of_ok hc2 hi)
                (frame_of_ok hf2 hi)

theorem links_kept_deref {w : Nat} {s t : State} (hl : links_kept_except w s t)
    {p : Nat} (hp : p ≠ w) {e1 : w_entry_t} (hd : w_deref t.w_set p = some e1) :
    ∃ e, w_deref s.w_set p = some e ∧ e.next = e1.next ∧ e.version = e1.version := by
  have h := hl.2 p hp
  rw [hd] at h
  cases hs : w_deref s.w_set p with
  | none => rw [hs] at h; exact Option.noConfusion h
  | some e =>
    rw [hs] at h
    have h2 : link_and_version e1 = link_and_version e := Option.some.inj h
    refine ⟨e, rfl, ?_, ?_⟩
    · have := congrArg Prod.fst h2
      simpa [link_and_version] using this.symm
    · have := congrArg Prod.snd h2
      simpa [link_and_version] using this.symm

/-- A chain of the end state that starts at an entry live in the start state is
a chain of the start state with the same versions. -/
theorem chain_list_transfer {s t : State} (hclosed : write_set_closed s)
    (hl : links_kept_except (s.w_set.base + s.w_set.nb_entries) s t) :
    ∀ (n p : Nat) (es1 : List (Nat × w_entry_t)),
      s.w_set.base ≤ p → p < s.w_set.base + s.w_set.nb_entries →
      chain_list t.w_set n p = some es1 →
      ∃ es, chain_list s.w_set n p = some es ∧
        es1.map (fun x => x.2.version) = es.map (fun x => x.2.version) := by
  intro n
  induction n with
  | zero => intro p es1 _ _ h; simp [chain_list] at h
  | succ n ih =>
    intro p es1 hb hlive h
    have hpw : p ≠ s.w_set.base + s.w_set.nb_entries := by omega
    obtain ⟨e1, hd1, ⟨hn, hes⟩ | ⟨hn, rest, hrest, hes⟩⟩ := chain_list_inv h
    · obtain ⟨e, hd, hnext, hver⟩ := links_kept_deref hl hpw hd1
      refine ⟨[(p, e)], ?_, ?_⟩
      · unfold chain_list
        simp [hd, hnext, hn]
      · rw [hes]
        simp [hver]
    · obtain ⟨e, hd, hnext, hver⟩ := links_kept_deref hl hpw hd1
      have hlive2 : s.w_set.base ≤ e1.next ∧ e1.next < s.w_set.base + s.w_set.nb_entries := by
        rcases hclosed p e hb hlive hd with h0 | h1
        · rw [hnext] at h0; exact absurd h0 hn
        · rw [hnext] at h1; exact h1
      obtain ⟨es, hes2, hmap⟩ := ih _ _ hlive2.1 hlive2.2 hrest
      refine ⟨(p, e) :: es, ?_, ?_⟩
      · unfold chain_list
        simp [hd, hnext, hn, hes2]
      · rw [hes]
        simp [hver, hmap]

theorem uniform_of_map_eq {es1 es : List (Nat × w_entry_t)}
    (hmap : es1.map (fun x => x.2.version) = es.map (fun x => x.2.version))
    (hu : ∀ x ∈ es, ∀ y ∈ es, x.2.version = y.2.version) :
    ∀ x ∈ es1, ∀ y ∈ es1, x.2.version = y.2.version := by
  intro x hx y hy
  have hx1 : x.2.version ∈ es1.map (fun x => x.2.version) := List.mem_map_of_mem _ hx
  have hy1 : y.2.version ∈ es1.map (fun x => x.2.version) := List.mem_map_of_mem _ hy
  rw [hmap] at hx1 hy1
  obtain ⟨x2, hx2, hxv⟩ := List.mem_map.mp hx1
  obtain ⟨y2, hy2, hyv⟩ := List.mem_map.mp hy1
  rw [← hxv, ← hyv]
  exact hu x2 hx2 y2 hy2

/-- The effect of a store keeps the chains of a closed write set uniform in
version, and keeps the write set closed. -/
theorem store_effect_keeps_common_version {s t : State} (heff : store_effect s t)
    (hclosed : write_set_closed s) (hcv : common_version s) :
    common_version t ∧ write_set_closed t := by
  obtain ⟨hl, hcases⟩ := heff
  have hbase : t.w_set.base = s.w_set.base := hl.1
  have hold : ∀ (lk : LockPtr) (n : Nat) (es1 : List (Nat × w_entry_t)),
      load_lock t lk = load_lock s lk →
      LOCK_GET_OWNED (load_lock t lk) = true →
      s.w_set.base ≤ LOCK_GET_ADDR (load_lock t lk) →
      LOCK_GET_ADDR (load_lock t lk) < s.w_set.base + s.w_set.nb_entries →
      chain_list t.w_set n (LOCK_GET_ADDR (load_lock t lk)) = some es1 →
      ∀ x ∈ es1, ∀ y ∈ es1, x.2.version = y.2.version := by
    intro lk n es1 hlk howned hb hlive hchain
    rw [hlk] at howned hb hlive hchain
    obtain ⟨es, hes, hmap⟩ := chain_list_transfer hclosed hl n _ es1 hb hlive hchain
    exact uniform_of_map_eq hmap (hcv lk n es howned hb hlive hes)
  have hclosed_old : ∀ (p : Nat) (e : w_entry_t), s.w_set.base ≤ p →
      p < s.w_set.base + s.w_set.nb_entries → w_deref t.w_set p = some e →
      e.next = 0 ∨ (s.w_set.base ≤ e.next ∧ e.next < s.w_set.base + s.w_set.nb_entries) := by
    intro p e hb hlive hd
    obtain ⟨e0, hd0, hnext, -⟩ := links_kept_deref hl (by omega) hd
    rw [← hnext]
    exact hclosed p e0 hb hlive hd0
  rcases hcases with ⟨hnb, hlocks⟩ | ⟨hnb, hlocks, T, ew, eT, hTb, hTl, hdw, hwn, hdT, hTn, hver⟩
  · constructor
    · intro lk n es1 howned hb hlive hchain
      rw [hbase] at hb
      rw [hbase, hnb] at hlive
      rcases hlocks lk with hlk | hlk
      · exact hold lk n es1 hlk howned hb hlive hchain
      · rw [hlk] at hlive
        simp only [LOCK_GET_ADDR, LOCK_SET_ADDR] at hlive
        omega
    · intro p e hb hlive hd
      rw [hbase] at hb ⊢
      rw [hbase, hnb] at hlive
      rw [hnb]
      exact hclosed_old p e hb hlive hd
  · constructor
    · intro lk n es1 howned hb hlive hchain
      rw [hbase] at hb
      rw [hbase, hnb] at hlive
      by_cases hw : LOCK_GET_ADDR (load_lock t lk) < s.w_set.base + s.w_set.nb_entries
      · exact hold lk n es1 (hlocks lk) howned hb hw hchain
      · have hhead : LOCK_GET_ADDR (load_lock t lk) = s.w_set.base + s.w_set.nb_entries := by
          omega
        rw [hhead] at hchain
        have hT0 : T ≠ 0 := w_deref_some_ne_null hdT
        cases n with
        | zero => simp [chain_list] at hchain
        | succ n =>
          obtain ⟨e1, hd1, ⟨hn, hes⟩ | ⟨hn, rest, hrest, hes⟩⟩ := chain_list_inv hchain
          · rw [hdw] at hd1
            cases hd1
            rw [hwn] at hn
            exact absurd hn hT0
          · rw [hdw] at hd1
            cases hd1
            rw [hwn] at hrest
            cases n with
            | zero => simp [chain_list] at hrest
            | succ n =>
              obtain ⟨e2, hd2, ⟨hn2, hes2⟩ | ⟨hn2, rest2, hrest2, hes2⟩⟩ := chain_list_inv hrest
              · rw [hdT] at hd2
                cases hd2
                rw [hes, hes2]
                intro x hx y hy
                simp only [List.mem_cons, List.mem_singleton, List.not_mem_nil, or_false] at hx hy
                rcases hx with hx | hx <;> rcases hy with hy | hy <;> rw [hx, hy] <;>
                  simp [hver]
              · rw [hdT] at hd2
                cases hd2
                exact absurd hTn hn2
    · intro p e hb hlive hd
      rw [hbase] at hb ⊢
      rw [hbase, hnb] at hlive
      rw [hnb]
      by_cases hw : p < s.w_set.base + s.w_set.nb_entries
      · rcases hclosed_old p e hb hw hd with h0 | h1
        · exact Or.inl h0
        · exact Or.inr ⟨h1.1, by omega⟩
      · have hp : p = s.w_set.base + s.w_set.nb_entries := by omega
        rw [hp, hdw] at hd
        cases hd
        right
        rw [hwn]
        exact ⟨hTb, by omega⟩

/-- The owned-bucket miss path, when it returns: the pointer returned is the
first unused slot, and the entry there has the version of the last entry of the
chain searched. -/
theorem pwb_write_loop_owned_miss_version (cfg : Config) (cm : CM) (a v m : Nat)
    (lock : LockPtr) (iso : Bool) (fuel n version : Nat) (s : State)
    (es : List (Nat × w_entry_t))
    (hclosed : write_set_closed s)
    (howned : LOCK_GET_OWNED (load_lock s lock) = true)
    (hself : s.w_set.base ≤ LOCK_GET_ADDR (load_lock s lock) ∧
      LOCK_GET_ADDR (load_lock s lock) < s.w_set.base + s.w_set.nb_entries)
    (hchain : chain_list s.w_set n (LOCK_GET_ADDR (load_lock s lock)) = some es)
    (hmiss : es.find? (fun pe => decide (a = pe.2.addr)) = none)
    (hfuel : es.length ≤ fuel) :
    ∀ p s1, pwb_write_loop cfg cm a v m lock iso fuel (load_lock s lock) version s
        = Outcome.ret p s1 →
      p = s.w_set.base + s.w_set.nb_entries ∧
      ∃ ep q eq, w_deref s1.w_set p = some ep ∧ es.getLast? = some (q, eq) ∧
        ep.version = eq.version := by
  intro p s1 h
  obtain ⟨f, rfl⟩ : ∃ f, fuel = f + 1 :=
    ⟨fuel - 1, by have := chain_list_length_pos hchain; omega⟩
  obtain ⟨q, eq, lcn1, hlast, hwalk⟩ := matching_write_set_entry_miss cfg s.w_set a n _ es
    hchain hmiss (f + 1) hfuel 0 (some 0)
  have hqd : w_deref s.w_set q = some eq :=
    chain_list_mem s.w_set n _ es hchain _ (List.mem_of_getLast?_eq_some hlast)
  obtain ⟨T, eT, hlt, hTb, hTl, -, -⟩ :=
    matching_write_set_entry_miss_live cfg s a hclosed (f + 1) _ 0 (some 0) _ hself.1 hself.2
      hwalk rfl
  have hTq : T = q := by
    simp only [Option.some.injEq] at hlt
    exact hlt.symm
  subst hTq
  have hne : T ≠ s.w_set.base + s.w_set.nb_entries := by omega
  unfold pwb_write_loop at h
  simp only [howned, hself, hwalk] at h
  simp only [and_self, if_true, ne_eq, not_true_eq_false, if_false, Option.getD_some] at h
  split at h
  · exact Outcome.noConfusion h
  · split at h
    · exact Outcome.noConfusion h
    · rename_i s2 hm
      split at h
      · exact Outcome.noConfusion h
      · rename_i t ht
        split at h
        · exact Outcome.noConfusion h
        · rename_i s3 hi
          split at h
          · exact Outcome.noConfusion h
          · rename_i s4 hj
            simp only [Outcome.ret.injEq] at h
            obtain ⟨hp, hs⟩ := h
            subst hp hs
            refine ⟨rfl, ?_⟩
            have hl1 : links_kept_except (s.w_set.base + s.w_set.nb_entries) s s2 :=
              of_ok (w_modify_links _ _ _ s (Or.inl rfl)) hm
            have hl2 : links_kept_except (s.w_set.base + s.w_set.nb_entries) s2 s3 :=
              of_ok (initialize_write_set_entry_links _ _ _ _ _ _ s2) hi
            obtain ⟨e2, he2, -, he2v⟩ := initialize_write_set_entry_ok_inv hi
            obtain ⟨e1, hd1, -, hv1⟩ := links_kept_deref hl1 hne ht
            have he1 : e1 = eq := Option.some.inj (hd1.symm.trans hqd)
            have hT3 : ∃ eT3, w_deref s3.w_set T = some eT3 := by
              have := hl2.2 T hne
              rw [ht] at this
              cases hd : w_deref s3.w_set T with
              | none => rw [hd] at this; exact Option.noConfusion this
              | some x => exact ⟨x, rfl⟩
            obtain ⟨eT3, heT3⟩ := hT3
            obtain ⟨-, hd4, -⟩ := insert_swapped_effect T (s.w_set.base + s.w_set.nb_entries)
              (Option.getD lcn1 0) s3 e2 eT3 he2 heT3 hne
            rw [hj] at hd4
            simp only [step_state] at hd4
            refine ⟨{ e2 with next := T }, T, eq, ?_, hlast, ?_⟩
            · rw [hd4, if_pos rfl]
            · show e2.version = eq.version
              rw [he2v, ← hv1, he1]

/-- The initialisation of a valid slot with a valid persistent twin
completes. -/
theorem initialize_write_set_entry_ok (w address value mask version q : Nat) (lock : LockPtr)
    (s : State) (e0 : w_entry_t) (n0 : w_entry_nv_t)
    (hw : w_deref s.w_set w = some e0) (hq : e0.w_entry_nv = some q)
    (hn : s.w_set_nv.entries[q]? = some n0) :
    ∃ t, initialize_write_set_entry w address value mask version lock s = Except.ok t := by
  have step : ∀ (x : State) (e : w_entry_t) (f : w_entry_t → w_entry_t),
      w_deref x.w_set w = some e →
      ∃ y, w_modify w f x = Except.ok y ∧ w_deref y.w_set w = some (f e) ∧
        y.w_set_nv = x.w_set_nv := by
    intro x e f hx
    exact ⟨_, w_modify_ok f hx, w_deref_w_assign_self hx _, rfl⟩
  obtain ⟨s1, h1, hd1, hv1⟩ := step s e0 (fun e => { e with addr := address }) hw
  obtain ⟨s2, h2, hd2, hv2⟩ := step s1 _ (fun e => { e with lock := lock }) hd1
  obtain ⟨s3, h3, hd3, hv3⟩ : ∃ y, mask_new_value w address value mask s2 = Except.ok y ∧
      (∃ e, w_deref y.w_set w = some e ∧ e.w_entry_nv = some q) ∧
      y.w_set_nv = s2.w_set_nv := by
    unfold mask_new_value
    simp only [hd2]
    exact ⟨_, rfl, ⟨_, w_deref_w_assign_self hd2 _, hq⟩, rfl⟩
  obtain ⟨e3, hd3, hq3⟩ := hd3
  obtain ⟨s4, h4, hd4, hv4⟩ := step s3 e3 (fun e => { e with version := version }) hd3
  obtain ⟨s5, h5, hd5, hv5⟩ := step s4 _ (fun e => { e with next := 0 }) hd4
  have hn5 : s5.w_set_nv.entries[q]? = some n0 := by
    rw [hv5, hv4, hv3, hv2, hv1]; exact hn
  have h6 := nv_modify_ok (fun n => { n with next_cache_neighbor := 0 }) hd5
    (by exact hq3) hn5
  unfold initialize_write_set_entry
  simp only [h1, h2, h3, h4, h5, h6, except_ok_bind]
  exact ⟨_, rfl⟩

/-- The acquisition of a free bucket with a valid slot at hand: the store ends
with the lock word pointing to the slot, and the entry there has the timestamp
of the lock word replaced and a `NULL` link. -/
theorem pwb_write_loop_free_version (cfg : Config) (cm : CM) (a v m q : Nat)
    (lock : LockPtr) (fuel version : Nat) (s : State) (e0 : w_entry_t) (n0 : w_entry_nv_t)
    (hfree : LOCK_GET_OWNED (load_lock s lock) = false)
    (hver : LOCK_GET_TIMESTAMP (load_lock s lock) ≤ s.end_ ∨ (s.can_extend = true ∧
      mtm_has_read s lock = none))
    (hroom : s.w_set.nb_entries ≠ s.w_set.size)
    (hw : w_deref s.w_set (s.w_set.base + s.w_set.nb_entries) = some e0)
    (hq : e0.w_entry_nv = some q) (hn : s.w_set_nv.entries[q]? = some n0) :
    ∃ s1 e, (pwb_write_loop cfg cm a v m lock true (fuel + 1) (load_lock s lock)
        version s).state? = some s1 ∧
      load_lock s1 lock = LOCK_SET_ADDR (s.w_set.base + s.w_set.nb_entries) ∧
      w_deref s1.w_set (s.w_set.base + s.w_set.nb_entries) = some e ∧
      e.version = LOCK_GET_TIMESTAMP (load_lock s lock) ∧ e.next = 0 := by
  have hst := pwb_write_loop_free_state cfg cm a v m lock fuel version s hfree hver hroom
  have hws := store_lock_w_set s lock (LOCK_SET_ADDR (s.w_set.base + s.w_set.nb_entries))
  have hnv : (store_lock s lock (LOCK_SET_ADDR (s.w_set.base + s.w_set.nb_entries))).w_set_nv
      = s.w_set_nv := by
    cases lock <;> rfl
  obtain ⟨t, ht⟩ := initialize_write_set_entry_ok (s.w_set.base + s.w_set.nb_entries) a v m
    (LOCK_GET_TIMESTAMP (load_lock s lock)) q lock
    (store_lock s lock (LOCK_SET_ADDR (s.w_set.base + s.w_set.nb_entries))) e0 n0
    (by rw [hws]; exact hw) hq (by rw [hnv]; exact hn)
  obtain ⟨e, hd, hnext, hversion⟩ := initialize_write_set_entry_ok_inv ht
  have hf := frame_of_ok (initialize_write_set_entry_frame _ _ _ _ _ _ _ _
    (same_outside_write_set_refl _)) ht
  rw [ht] at hst
  refine ⟨t, e, hst, ?_, hd, hversion, hnext⟩
  rw [load_lock_frame hf, store_lock_load]

/-- In a closed write set whose live entries all have the version `V`, the
chains from the bucket heads are uniform in version. -/
theorem common_version_of_live (s : State) (V : Nat) (hclosed : write_set_closed s)
    (hV : ∀ (p : Nat) (e : w_entry_t), s.w_set.base ≤ p →
      p < s.w_set.base + s.w_set.nb_entries → w_deref s.w_set p = some e → e.version = V) :
    common_version s := by
  have hlive : ∀ (n p : Nat) (es : List (Nat × w_entry_t)), s.w_set.base ≤ p →
      p < s.w_set.base + s.w_set.nb_entries → chain_list s.w_set n p = some es →
      ∀ x ∈ es, x.2.version = V := by
    intro n
    induction n with
    | zero => intro p es _ _ h; simp [chain_list] at h
    | succ n ih =>
      intro p es hb hl h x hx
      obtain ⟨e0, hd, ⟨hn, hes⟩ | ⟨hn, rest, hrest, hes⟩⟩ := chain_list_inv h
      · rw [hes, List.mem_singleton] at hx
        rw [hx]
        exact hV p e0 hb hl hd
      · rw [hes] at hx
        rcases List.mem_cons.mp hx with hx | hx
        · rw [hx]
          exact hV p e0 hb hl hd
        · rcases hclosed p e0 hb hl hd with h0 | h1
          · exact absurd h0 hn
          · exact ih _ _ h1.1 h1.2 hrest x hx
  intro lk n es _ hb hl hchain x hx y hy
  rw [hlive n _ es hb hl hchain x hx, hlive n _ es hb hl hchain y hy]

theorem common_version_congr {s t : State} (hw : t.w_set = s.w_set)
    (hl : ∀ lk, load_lock t lk = load_lock s lk)
    (hclosed : write_set_closed s) (hcv : common_version s) :
    common_version t ∧ write_set_closed t := by
  constructor
  · intro lk n es howned hb hlive hchain
    rw [hl lk] at howned hb hlive hchain
    rw [hw] at hb hlive hchain
    exact hcv lk n es howned hb hlive hchain
  · intro p e hb hlive hd
    rw [hw] at hb hlive hd ⊢
    exact hclosed p e hb hlive hd

theorem s_chain_closed : write_set_closed s_chain := by
  intro p e hb hl hd
  have hp : p = 1000 ∨ p = 1001 ∨ p = 1002 := by
    simp only [s_chain, ws_chain] at hb hl
    omega
  rcases hp with hp | hp | hp <;> subst hp <;>
    simp [w_deref, s_chain, ws_chain] at hd <;> subst hd <;> simp [s_chain, ws_chain]

theorem s_chain_common : common_version s_chain := by
  refine common_version_of_live s_chain 3 s_chain_closed ?_
  intro p e hb hl hd
  have hp : p = 1000 ∨ p = 1001 ∨ p = 1002 := by
    simp only [s_chain, ws_chain] at hb hl
    omega
  rcases hp with hp | hp | hp <;> subst hp <;>
    simp [w_deref, s_chain, ws_chain] at hd <;> subst hd <;> rfl

/-- C24. Common version per bucket chain, with isolation enabled. In a
transaction whose write set is closed under `next`, if all entries reachable
from every bucket head share one version before a store, they still do in the
state in which the store ends, however it ends, and the write set is still
closed. An entry added to an already-owned bucket (the store returns after a
miss on the chain `es` of that bucket) sits in the first unused slot and has
the version of the entries of `es`. An entry that acquires a free bucket takes
the timestamp of the lock word it replaced: the lock word then points to the
slot, and the entry there has that timestamp as version and a `NULL` link
(on this path the store does not return, it faults in the insertion that
follows). -/
theorem store_keeps_common_version (cfg : Config) (cm : CM) (fuel : Nat) (s : State)
    (a v m : Nat) (hclosed : write_set_closed s) (hcv : common_version s) :
    (∀ s1, (pwb_write_internal cfg cm fuel s a v m true).state? = some s1 →
      common_version s1 ∧ write_set_closed s1) ∧
    (∀ (n : Nat) (es : List (Nat × w_entry_t)) (p : Nat) (s1 : State),
      s.status = TX_ACTIVE → stack_filter s a = false →
      LOCK_GET_OWNED (load_lock s (GET_LOCK cfg a)) = true →
      (s.w_set.base ≤ LOCK_GET_ADDR (load_lock s (GET_LOCK cfg a)) ∧
        LOCK_GET_ADDR (load_lock s (GET_LOCK cfg a)) < s.w_set.base + s.w_set.nb_entries) →
      chain_list s.w_set n (LOCK_GET_ADDR (load_lock s (GET_LOCK cfg a))) = some es →
      es.find? (fun pe => decide (a = pe.2.addr)) = none → es.length ≤ fuel →
      pwb_write_internal cfg cm fuel s a v m true = Outcome.ret p s1 →
      p = s.w_set.base + s.w_set.nb_entries ∧
      ∃ ep, w_deref s1.w_set p = some ep ∧ ∀ x ∈ es, ep.version = x.2.version) ∧
    (∀ (q : Nat) (e0 : w_entry_t) (n0 : w_entry_nv_t),
      s.status = TX_ACTIVE → stack_filter s a = false →
      LOCK_GET_OWNED (load_lock s (GET_LOCK cfg a)) = false →
      (LOCK_GET_TIMESTAMP (load_lock s (GET_LOCK cfg a)) ≤ s.end_ ∨
        (s.can_extend = true ∧ mtm_has_read s (GET_LOCK cfg a) = none)) →
      s.w_set.nb_entries ≠ s.w_set.size →
      w_deref s.w_set (s.w_set.base + s.w_set.nb_entries) = some e0 →
      e0.w_entry_nv = some q → s.w_set_nv.entries[q]? = some n0 →
      ∃ s1 e, (pwb_write_internal cfg cm (fuel + 1) s a v m true).state? = some s1 ∧
        (pwb_write_internal cfg cm (fuel + 1) s a v m true).faulted = true ∧
        load_lock s1 (GET_LOCK cfg a) = LOCK_SET_ADDR (s.w_set.base + s.w_set.nb_entries) ∧
        w_deref s1.w_set (s.w_set.base + s.w_set.nb_entries) = some e ∧
        e.version = LOCK_GET_TIMESTAMP (load_lock s (GET_LOCK cfg a)) ∧ e.next = 0) := by
  refine ⟨?_, ?_, ?_⟩
  · intro s1 h
    unfold pwb_write_internal at h
    split at h
    · simp only [Outcome.state?, Option.some.injEq] at h
      subst h
      exact ⟨hcv, hclosed⟩
    · split at h
      · split at h
        · simp only [Outcome.state?, Option.some.injEq] at h
          subst h
          exact ⟨hcv, hclosed⟩
        · simp only [Outcome.state?, Option.some.injEq] at h
          subst h
          exact common_version_congr rfl (fun lk => by cases lk <;> rfl) hclosed hcv
      · simp only [] at h
        exact store_effect_keeps_common_version
          (pwb_write_loop_store_effect cfg cm a v m _ true fuel _ 0 s s1 hclosed h) hclosed hcv
  · intro n es p s1 hact hstack howned hself hchain hmiss hfuel h
    have hst : pwb_write_internal cfg cm fuel s a v m true
        = pwb_write_loop cfg cm a v m (GET_LOCK cfg a) true fuel
          (load_lock s (GET_LOCK cfg a)) 0 s := by
      unfold pwb_write_internal
      simp [hact, hstack]
    rw [hst] at h
    obtain ⟨hp, ep, q, eq, hd, hlast, hver⟩ := pwb_write_loop_owned_miss_version cfg cm a v m
      (GET_LOCK cfg a) true fuel n 0 s es hclosed howned hself hchain hmiss hfuel p s1 h
    refine ⟨hp, ep, hd, ?_⟩
    intro x hx
    rw [hver]
    exact hcv (GET_LOCK cfg a) n es howned hself.1 hself.2 hchain _
      (List.mem_of_getLast?_eq_some hlast) x hx
  · intro q e0 n0 hact hstack hfree hver hroom hw hq hn
    have hst : pwb_write_internal cfg cm (fuel + 1) s a v m true
        = pwb_write_loop cfg cm a v m (GET_LOCK cfg a) true (fuel + 1)
          (load_lock s (GET_LOCK cfg a)) 0 s := by
      unfold pwb_write_internal
      simp [hact, hstack]
    obtain ⟨s1, e, h1, h2, h3, h4, h5⟩ := pwb_write_loop_free_version cfg cm a v m q
      (GET_LOCK cfg a) fuel 0 s e0 n0 hfree hver hroom hw hq hn
    obtain ⟨s2, hfault, -, -⟩ := pwb_write_loop_free_faults cfg cm a v m (GET_LOCK cfg a) fuel 0
      s hfree hver hroom
    rw [hst]
    refine ⟨s1, e, h1, ?_, h2, h3, h4, h5⟩
    rw [hfault]
    rfl

/-- A store to address 4112 by the transaction of `s_chain`, whose bucket 128
is owned through the chain `1000 -> 1001 -> 1002` of entries of version 3: the
store misses, returns the new entry 1003, and that entry has version 3. A store
to address 4096 by the fresh transaction takes the free bucket 128 (timestamp
3) for slot 1000, whose entry gets version 3. -/
theorem store_keeps_common_version_witness :
    write_set_closed s_chain ∧ common_version s_chain ∧
    (pwb_write_internal cfg0 cm0 4 s_chain 4112 9 WORD_MAX true).val? = some 1003 ∧
    ((pwb_write_internal cfg0 cm0 4 s_chain 4112 9 WORD_MAX true).state?.bind (fun s1 =>
      w_deref s1.w_set 1003)).map (fun e => (e.addr, e.version)) = some (4112, 3) ∧
    ((pwb_write_internal cfg0 cm0 4 s_fresh 4096 9 WORD_MAX true).state?.bind (fun s1 =>
      w_deref s1.w_set 1000)).map (fun e => (e.addr, e.version, e.next)) = some (4096, 3, 0) ∧
    ∃ s1, (pwb_write_internal cfg0 cm0 4 s_chain 4112 9 WORD_MAX true).state? = some s1 ∧
      common_version s1 ∧ write_set_closed s1 :=
  ⟨s_chain_closed, s_chain_common, by decide, by decide, by decide,
    ⟨_, rfl, (store_keeps_common_version cfg0 cm0 4 s_chain 4112 9 WORD_MAX
      s_chain_closed s_chain_common).1 _ rfl⟩⟩

end Mnemosyne
